import Mathlib

/-!
# SimpleVoxelTracer: sparse voxel terrain and pool allocator

A shallow embedding of `src/inc/pool_allocator.h` and `src/src/terrain.c`.

Conventions of the embedding
* `u8`, `u32`, `u64` values are natural numbers; every C operation that can
  wrap is followed by an explicit reduction modulo `2^8`, `2^32` or `2^64`.
* A buffer is a total map from byte offsets to bytes (`Bytes`), together with
  the address of its first byte.  Pointers are absolute addresses, `0` is
  `NULL`, a machine word has 8 bytes and is stored little-endian.
* `_mm_malloc` is external: the block it would hand out (address and the
  indeterminate bytes found there) is an argument, `Block`.
* The preprocessor symbol `DEBUG_MODE` is an explicit boolean argument.
* The floating point noise of `generate` is an argument, `Noise`.
-/

namespace VoxelTerrain

/-! ## Machine integers and raw memory -/

/-- Truncation to an unsigned 8 bit value. -/
def u8 (n : Nat) : Nat := n % 256

/-- Truncation to an unsigned 32 bit value. -/
def u32 (n : Nat) : Nat := n % 4294967296

/-- Truncation to a 64 bit machine word (`uintptr_t`, `size_t`). -/
def u64 (n : Nat) : Nat := n % 18446744073709551616

/-- Subtraction `a - b` of `u32` values, with wrap-around. -/
def sub32 (a b : Nat) : Nat := u32 (4294967296 - b + a)

/-- Subtraction `a - b` of 64 bit machine words, with wrap-around. -/
def sub64 (a b : Nat) : Nat := u64 (18446744073709551616 - b + a)

/-- Contents of a buffer: the byte found at each offset from its base. -/
abbrev Bytes := Nat → Nat

/-- What `_mm_malloc` returns: the address of the block and the
(indeterminate) bytes it holds. -/
structure Block where
  addr : Nat
  init : Bytes

/-- Byte load `p[off]`. -/
def loadByte (m : Bytes) (off : Nat) : Nat := u8 (m off)

/-- Byte store `p[off] = v`. -/
def storeByte (m : Bytes) (off v : Nat) : Bytes :=
  fun i => if i = off then u8 v else m i

/-- The C library call `memset(p + off, c, n)`. -/
def memset (m : Bytes) (off c n : Nat) : Bytes :=
  fun i => if off ≤ i ∧ i < off + n then u8 c else m i

/-- The C library call `memcpy(dst, src, n)` between two distinct buffers. -/
def memcpy (dst src : Bytes) (n : Nat) : Bytes :=
  fun i => if i < n then src i else dst i

/-- Load of a little-endian unsigned integer of `k` bytes at offset `off`. -/
def loadLE (m : Bytes) (off : Nat) : Nat → Nat
  | 0 => 0
  | k + 1 => loadByte m off + 256 * loadLE m (off + 1) k

/-- Store of a little-endian unsigned integer of `k` bytes at offset `off`. -/
def storeLE (m : Bytes) (off : Nat) : Nat → Nat → Bytes
  | 0, _ => m
  | k + 1, w => storeLE (storeByte m off w) (off + 1) k (w / 256)

/-- Load of a machine word (`uintptr_t`). -/
def loadWord (m : Bytes) (off : Nat) : Nat := loadLE m off 8

/-- Store of a machine word (`uintptr_t`). -/
def storeWord (m : Bytes) (off w : Nat) : Bytes := storeLE m off 8 w

/-- Load of a `u32`. -/
def load32 (m : Bytes) (off : Nat) : Nat := loadLE m off 4

/-- Store of a `u32`. -/
def store32 (m : Bytes) (off w : Nat) : Bytes := storeLE m off 4 w

/-- The C library call `memcmp(p + off, p + off + 1, n) == 0`. -/
def memcmpNext (m : Bytes) (off n : Nat) : Bool :=
  (List.range n).all (fun i => loadByte m (off + i) == loadByte m (off + 1 + i))

/-! ## pool_allocator.h -/

/-- The C struct `PoolAllocator`.  `bytes` is the content of the buffer that
`memory` points to. -/
structure PoolAllocator where
  nextFree : Nat
  unused : Nat
  unitSize : Nat
  memory : Nat
  bytes : Bytes
  maxSize : Nat
  size : Nat
  ownsMemory : Bool

/-- Offset of the address `ptr` from the address `memory` of a buffer
(`(uintptr_t) ptr - (uintptr_t) memory`). -/
def ptrOffset (memory ptr : Nat) : Nat :=
  sub64 ptr memory

/-- The function `poolAllocatorFreeAll`. -/
def poolAllocatorFreeAll (p : PoolAllocator) : PoolAllocator :=
  { p with size := 0, unused := p.maxSize, nextFree := 0 }

/-- The function `poolAllocatorDestroy` (the release of the buffer itself is
outside the embedding). -/
def poolAllocatorDestroy (p : PoolAllocator) : PoolAllocator :=
  { p with maxSize := 0 }

/-- The function `poolAllocatorAllocPtr`; the returned pointer is `0` for `NULL`.
`fresh` is the block `_mm_malloc` returns if the pool has to grow. -/
def poolAllocatorAllocPtr (fresh : Block) (p : PoolAllocator) : PoolAllocator × Nat :=
  if p.nextFree ≠ 0 then
    ({ p with nextFree := loadWord p.bytes (ptrOffset p.memory p.nextFree),
              size := u32 (p.size + 1) }, p.nextFree)
  else if p.unused > 0 then
    ({ p with unused := p.unused - 1, size := u32 (p.size + 1) },
      u64 (p.memory + u32 (sub32 p.maxSize p.unused * p.unitSize)))
  else if p.ownsMemory then
    let unused := u32 (p.unused + p.maxSize)
    let maxSize := u32 (p.maxSize * 2)
    let bytes := memcpy fresh.init p.bytes (u32 (maxSize / 2 * p.unitSize))
    ({ p with unused := sub32 unused 1, maxSize := maxSize,
              memory := fresh.addr, bytes := bytes, size := u32 (p.size + 1) },
      u64 (fresh.addr + u32 (sub32 maxSize unused * p.unitSize)))
  else
    (p, 0)

/-- The function `poolAllocatorAlloc`. -/
def poolAllocatorAlloc (fresh : Block) (p : PoolAllocator) : PoolAllocator × Nat :=
  let r := poolAllocatorAllocPtr fresh p
  (r.1, if r.2 = 0 then 0 else u32 (ptrOffset r.1.memory r.2 / r.1.unitSize))

/-- The function `poolAllocatorDeallocPtr`. -/
def poolAllocatorDeallocPtr (p : PoolAllocator) (ptr : Nat) : PoolAllocator :=
  { p with bytes := storeWord p.bytes (ptrOffset p.memory ptr) p.nextFree,
           nextFree := ptr,
           size := sub32 p.size 1 }

/-- The function `poolAllocatorGet`: the address of unit `idx`. -/
def poolAllocatorGet (p : PoolAllocator) (idx : Nat) : Nat :=
  u64 (p.memory + u32 (idx * p.unitSize))

/-- The function `poolAllocatorDealloc`. -/
def poolAllocatorDealloc (p : PoolAllocator) (idx : Nat) : PoolAllocator :=
  poolAllocatorDeallocPtr p (u64 (p.memory + u32 (idx * p.unitSize)))

/-- The function `poolAllocatorCreate`.  `memory.addr = 0` stands for the
argument `memory == NULL`, in which case the block `fresh` of `_mm_malloc`
is used. -/
def poolAllocatorCreate (fresh : Block) (maxCount itemByteSize : Nat) (memory : Block) :
    PoolAllocator :=
  poolAllocatorFreeAll
    { nextFree := 0, unused := 0, unitSize := itemByteSize,
      memory := if memory.addr ≠ 0 then memory.addr else fresh.addr,
      bytes := if memory.addr ≠ 0 then memory.init else fresh.init,
      maxSize := maxCount, size := 0,
      ownsMemory := if memory.addr ≠ 0 then false else true }

/-! ## terrain.h, terrain.c -/

/-- The C struct `Terrain`.  `topLevelArray` is the content of the array the
field points to, one `u32` per index. -/
structure Terrain where
  topLevelArray : Nat → Nat
  chunkPool : PoolAllocator
  chunkBitmaskPool : PoolAllocator
  width : Nat
  height : Nat
  widthChunkC : Nat
  heightChunkC : Nat
  chunkCount : Nat
  dirty : Bool

/-- The function `getChunkIdx`. -/
def getChunkIdx (x y z width height : Nat) : Nat :=
  let superChunkIdx :=
    u32 (u32 (u32 (u32 ((x >>> 4) * (width >>> 4)) + (z >>> 4)) * (height >>> 4)) + (y >>> 4))
  let withinSuperChunkIdx :=
    u32 (u32 (u32 (((x >>> 3) &&& 1) <<< 2) + u32 (((z >>> 3) &&& 1) <<< 1)) + ((y >>> 3) &&& 1))
  u32 (u32 (superChunkIdx <<< 3) + withinSuperChunkIdx)

/-- The function `getWithinChunkIdx`. -/
def getWithinChunkIdx (x y z : Nat) : Nat :=
  u32 (u32 (u32 ((x &&& 7) * 64) + u32 ((z &&& 7) * 8)) + (y &&& 7))

/-- The function `setBit`, on the value of the word `*memory`. -/
def setBit (memory idx : Nat) (value : Bool) : Nat :=
  let mask := u32 ((if value then 1 else 0) <<< sub32 31 idx)
  let memory := memory &&& (4294967295 - mask)
  memory ||| mask

/-- The function `packColor`. -/
def packColor (r g b : Nat) : Nat :=
  let r := r >>> 5
  let g := g >>> 5
  let b := b >>> 6
  if r = 0 ∧ g = 0 ∧ b = 0 then u8 ((1 <<< 5) ||| (1 <<< 2) ||| 1)
  else u8 ((r <<< 5) ||| (g <<< 2) ||| b)

/-- The bounds test compiled into `terrain_setBlock` and `terrain_getBlock`
under `DEBUG_MODE`. -/
def outOfBounds (terrain : Terrain) (x y z : Nat) : Bool :=
  decide (x ≥ terrain.width) || decide (z ≥ terrain.width) || decide (y ≥ terrain.height)

/-- The statement `setBit(&bitmaskData[withinChunkIdx / 32], withinChunkIdx % 32, value)`
on the bitmask unit at address `ptr` of the pool `p`. -/
def setBitmaskBit (p : PoolAllocator) (ptr withinChunkIdx value : Nat) : PoolAllocator :=
  let off := ptrOffset p.memory ptr + 4 * (withinChunkIdx / 32)
  let word := setBit (load32 p.bytes off) (withinChunkIdx % 32) (decide (value ≠ 0))
  { p with bytes := store32 p.bytes off word }

/-- The chunk data of pool unit `chunkVal` after `chunkData[withinChunkIdx] = value`
(line 113 of `terrain_setBlock`). -/
def writtenPool (terrain : Terrain) (chunkVal withinChunkIdx value : Nat) : PoolAllocator :=
  let chunkData := poolAllocatorGet terrain.chunkPool chunkVal
  let off := ptrOffset terrain.chunkPool.memory chunkData
  { terrain.chunkPool with
    bytes := storeByte terrain.chunkPool.bytes (off + withinChunkIdx) value }

/-- The test `memcmp(chunkData, chunkData + 1, 511) == 0` of line 120, after the store of
line 113. -/
def nowUniform (terrain : Terrain) (chunkVal withinChunkIdx value : Nat) : Bool :=
  memcmpNext (writtenPool terrain chunkVal withinChunkIdx value).bytes
    (ptrOffset terrain.chunkPool.memory (poolAllocatorGet terrain.chunkPool chunkVal)) 511

/-- Lines 110 to 131 of `terrain_setBlock`: the chunk is already expanded
(`check == 0b10`). -/
def setBlockExpanded (terrain : Terrain) (chunkIdx chunkVal withinChunkIdx value : Nat) :
    Terrain :=
  let pool := writtenPool terrain chunkVal withinChunkIdx value
  let bitmaskData := poolAllocatorGet terrain.chunkBitmaskPool chunkVal
  let maskPool := setBitmaskBit terrain.chunkBitmaskPool bitmaskData withinChunkIdx value
  if nowUniform terrain chunkVal withinChunkIdx value then
    let uniformValue := loadByte pool.bytes
      (ptrOffset terrain.chunkPool.memory (poolAllocatorGet terrain.chunkPool chunkVal))
    let entry := if uniformValue ≠ 0 then uniformValue ||| u32 (3 <<< 30) else uniformValue
    { terrain with
      topLevelArray := Function.update terrain.topLevelArray chunkIdx entry,
      chunkPool := poolAllocatorDealloc pool chunkVal,
      chunkBitmaskPool := poolAllocatorDealloc maskPool chunkVal,
      dirty := true }
  else
    { terrain with chunkPool := pool, chunkBitmaskPool := maskPool, dirty := true }

/-- The chunk data written by lines 136 to 138 and 144 of `terrain_setBlock` into the unit
at offset `off`: the unit is filled with `chunkVal`, the target byte is set, and the
`memset` of line 144 goes to `chunkData` again. -/
def expandedBytes (bytes : Bytes) (off chunkVal withinChunkIdx value : Nat) : Bytes :=
  memset (storeByte (memset bytes off chunkVal 512) (off + withinChunkIdx) value)
    off (if chunkVal = 0 then 0 else 255) 64

/-- Lines 133 to 146 of `terrain_setBlock`: the chunk is newly allocated. -/
def setBlockExpand (fresh₁ fresh₂ : Block) (terrain : Terrain)
    (chunkIdx chunkVal withinChunkIdx value : Nat) : Terrain :=
  let r := poolAllocatorAlloc fresh₁ terrain.chunkPool
  let newChunkIdx := r.2
  let chunkData := poolAllocatorGet r.1 newChunkIdx
  let maskPool := (poolAllocatorAlloc fresh₂ terrain.chunkBitmaskPool).1
  let bitmaskData := poolAllocatorGet maskPool newChunkIdx
  { terrain with
    topLevelArray :=
      Function.update terrain.topLevelArray chunkIdx (u32 (2 <<< 30) ||| newChunkIdx),
    chunkPool := { r.1 with
      bytes := expandedBytes r.1.bytes (ptrOffset r.1.memory chunkData) chunkVal
        withinChunkIdx value },
    chunkBitmaskPool := setBitmaskBit maskPool bitmaskData withinChunkIdx value,
    dirty := true }

/-- The function `terrain_setBlock`.  `fresh₁` and `fresh₂` are the blocks
`_mm_malloc` returns if `chunkPool`, respectively `chunkBitmaskPool`, grows. -/
def terrain_setBlock (DEBUG_MODE : Bool) (fresh₁ fresh₂ : Block) (terrain : Terrain)
    (x y z value : Nat) : Terrain :=
  if DEBUG_MODE && outOfBounds terrain x y z then terrain
  else
    let chunkIdx := getChunkIdx x y z terrain.width terrain.height
    let chunkVal := terrain.topLevelArray chunkIdx
    let check := chunkVal >>> 30
    let chunkVal := u32 (chunkVal <<< 2) >>> 2
    if check = 0 ∧ value = 0 then terrain
    else if check = 3 ∧ value = chunkVal then terrain
    else
      let withinChunkIdx := getWithinChunkIdx x y z
      if check = 2 then setBlockExpanded terrain chunkIdx chunkVal withinChunkIdx value
      else setBlockExpand fresh₁ fresh₂ terrain chunkIdx chunkVal withinChunkIdx value

/-- The function `terrain_getBlock`. -/
def terrain_getBlock (DEBUG_MODE : Bool) (terrain : Terrain) (x y z : Nat) : Nat :=
  if DEBUG_MODE && outOfBounds terrain x y z then 0
  else
    let chunkIdx := getChunkIdx x y z terrain.width terrain.height
    let chunkVal := terrain.topLevelArray chunkIdx
    let check := chunkVal >>> 30
    if check = 0 then 0
    else if check = 3 then u8 (chunkVal &&& 255)
    else
      let chunkData := poolAllocatorGet terrain.chunkPool (u32 (chunkVal <<< 2) >>> 2)
      let withinChunkIdx := getWithinChunkIdx x y z
      loadByte terrain.chunkPool.bytes (ptrOffset terrain.chunkPool.memory chunkData + withinChunkIdx)

/-- The blocks `_mm_malloc` returns to `terrain_init`: one for the top level
array and one for each pool. -/
structure InitBlocks where
  top : Block
  chunk : Block
  bitmask : Block

/-- The terrain built by lines 17 to 35 of `terrain_init`, before `generate`
runs: every top level entry of the array zeroed by `memset`, both pools
created, `dirty` set. -/
def emptyTerrain (m : InitBlocks) (width height : Nat) : Terrain :=
  let widthChunkC := width / 8
  let heightChunkC := height / 8
  let chunkCount := u32 (u32 (widthChunkC * widthChunkC) * heightChunkC)
  let initialPoolSize := 65536
  { topLevelArray := fun i => if i < u64 (chunkCount * 4) / 4 then 0 else u32 (m.top.init i),
    chunkPool := poolAllocatorCreate m.chunk initialPoolSize 512 ⟨0, fun _ => 0⟩,
    chunkBitmaskPool := poolAllocatorCreate m.bitmask initialPoolSize 64 ⟨0, fun _ => 0⟩,
    width := width, height := height,
    widthChunkC := widthChunkC, heightChunkC := heightChunkC,
    chunkCount := chunkCount,
    dirty := true }

/-- The floating point side of `generate` (the noise library and the
comparisons against fractions of the height), taken as given. -/
structure Noise where
  /-- The `u16` stored in `heightMap[x][z]` for the chunk column `(cx, cz)`. -/
  heightMap : (cx cz x z : Nat) → Nat
  /-- Outcome of `y <= 0.25 * terrain->height`, as a function of `y` and the height. -/
  belowQuarter : Nat → Nat → Bool
  /-- Outcome of `y <= 0.15 * terrain->height`, as a function of `y` and the height. -/
  belowFifteen : Nat → Nat → Bool
  /-- Block `_mm_malloc` returns if `chunkPool` grows while the chunk with this
  top level index is generated. -/
  growChunk : Nat → Block
  /-- Block `_mm_malloc` returns if `chunkBitmaskPool` grows while the chunk with
  this top level index is generated. -/
  growBitmask : Nat → Block

/-- Local variables of `generate` that live across the voxels of one chunk. -/
structure GenState where
  terrain : Terrain
  chunkEmpty : Bool
  blockData : Nat
  bitmask : Nat

/-- Number of iterations of `for (int dy = 0; dy < height; dy++)` where
`int height = min(8, heightMap[dx][dz] - cy * 8)`: the difference is taken in
`u32`, read as an `int` by `cp_mini`, and a negative bound gives no iteration. -/
def columnHeight (hm cy : Nat) : Nat :=
  let d := sub32 (hm % 65536) (u32 (cy * 8))
  if 2147483648 ≤ d then 0 else if 8 > d then d else 8

/-- Body of the innermost loop of `generate` for the voxel `(x, y, z)`. -/
def generateVoxel (n : Noise) (chunkIdx hm x y z : Nat) (s : GenState) : GenState :=
  let s :=
    if s.chunkEmpty then
      let r := poolAllocatorAlloc (n.growChunk chunkIdx) s.terrain.chunkPool
      let poolIdx := r.2
      let maskPool := (poolAllocatorAlloc (n.growBitmask chunkIdx) s.terrain.chunkBitmaskPool).1
      let blockData := poolAllocatorGet r.1 poolIdx
      let bitmask := poolAllocatorGet maskPool poolIdx
      let pool := { r.1 with bytes := memset r.1.bytes (ptrOffset r.1.memory blockData) 0 512 }
      let maskPool :=
        { maskPool with bytes := memset maskPool.bytes (ptrOffset maskPool.memory bitmask) 0 64 }
      { terrain := { s.terrain with
          topLevelArray :=
            Function.update s.terrain.topLevelArray chunkIdx (u32 (2 <<< 30) ||| poolIdx),
          chunkPool := pool, chunkBitmaskPool := maskPool },
        chunkEmpty := false, blockData := blockData, bitmask := bitmask }
    else s
  let blockIdx := getWithinChunkIdx x y z
  let color := packColor 135 135 135
  let nearTop := decide (y ≥ sub32 (hm % 65536) 3)
  let color := if n.belowQuarter y s.terrain.height && nearTop then packColor 86 125 70 else color
  let color := if n.belowFifteen y s.terrain.height && nearTop then packColor 92 73 73 else color
  let pool := s.terrain.chunkPool
  let pool := { pool with
    bytes := storeByte pool.bytes (ptrOffset pool.memory s.blockData + blockIdx) color }
  let maskPool := setBitmaskBit s.terrain.chunkBitmaskPool s.bitmask blockIdx 1
  { s with terrain := { s.terrain with chunkPool := pool, chunkBitmaskPool := maskPool } }

/-- The statements of `generate` that follow the voxel loops of one chunk:
a chunk that was allocated and came out uniform is collapsed. -/
def generateCollapse (chunkIdx : Nat) (s : GenState) : Terrain :=
  let t := s.terrain
  if !s.chunkEmpty && memcmpNext t.chunkPool.bytes (ptrOffset t.chunkPool.memory s.blockData) 511 then
    let poolIdx := u32 (t.topLevelArray chunkIdx <<< 2) >>> 2
    let uniformValue := loadByte t.chunkPool.bytes (ptrOffset t.chunkPool.memory s.blockData)
    { t with
      topLevelArray := Function.update t.topLevelArray chunkIdx (u32 (3 <<< 30) ||| uniformValue),
      chunkPool := poolAllocatorDealloc t.chunkPool poolIdx,
      chunkBitmaskPool := poolAllocatorDealloc t.chunkBitmaskPool poolIdx }
  else t

/-- Body of the loop over `dz` in `generate`: the voxels `dy < height` of the
column `(dx, dz)` of the chunk `(cx, cy, cz)`. -/
def generateColumn (n : Noise) (chunkIdx cx cy cz dx : Nat) (s : GenState) (dz : Nat) :
    GenState :=
  let x := u32 (u32 (cx * 8) + dx)
  let z := u32 (u32 (cz * 8) + dz)
  let hm := n.heightMap cx cz dx dz
  (List.range (columnHeight hm cy)).foldl
    (fun s dy => generateVoxel n chunkIdx hm x (u32 (u32 (cy * 8) + dy)) z s) s

/-- Body of the loop over `dx` in `generate`. -/
def generateSlab (n : Noise) (chunkIdx cx cy cz : Nat) (s : GenState) (dx : Nat) : GenState :=
  (List.range 8).foldl (generateColumn n chunkIdx cx cy cz dx) s

/-- Body of the loop over `cy` in `generate`: the chunk `(cx, cy, cz)`. -/
def generateChunk (n : Noise) (cx cz : Nat) (terrain : Terrain) (cy : Nat) : Terrain :=
  let chunkIdx :=
    getChunkIdx (u32 (cx * 8)) (u32 (cy * 8)) (u32 (cz * 8)) terrain.width terrain.height
  let s : GenState := { terrain := terrain, chunkEmpty := true, blockData := 0, bitmask := 0 }
  generateCollapse chunkIdx ((List.range 8).foldl (generateSlab n chunkIdx cx cy cz) s)

/-- Body of the loop over `cz` in `generate`: the chunks of the column `(cx, cz)`. -/
def generateTower (n : Noise) (cx : Nat) (terrain : Terrain) (cz : Nat) : Terrain :=
  (List.range (terrain.height / 8)).foldl (generateChunk n cx cz) terrain

/-- Body of the loop over `cx` in `generate`. -/
def generateWall (n : Noise) (terrain : Terrain) (cx : Nat) : Terrain :=
  (List.range (terrain.width / 8)).foldl (generateTower n cx) terrain

/-- The function `generate`. -/
def generate (n : Noise) (terrain : Terrain) : Terrain :=
  (List.range (terrain.width / 8)).foldl (generateWall n) terrain

/-- The function `terrain_init`; `none` stands for the `PANIC` exit. -/
def terrain_init (n : Noise) (m : InitBlocks) (width height : Nat) : Option Terrain :=
  if width % 64 ≠ 0 ∨ height % 64 ≠ 0 then none
  else some (generate n (emptyTerrain m width height))

/-- The state of `*terrain` when `terrain_getBlock` returns.  The C function
contains no assignment through `terrain`. -/
def terrain_getBlock_effect (_DEBUG_MODE : Bool) (terrain : Terrain) (_x _y _z : Nat) : Terrain :=
  terrain

/-! ## Predicates used by the statements -/

/-- Fields of the terrain that only `terrain_init` assigns. -/
def SameShape (t t' : Terrain) : Prop :=
  t'.width = t.width ∧ t'.height = t.height ∧ t'.widthChunkC = t.widthChunkC ∧
    t'.heightChunkC = t.heightChunkC ∧ t'.chunkCount = t.chunkCount ∧ t'.dirty = t.dirty

/-- Top level entry `c` has its highest bit set (tag `10` or `11`). -/
def Occupied (c : Nat) (t : Terrain) : Prop := 2147483648 ≤ t.topLevelArray c

/-- The chunk index without the 32 bit reductions. -/
def chunkIdxNat (x y z width height : Nat) : Nat :=
  8 * ((x / 16 * (width / 16) + z / 16) * (height / 16) + y / 16) +
    (4 * (x / 8 % 2) + 2 * (z / 8 % 2) + y / 8 % 2)

/-- A block that `_mm_malloc` can return: not `NULL`, and the 4 GiB that 32 bit
offsets can reach from its start lie in the address space. -/
def Block.ok (b : Block) : Prop :=
  0 < b.addr ∧ b.addr + 4294967296 ≤ 18446744073709551616

/-- The intrusive free list: following the links from the pointer `ptr`
visits the units `fl` in order and ends in `NULL`. -/
def Chain (bytes : Bytes) (memory unitSize : Nat) : List Nat → Nat → Prop
  | [], ptr => ptr = 0
  | h :: rest, ptr =>
    ptr = memory + h * unitSize ∧ Chain bytes memory unitSize rest (loadWord bytes (h * unitSize))

/-- Consistency of a pool with the handles `live` in use and the handles `fl`
on its free list. -/
structure PoolOK (p : PoolAllocator) (live fl : List Nat) : Prop where
  unit_ge : 8 ≤ p.unitSize
  mem_pos : 0 < p.memory
  mem_hi : p.memory + 4294967296 ≤ 18446744073709551616
  max_pos : 0 < p.maxSize
  unused_le : p.unused ≤ p.maxSize
  cap : p.maxSize * p.unitSize < 4294967296
  size_eq : p.size = live.length
  nodup : (live ++ fl).Nodup
  carved : ∀ h, h ∈ live ++ fl ↔ h < p.maxSize - p.unused
  chain : Chain p.bytes p.memory p.unitSize fl p.nextFree

/-- Index returned by `poolAllocatorAlloc` on a consistent pool with free list `fl`. -/
def allocIdx (fl : List Nat) (maxSize unused : Nat) : Nat :=
  match fl with
  | h :: _ => h
  | [] => maxSize - unused

/-- Capacity of a consistent pool with free list `fl` after `poolAllocatorAlloc`. -/
def allocMaxSize (fl : List Nat) (maxSize unused : Nat) : Nat :=
  match fl with
  | _ :: _ => maxSize
  | [] => if unused = 0 then maxSize * 2 else maxSize

/-- Field `unused` of a consistent pool with free list `fl` after `poolAllocatorAlloc`. -/
def allocUnused (fl : List Nat) (maxSize unused : Nat) : Nat :=
  match fl with
  | _ :: _ => unused
  | [] => if unused = 0 then maxSize - 1 else unused - 1

/-- Consistency of a terrain with the pool handles `live` in use and the
handles `fl` on the free lists. -/
structure TerrainOK (t : Terrain) (live fl : List Nat) : Prop where
  width_mod : t.width % 64 = 0
  height_mod : t.height % 64 = 0
  count_eq : t.chunkCount = t.width / 8 * (t.width / 8) * (t.height / 8)
  count_le : t.chunkCount ≤ 4194304
  chunk_ok : PoolOK t.chunkPool live fl
  mask_ok : PoolOK t.chunkBitmaskPool live fl
  chunk_unit : t.chunkPool.unitSize = 512
  mask_unit : t.chunkBitmaskPool.unitSize = 64
  chunk_owns : t.chunkPool.ownsMemory = true
  mask_owns : t.chunkBitmaskPool.ownsMemory = true
  same_max : t.chunkBitmaskPool.maxSize = t.chunkPool.maxSize
  same_unused : t.chunkBitmaskPool.unused = t.chunkPool.unused
  entry : ∀ c, c < t.chunkCount →
    t.topLevelArray c = 0 ∨
    (∃ v, 0 < v ∧ v < 256 ∧ t.topLevelArray c = 3221225472 + v) ∨
    (∃ h, h ∈ live ∧ t.topLevelArray c = 2147483648 + h)
  owner : ∀ h, h ∈ live → ∃ c, c < t.chunkCount ∧ t.topLevelArray c = 2147483648 + h
  inj : ∀ c c' h, h ∈ live → c < t.chunkCount → c' < t.chunkCount →
    t.topLevelArray c = 2147483648 + h → t.topLevelArray c' = 2147483648 + h → c = c'

/-- The handles of `chunkPool` in use after `terrain_setBlock`, given the
handles `live` in use before it: the call adds the handle that
`poolAllocatorAlloc` returns when it expands a chunk and removes the handle it
passes to `poolAllocatorDealloc` when it collapses one. -/
def liveAfter (DEBUG_MODE : Bool) (fresh₁ : Block) (terrain : Terrain) (x y z value : Nat)
    (live : List Nat) : List Nat :=
  if DEBUG_MODE && outOfBounds terrain x y z then live
  else
    let chunkIdx := getChunkIdx x y z terrain.width terrain.height
    let chunkVal := terrain.topLevelArray chunkIdx
    let check := chunkVal >>> 30
    let chunkVal := u32 (chunkVal <<< 2) >>> 2
    if check = 0 ∧ value = 0 then live
    else if check = 3 ∧ value = chunkVal then live
    else if check = 2 then
      if nowUniform terrain chunkVal (getWithinChunkIdx x y z) value then live.erase chunkVal
      else live
    else (poolAllocatorAlloc fresh₁ terrain.chunkPool).2 :: live

/-- The terrain states reached from an empty terrain by calls of
`terrain_setBlock` with coordinates inside the grid, each with the list of
`chunkPool` handles that `poolAllocatorAlloc` returned and that were not passed
to `poolAllocatorDealloc` since. -/
inductive Run (DEBUG_MODE : Bool) : Terrain → List Nat → Prop
  | init (m : InitBlocks) (width height : Nat) :
      width % 64 = 0 → height % 64 = 0 → width < 4294967296 → height < 4294967296 →
      m.chunk.ok → m.bitmask.ok → Run DEBUG_MODE (emptyTerrain m width height) []
  | step (t : Terrain) (live : List Nat) (fresh₁ fresh₂ : Block) (x y z value : Nat) :
      Run DEBUG_MODE t live → fresh₁.ok → fresh₂.ok →
      x < t.width → y < t.height → z < t.width → value < 256 →
      Run DEBUG_MODE (terrain_setBlock DEBUG_MODE fresh₁ fresh₂ t x y z value)
        (liveAfter DEBUG_MODE fresh₁ t x y z value live)

/-- The terrain states reached from an empty terrain by calls of
`terrain_setBlock` with coordinates inside the grid. -/
def Reachable (DEBUG_MODE : Bool) (t : Terrain) : Prop := ∃ live, Run DEBUG_MODE t live

/-- Number of top level entries with tag `10`. -/
def expandedCount (t : Terrain) : Nat :=
  ((List.range t.chunkCount).filter (fun c => t.topLevelArray c >>> 30 = 2)).length


/-- Statement of the tag and pool consistency of a terrain whose `chunkPool`
handles in use are `live`: the payload of every tag `10` entry is in use, no two
tag `10` entries share a payload, every handle in use is the payload of a tag `10`
entry, and the number of tag `10` entries is the `size` of both pools. -/
def TagPoolConsistent (t : Terrain) (live : List Nat) : Prop :=
  (∀ c, c < t.chunkCount → t.topLevelArray c >>> 30 = 2 →
    t.topLevelArray c % 1073741824 ∈ live) ∧
  (∀ c c', c < t.chunkCount → c' < t.chunkCount →
    t.topLevelArray c >>> 30 = 2 → t.topLevelArray c' >>> 30 = 2 →
    t.topLevelArray c % 1073741824 = t.topLevelArray c' % 1073741824 → c = c') ∧
  (∀ a, a ∈ live → ∃ c, c < t.chunkCount ∧ t.topLevelArray c >>> 30 = 2 ∧
    t.topLevelArray c % 1073741824 = a) ∧
  expandedCount t = t.chunkPool.size ∧ expandedCount t = t.chunkBitmaskPool.size

/-- Statement of the decoding done by `terrain_getBlock` at `(x, y, z)`, with `e` the top
level entry of the addressed chunk. -/
def DecodesEntry (DEBUG_MODE : Bool) (t : Terrain) (x y z : Nat) : Prop :=
  let e := t.topLevelArray (getChunkIdx x y z t.width t.height)
  (e >>> 30 = 0 → terrain_getBlock DEBUG_MODE t x y z = 0) ∧
  (e >>> 30 = 3 → terrain_getBlock DEBUG_MODE t x y z = e &&& 255) ∧
  (e >>> 30 = 2 → terrain_getBlock DEBUG_MODE t x y z =
    loadByte t.chunkPool.bytes
      (ptrOffset t.chunkPool.memory (poolAllocatorGet t.chunkPool (e % 1073741824))
        + getWithinChunkIdx x y z)) ∧
  terrain_getBlock_effect DEBUG_MODE t x y z = t

/-- The two cases in which `terrain_setBlock` has nothing to do: the chunk is empty and
the value is `0`, or the chunk is uniform and the value is its payload. -/
def NoopCase (t : Terrain) (x y z value : Nat) : Prop :=
  let e := t.topLevelArray (getChunkIdx x y z t.width t.height)
  (e >>> 30 = 0 ∧ value = 0) ∨ (e >>> 30 = 3 ∧ value = e % 1073741824)

/-- Statement that a terrain holds no content: every top level entry is `0`, both pools
are empty with capacity 65536 and unit sizes 512 and 64, `dirty` is set, and
`terrain_getBlock` returns `0` at every coordinate inside the grid. -/
def FreshlyEmpty (t : Terrain) : Prop :=
  (∀ c, c < t.chunkCount → t.topLevelArray c = 0) ∧
  (t.chunkPool.size = 0 ∧ t.chunkPool.maxSize = 65536 ∧ t.chunkPool.unitSize = 512) ∧
  (t.chunkBitmaskPool.size = 0 ∧ t.chunkBitmaskPool.maxSize = 65536 ∧
    t.chunkBitmaskPool.unitSize = 64) ∧
  t.dirty = true ∧
  ∀ (DEBUG_MODE : Bool) (x y z : Nat), x < t.width → y < t.height → z < t.width →
    terrain_getBlock DEBUG_MODE t x y z = 0

/-- The terrain after `terrain_setBlock` was called with `value` on the first `k` voxels
of the chunk at the origin, in the order of nested loops over `x`, `z`, `y` (voxel number
`k` is `x = k / 64`, `z = k / 8 % 8`, `y = k % 8`). -/
def fillAscending (DEBUG_MODE : Bool) (fresh₁ fresh₂ : Block) (terrain : Terrain)
    (value : Nat) : Nat → Terrain
  | 0 => terrain
  | k + 1 =>
    terrain_setBlock DEBUG_MODE fresh₁ fresh₂
      (fillAscending DEBUG_MODE fresh₁ fresh₂ terrain value k) (k / 64) (k % 8) (k / 8 % 8) value

/-- The terrain after `terrain_setBlock` was called with `value` on the last `k` voxels of
the chunk at the origin, in the reverse of the order of `fillAscending` (so voxel
`(7, 7, 7)` comes first and the origin last). -/
def fillDescending (DEBUG_MODE : Bool) (fresh₁ fresh₂ : Block) (terrain : Terrain)
    (value : Nat) : Nat → Terrain
  | 0 => terrain
  | k + 1 =>
    terrain_setBlock DEBUG_MODE fresh₁ fresh₂
      (fillDescending DEBUG_MODE fresh₁ fresh₂ terrain value k)
      ((511 - k) / 64) ((511 - k) % 8) ((511 - k) / 8 % 8) value

/-- Blocks at fixed addresses with zeroed content, for the worked examples. -/
def sampleBlock (addr : Nat) : Block := ⟨addr, fun _ => 0⟩

/-- Blocks for `terrain_init` in the worked examples. -/
def sampleBlocks : InitBlocks :=
  ⟨sampleBlock 4096, sampleBlock 1048576, sampleBlock 1073741824⟩

/-- A noise with the constant height map `14` (the value of the `heightMap` expression at
height 64 and noise 0), for the worked examples. -/
def sampleNoise : Noise :=
  { heightMap := fun _ _ _ _ => 14,
    belowQuarter := fun y h => decide (4 * y ≤ h),
    belowFifteen := fun y h => decide (20 * y ≤ 3 * h),
    growChunk := fun _ => sampleBlock 4294967296,
    growBitmask := fun _ => sampleBlock 8589934592 }

/-- The chunk index as the specification writes it: the super-chunk index shifted left by 3,
combined by bitwise or with the three low bits; no 32 bit reduction. -/
def chunkIdxSpec (x y z width height : Nat) : Nat :=
  ((((x >>> 4) * (width >>> 4) + (z >>> 4)) * (height >>> 4) + (y >>> 4)) <<< 3) |||
    ((((x >>> 3) &&& 1) <<< 2) ||| (((z >>> 3) &&& 1) <<< 1) ||| ((y >>> 3) &&& 1))

/-- The pool after `k` consecutive calls of `poolAllocatorAlloc`. -/
def allocRepeat (fresh : Block) (p : PoolAllocator) : Nat → PoolAllocator
  | 0 => p
  | k + 1 => (poolAllocatorAlloc fresh (allocRepeat fresh p k)).1

/-- The pool states reached from `poolAllocatorCreate` (capacity at least 1, unit size at
least the 8 bytes of a free list link, buffer addressed within 32 bit offsets) by calls of
`poolAllocatorAlloc` that return a unit and keep the buffer within 32 bit offsets and by
calls of `poolAllocatorDealloc` on handles in use, each with the list of the handles in
use. -/
inductive PoolRun : PoolAllocator → List Nat → Prop
  | create (fresh memory : Block) (maxCount itemByteSize : Nat) :
      fresh.ok → (memory.addr = 0 ∨ memory.ok) → 1 ≤ maxCount → 8 ≤ itemByteSize →
      maxCount * itemByteSize < 4294967296 →
      PoolRun (poolAllocatorCreate fresh maxCount itemByteSize memory) []
  | alloc (p : PoolAllocator) (live : List Nat) (fresh : Block) :
      PoolRun p live → fresh.ok → (poolAllocatorAllocPtr fresh p).2 ≠ 0 →
      (poolAllocatorAlloc fresh p).1.maxSize * (poolAllocatorAlloc fresh p).1.unitSize
        < 4294967296 →
      PoolRun (poolAllocatorAlloc fresh p).1 ((poolAllocatorAlloc fresh p).2 :: live)
  | dealloc (p : PoolAllocator) (live : List Nat) (h : Nat) :
      PoolRun p live → h ∈ live → PoolRun (poolAllocatorDealloc p h) (live.erase h)

/-- Byte `i` of the unit `a` of `chunkPool`: the block value of the voxel with within-chunk
index `i`. -/
def blockByte (t : Terrain) (a i : Nat) : Nat :=
  loadByte t.chunkPool.bytes
    (ptrOffset t.chunkPool.memory (poolAllocatorGet t.chunkPool a) + i)

/-- Bit `31 - i % 32` of the 32 bit word `i / 32` of the unit `a` of `chunkBitmaskPool`: the
occupancy bit of the voxel with within-chunk index `i`. -/
def maskBit (t : Terrain) (a i : Nat) : Bool :=
  (load32 t.chunkBitmaskPool.bytes
    (ptrOffset t.chunkBitmaskPool.memory (poolAllocatorGet t.chunkBitmaskPool a)
      + 4 * (i / 32))).testBit (31 - i % 32)

/-- The 64 x 64 terrain after `terrain_setBlock(1, 0, 0, 5)`, `terrain_setBlock(2, 0, 0, 7)`
and `terrain_setBlock(2, 0, 0, 0)` on the empty terrain: the chunk at the origin is
expanded by the first call and stays expanded. -/
def setThenCleared : Terrain :=
  terrain_setBlock false (sampleBlock 4294967296) (sampleBlock 8589934592)
    (terrain_setBlock false (sampleBlock 4294967296) (sampleBlock 8589934592)
      (terrain_setBlock false (sampleBlock 4294967296) (sampleBlock 8589934592)
        (emptyTerrain sampleBlocks 64 64) 1 0 0 5) 2 0 0 7) 2 0 0 0

/-- Blocks for `terrain_init` whose bytes are all `0xFF` before the program writes them. -/
def staleBlocks : InitBlocks :=
  ⟨⟨4096, fun _ => 255⟩, ⟨1048576, fun _ => 255⟩, ⟨1073741824, fun _ => 255⟩⟩

/-- The pool states of `PoolRun` together with their history: the handles in use and the
handles that `poolAllocatorAlloc` has returned so far. -/
inductive PoolHistory : PoolAllocator → List Nat → List Nat → Prop
  | create (fresh memory : Block) (maxCount itemByteSize : Nat) :
      fresh.ok → (memory.addr = 0 ∨ memory.ok) → 1 ≤ maxCount → 8 ≤ itemByteSize →
      maxCount * itemByteSize < 4294967296 →
      PoolHistory (poolAllocatorCreate fresh maxCount itemByteSize memory) [] []
  | alloc (p : PoolAllocator) (live issued : List Nat) (fresh : Block) :
      PoolHistory p live issued → fresh.ok → (poolAllocatorAllocPtr fresh p).2 ≠ 0 →
      (poolAllocatorAlloc fresh p).1.maxSize * (poolAllocatorAlloc fresh p).1.unitSize
        < 4294967296 →
      PoolHistory (poolAllocatorAlloc fresh p).1 ((poolAllocatorAlloc fresh p).2 :: live)
        ((poolAllocatorAlloc fresh p).2 :: issued)
  | dealloc (p : PoolAllocator) (live issued : List Nat) (h : Nat) :
      PoolHistory p live issued → h ∈ live →
      PoolHistory (poolAllocatorDealloc p h) (live.erase h) issued

/-- The pool that `terrain_init` creates for the chunk data, after its first allocation. -/
def samplePool : PoolAllocator :=
  (poolAllocatorAlloc (sampleBlock 4294967296)
    (poolAllocatorCreate (sampleBlock 1048576) 65536 512 (sampleBlock 0))).1

/-- The call `terrain_setBlock(x, y, z, value)`, if it takes the expand path (lines 133 to
146), gets from `poolAllocatorAlloc` a handle that fits the 30 payload bits of a top level
entry, where line 139 stores it without a check. -/
def ExpandFits (fresh₁ : Block) (t : Terrain) (x y z value : Nat) : Prop :=
  t.topLevelArray (getChunkIdx x y z t.width t.height) >>> 30 ≠ 2 → ¬ NoopCase t x y z value →
    (poolAllocatorAlloc fresh₁ t.chunkPool).2 < 1073741824

/-- The states `Run` reaches by calls whose new handles fit the payload of an entry, on
terrains of any size. -/
inductive FitRun (DEBUG_MODE : Bool) : Terrain → List Nat → Prop
  | init (m : InitBlocks) (width height : Nat) :
      width % 64 = 0 → height % 64 = 0 → width < 4294967296 → height < 4294967296 →
      m.chunk.ok → m.bitmask.ok → FitRun DEBUG_MODE (emptyTerrain m width height) []
  | step (t : Terrain) (live : List Nat) (fresh₁ fresh₂ : Block) (x y z value : Nat) :
      FitRun DEBUG_MODE t live → fresh₁.ok → fresh₂.ok →
      x < t.width → y < t.height → z < t.width → value < 256 →
      ExpandFits fresh₁ t x y z value →
      FitRun DEBUG_MODE (terrain_setBlock DEBUG_MODE fresh₁ fresh₂ t x y z value)
        (liveAfter DEBUG_MODE fresh₁ t x y z value live)

theorem payload_eq_mod (e : Nat) : u32 (e <<< 2) >>> 2 = e % 1073741824 := by
  simp only [u32, Nat.shiftLeft_eq, Nat.shiftRight_eq_div_pow]
  omega

theorem u8_and_255 (e : Nat) : u8 (e &&& 255) = e &&& 255 := by
  have h : e &&& 255 ≤ 255 := Nat.and_le_right
  simp only [u8]
  omega




theorem chunkIdxNat_lt (x y z w h : Nat) (hw : w % 16 = 0) (hh : h % 16 = 0)
    (hx : x < w) (hy : y < h) (hz : z < w) :
    chunkIdxNat x y z w h < w / 8 * (w / 8) * (h / 8) := by
  unfold chunkIdxNat
  obtain ⟨W, rfl⟩ : ∃ W, w = 16 * W := ⟨w / 16, by omega⟩
  obtain ⟨H, rfl⟩ : ∃ H, h = 16 * H := ⟨h / 16, by omega⟩
  have e1 : 16 * W / 16 = W := by omega
  have e2 : 16 * H / 16 = H := by omega
  have e3 : 16 * W / 8 = 2 * W := by omega
  have e4 : 16 * H / 8 = 2 * H := by omega
  rw [e1, e2, e3, e4]
  have hX : x / 16 < W := by omega
  have hZ : z / 16 < W := by omega
  have hY : y / 16 < H := by omega
  have h1 : x / 16 * W + z / 16 + 1 ≤ W * W := by
    have : (x / 16 + 1) * W ≤ W * W := Nat.mul_le_mul_right W hX
    nlinarith
  have h2 : (x / 16 * W + z / 16) * H + y / 16 + 1 ≤ W * W * H := by
    have : (x / 16 * W + z / 16 + 1) * H ≤ W * W * H := Nat.mul_le_mul_right H h1
    nlinarith
  have e5 : 2 * W * (2 * W) * (2 * H) = 8 * (W * W * H) := by ring
  rw [e5]
  omega

theorem getChunkIdx_eq (x y z w h : Nat) (hw : w % 16 = 0) (hh : h % 16 = 0)
    (hx : x < w) (hy : y < h) (hz : z < w) (hc : w / 8 * (w / 8) * (h / 8) ≤ 4294967296) :
    getChunkIdx x y z w h = chunkIdxNat x y z w h := by
  have hlt := chunkIdxNat_lt x y z w h hw hh hx hy hz
  unfold chunkIdxNat at hlt
  unfold getChunkIdx chunkIdxNat
  simp only [u32, Nat.shiftRight_eq_div_pow, Nat.shiftLeft_eq, Nat.and_one_is_mod]
  norm_num
  generalize hA : x / 16 * (w / 16) = A at *
  generalize hB : (A + z / 16) * (h / 16) = B at *
  have hAB : A ≤ B ∨ h / 16 = 0 := by
    rcases Nat.eq_zero_or_pos (h / 16) with h0 | h0
    · right; exact h0
    · left
      rw [← hB]
      calc A ≤ A + z / 16 := Nat.le_add_right _ _
        _ = (A + z / 16) * 1 := (Nat.mul_one _).symm
        _ ≤ (A + z / 16) * (h / 16) := Nat.mul_le_mul_left _ h0
  have h0 : h / 16 ≠ 0 := by omega
  have hAB : A ≤ B := by
    rcases hAB with h1 | h1
    · exact h1
    · exact absurd h1 h0
  omega




/-! ## Raw memory -/

theorem storeByte_same (m : Bytes) (off v : Nat) : storeByte m off v off = u8 v := by
  simp [storeByte]

theorem storeByte_other (m : Bytes) (off v i : Nat) (h : i ≠ off) : storeByte m off v i = m i := by
  simp [storeByte, h]

theorem memset_inside (m : Bytes) (off c n i : Nat) (h1 : off ≤ i) (h2 : i < off + n) :
    memset m off c n i = u8 c := by
  simp [memset, h1, h2]

theorem memset_outside (m : Bytes) (off c n i : Nat) (h : i < off ∨ off + n ≤ i) :
    memset m off c n i = m i := by
  unfold memset
  rw [if_neg]
  omega

theorem storeLE_outside (m : Bytes) (off k w i : Nat) (h : i < off ∨ off + k ≤ i) :
    storeLE m off k w i = m i := by
  induction k generalizing m off w with
  | zero => rfl
  | succ k ih =>
    unfold storeLE
    rw [ih _ _ _ (by omega), storeByte_other _ _ _ _ (by omega)]

theorem loadLE_congr (m m' : Bytes) (off k : Nat)
    (h : ∀ i, off ≤ i → i < off + k → m' i = m i) : loadLE m' off k = loadLE m off k := by
  induction k generalizing off with
  | zero => rfl
  | succ k ih =>
    unfold loadLE loadByte
    rw [h off (le_refl _) (by omega), ih (off + 1) (fun i h1 h2 => h i (by omega) (by omega))]

theorem loadLE_storeLE (m : Bytes) (off k w : Nat) :
    loadLE (storeLE m off k w) off k = w % 256 ^ k := by
  induction k generalizing m off w with
  | zero => simp [loadLE, Nat.mod_one]
  | succ k ih =>
    unfold loadLE storeLE
    rw [ih]
    unfold loadByte
    rw [storeLE_outside _ _ _ _ _ (by omega), storeByte_same]
    unfold u8
    rw [Nat.mod_mod, pow_succ, Nat.mul_comm (256 ^ k) 256, Nat.mod_mul]

theorem loadWord_storeWord (m : Bytes) (off w : Nat) (hw : w < 18446744073709551616) :
    loadWord (storeWord m off w) off = w := by
  unfold loadWord storeWord
  rw [loadLE_storeLE]
  exact Nat.mod_eq_of_lt (by norm_num; exact hw)

theorem storeWord_outside (m : Bytes) (off w i : Nat) (h : i < off ∨ off + 8 ≤ i) :
    storeWord m off w i = m i :=
  storeLE_outside m off 8 w i h

theorem store32_outside (m : Bytes) (off w i : Nat) (h : i < off ∨ off + 4 ≤ i) :
    store32 m off w i = m i :=
  storeLE_outside m off 4 w i h

theorem loadWord_congr (m m' : Bytes) (off : Nat)
    (h : ∀ i, off ≤ i → i < off + 8 → m' i = m i) : loadWord m' off = loadWord m off :=
  loadLE_congr m m' off 8 h

/-- `memcmp(p, p + 1, 511) == 0` says that the 512 bytes are equal. -/
theorem memcmpNext_iff (m : Bytes) (off n : Nat) :
    memcmpNext m off n = true ↔ ∀ i, i ≤ n → loadByte m (off + i) = loadByte m off := by
  unfold memcmpNext
  rw [List.all_eq_true]
  constructor
  · intro h i
    induction i with
    | zero => intro _; rfl
    | succ i ih =>
      intro hi
      have := h i (List.mem_range.mpr (by omega))
      rw [beq_iff_eq] at this
      rw [← ih (by omega), this]
      congr 1
      omega
  · intro h i hi
    rw [List.mem_range] at hi
    rw [beq_iff_eq, h i (by omega), show off + 1 + i = off + (i + 1) by omega, h (i + 1) (by omega)]

/-! ## Addresses -/

theorem ptrOffset_base (memory o : Nat)
    (hm : memory + 4294967296 ≤ 18446744073709551616) (ho : o < 4294967296) :
    ptrOffset memory (u64 (memory + o)) = o := by
  unfold ptrOffset sub64 u64
  omega




theorem foldl_invariant {α β : Type} (P : α → Prop) (f : α → β → α) (l : List β) (a : α)
    (h0 : P a) (hs : ∀ a b, P a → P (f a b)) : P (l.foldl f a) := by
  induction l generalizing a with
  | nil => exact h0
  | cons b l ih => exact ih (f a b) (hs a b h0)

theorem two_pow_31_le_or (b : Nat) : 2147483648 ≤ 2147483648 ||| b := by
  have h : (2147483648 ||| b).testBit 31 = true := by
    rw [Nat.testBit_or, Nat.testBit_to_div_mod]
    norm_num
  exact Nat.testBit_implies_ge h

theorem three_pow_30_le_or (b : Nat) : 2147483648 ≤ 3221225472 ||| b := by
  have h : (3221225472 ||| b).testBit 31 = true := by
    rw [Nat.testBit_or, Nat.testBit_to_div_mod]
    norm_num
  exact Nat.testBit_implies_ge h

/-! ## `generate` -/

theorem generateColumn_invariant (P : Terrain → Prop)
    (hv : ∀ (n : Noise) (c hm x y z : Nat) (s : GenState),
      P s.terrain → P (generateVoxel n c hm x y z s).terrain)
    (n : Noise) (c cx cy cz dx dz : Nat) (s : GenState)
    (h : P s.terrain) : P (generateColumn n c cx cy cz dx s dz).terrain := by
  unfold generateColumn
  exact foldl_invariant (fun s : GenState => P s.terrain) _ _ s h (fun s _ hs => hv n _ _ _ _ _ s hs)

theorem generateSlab_invariant (P : Terrain → Prop)
    (hv : ∀ (n : Noise) (c hm x y z : Nat) (s : GenState),
      P s.terrain → P (generateVoxel n c hm x y z s).terrain)
    (n : Noise) (c cx cy cz dx : Nat) (s : GenState)
    (h : P s.terrain) : P (generateSlab n c cx cy cz s dx).terrain := by
  unfold generateSlab
  exact foldl_invariant (fun s : GenState => P s.terrain) _ _ s h
    (fun s dz hs => generateColumn_invariant P hv n c cx cy cz dx dz s hs)

theorem generateChunk_invariant (P : Terrain → Prop)
    (hv : ∀ (n : Noise) (c hm x y z : Nat) (s : GenState),
      P s.terrain → P (generateVoxel n c hm x y z s).terrain)
    (hc : ∀ (c : Nat) (s : GenState), P s.terrain → P (generateCollapse c s))
    (n : Noise) (cx cz cy : Nat) (t : Terrain)
    (h : P t) : P (generateChunk n cx cz t cy) := by
  unfold generateChunk
  apply hc
  exact foldl_invariant (fun s : GenState => P s.terrain) _ _ _ h
    (fun s dx hs => generateSlab_invariant P hv n _ cx cy cz dx s hs)

theorem generateTower_invariant (P : Terrain → Prop)
    (hv : ∀ (n : Noise) (c hm x y z : Nat) (s : GenState),
      P s.terrain → P (generateVoxel n c hm x y z s).terrain)
    (hc : ∀ (c : Nat) (s : GenState), P s.terrain → P (generateCollapse c s))
    (n : Noise) (cx cz : Nat) (t : Terrain)
    (h : P t) : P (generateTower n cx t cz) := by
  unfold generateTower
  exact foldl_invariant P _ _ t h (fun t cy ht => generateChunk_invariant P hv hc n cx cz cy t ht)

theorem generateWall_invariant (P : Terrain → Prop)
    (hv : ∀ (n : Noise) (c hm x y z : Nat) (s : GenState),
      P s.terrain → P (generateVoxel n c hm x y z s).terrain)
    (hc : ∀ (c : Nat) (s : GenState), P s.terrain → P (generateCollapse c s))
    (n : Noise) (cx : Nat) (t : Terrain)
    (h : P t) : P (generateWall n t cx) := by
  unfold generateWall
  exact foldl_invariant P _ _ t h (fun t cz ht => generateTower_invariant P hv hc n cx cz t ht)

theorem generate_invariant (P : Terrain → Prop)
    (hv : ∀ (n : Noise) (c hm x y z : Nat) (s : GenState),
      P s.terrain → P (generateVoxel n c hm x y z s).terrain)
    (hc : ∀ (c : Nat) (s : GenState), P s.terrain → P (generateCollapse c s))
    (n : Noise) (t : Terrain) (h : P t) : P (generate n t) := by
  unfold generate
  exact foldl_invariant P _ _ t h (fun t cx ht => generateWall_invariant P hv hc n cx t ht)


theorem generateVoxel_shape (t : Terrain) (n : Noise) (c hm x y z : Nat) (s : GenState)
    (h : SameShape t s.terrain) : SameShape t (generateVoxel n c hm x y z s).terrain := by
  unfold generateVoxel
  by_cases he : s.chunkEmpty = true
  · simpa [he, SameShape] using h
  · simpa [he, SameShape] using h

theorem generateCollapse_shape (t : Terrain) (c : Nat) (s : GenState)
    (h : SameShape t s.terrain) : SameShape t (generateCollapse c s) := by
  unfold generateCollapse
  dsimp only
  split
  · exact h
  · exact h

theorem generate_shape (n : Noise) (t : Terrain) : SameShape t (generate n t) :=
  generate_invariant (SameShape t) (generateVoxel_shape t) (generateCollapse_shape t) n t
    ⟨rfl, rfl, rfl, rfl, rfl, rfl⟩

theorem generateVoxel_occupied (c : Nat) (n : Noise) (c' hm x y z : Nat) (s : GenState)
    (h : Occupied c s.terrain) : Occupied c (generateVoxel n c' hm x y z s).terrain := by
  unfold generateVoxel Occupied
  by_cases he : s.chunkEmpty = true
  · simp only [he, if_true]
    by_cases hc : c = c'
    · subst hc
      simp only [Function.update_same]
      exact two_pow_31_le_or _
    · simp only [Function.update_noteq hc]
      exact h
  · simpa [he] using h

theorem generateVoxel_first (n : Noise) (c hm x y z : Nat) (s : GenState)
    (he : s.chunkEmpty = true) : Occupied c (generateVoxel n c hm x y z s).terrain := by
  unfold generateVoxel Occupied
  simp only [he, if_true, Function.update_same]
  exact two_pow_31_le_or _

theorem generateCollapse_occupied (c c' : Nat) (s : GenState)
    (h : Occupied c s.terrain) : Occupied c (generateCollapse c' s) := by
  unfold generateCollapse Occupied
  dsimp only
  split
  · by_cases hc : c = c'
    · subst hc
      simp only [Function.update_same]
      exact three_pow_30_le_or _
    · simp only [Function.update_noteq hc]
      exact h
  · exact h

theorem columnHeight_pos (hm : Nat) (h : 1 ≤ hm % 65536) : ∃ k, columnHeight hm 0 = k + 1 := by
  unfold columnHeight sub32 u32
  have : hm % 65536 < 65536 := Nat.mod_lt _ (by decide)
  simp only [Nat.zero_mul, Nat.zero_mod, Nat.sub_zero]
  have e : (4294967296 + hm % 65536) % 4294967296 = hm % 65536 := by omega
  rw [e]
  split
  · omega
  · split
    · exact ⟨hm % 65536 - 1, by omega⟩
    · exact ⟨7, rfl⟩

theorem generateColumn_first (n : Noise) (c cx cy cz dx dz k : Nat) (s : GenState)
    (he : s.chunkEmpty = true) (hk : columnHeight (n.heightMap cx cz dx dz) cy = k + 1) :
    Occupied c (generateColumn n c cx cy cz dx s dz).terrain := by
  unfold generateColumn
  simp only [hk]
  rw [List.range_succ_eq_map k, List.foldl_cons]
  apply foldl_invariant (fun s : GenState => Occupied c s.terrain)
  · exact generateVoxel_first n c _ _ _ _ s he
  · intro s dy hs
    exact generateVoxel_occupied c n _ _ _ _ _ s hs

theorem generateSlab_first (n : Noise) (c cx cy cz dx k : Nat) (s : GenState)
    (he : s.chunkEmpty = true) (hk : columnHeight (n.heightMap cx cz dx 0) cy = k + 1) :
    Occupied c (generateSlab n c cx cy cz s dx).terrain := by
  unfold generateSlab
  rw [List.range_succ_eq_map 7, List.foldl_cons]
  apply foldl_invariant (fun s : GenState => Occupied c s.terrain)
  · exact generateColumn_first n c cx cy cz dx 0 k s he hk
  · intro s dz hs
    exact generateColumn_invariant (Occupied c) (generateVoxel_occupied c) n _ _ _ _ _ _ s hs

theorem generateChunk_first (n : Noise) (cx cy cz k : Nat) (t : Terrain)
    (hk : columnHeight (n.heightMap cx cz 0 0) cy = k + 1) :
    Occupied (getChunkIdx (u32 (cx * 8)) (u32 (cy * 8)) (u32 (cz * 8)) t.width t.height)
      (generateChunk n cx cz t cy) := by
  unfold generateChunk
  apply generateCollapse_occupied
  generalize getChunkIdx (u32 (cx * 8)) (u32 (cy * 8)) (u32 (cz * 8)) t.width t.height = c
  rw [List.range_succ_eq_map 7, List.foldl_cons]
  apply foldl_invariant (fun s : GenState => Occupied c s.terrain)
  · exact generateSlab_first n c cx cy cz 0 k _ rfl hk
  · intro s dx hs
    exact generateSlab_invariant (Occupied c) (generateVoxel_occupied c) n _ _ _ _ _ s hs

theorem generate_first (n : Noise) (t : Terrain) (k a b : Nat)
    (hw : t.width / 8 = a + 1) (hh : t.height / 8 = b + 1)
    (hk : columnHeight (n.heightMap 0 0 0 0) 0 = k + 1) :
    Occupied (getChunkIdx (u32 (0 * 8)) (u32 (0 * 8)) (u32 (0 * 8)) t.width t.height)
      (generate n t) := by
  generalize hc : getChunkIdx (u32 (0 * 8)) (u32 (0 * 8)) (u32 (0 * 8)) t.width t.height = c
  have hP := generateChunk_invariant (Occupied c) (generateVoxel_occupied c)
    (generateCollapse_occupied c) n
  have hT := generateTower_invariant (Occupied c) (generateVoxel_occupied c)
    (generateCollapse_occupied c) n
  have hW := generateWall_invariant (Occupied c) (generateVoxel_occupied c)
    (generateCollapse_occupied c) n
  unfold generate
  rw [hw, List.range_succ_eq_map a, List.foldl_cons]
  apply foldl_invariant (Occupied c)
  · unfold generateWall
    rw [hw, List.range_succ_eq_map a, List.foldl_cons]
    apply foldl_invariant (Occupied c)
    · unfold generateTower
      rw [hh, List.range_succ_eq_map b, List.foldl_cons]
      apply foldl_invariant (Occupied c)
      · rw [← hc]
        exact generateChunk_first n 0 0 0 k t hk
      · intro t cy ht
        exact hP _ _ _ t ht
    · intro t cz ht
      exact hT _ _ t ht
  · intro t cx ht
    exact hW _ t ht


/-! ## The pool allocator -/

theorem ptrOffset_add (memory o : Nat)
    (hm : memory + 4294967296 ≤ 18446744073709551616) (ho : o < 4294967296) :
    ptrOffset memory (memory + o) = o := by
  unfold ptrOffset sub64 u64
  omega

theorem Chain.frame {bytes bytes' : Bytes} {memory us : Nat} {fl : List Nat} {ptr : Nat}
    (h : Chain bytes memory us fl ptr)
    (hf : ∀ a, a ∈ fl → ∀ k, k < 8 → bytes' (a * us + k) = bytes (a * us + k)) :
    Chain bytes' memory us fl ptr := by
  induction fl generalizing ptr with
  | nil => exact h
  | cons a rest ih =>
    obtain ⟨h1, h2⟩ := h
    refine ⟨h1, ?_⟩
    have e : loadWord bytes' (a * us) = loadWord bytes (a * us) :=
      loadWord_congr _ _ _ (fun i hi1 hi2 => by
        have := hf a (List.mem_cons_self _ _) (i - a * us) (by omega)
        rwa [show a * us + (i - a * us) = i by omega] at this)
    rw [e]
    exact ih h2 (fun b hb => hf b (List.mem_cons_of_mem _ hb))

theorem Chain.ptr_lt {bytes : Bytes} {memory us : Nat} {fl : List Nat} {ptr : Nat}
    (h : Chain bytes memory us fl ptr) (hm : memory + 4294967296 ≤ 18446744073709551616)
    (hb : ∀ a, a ∈ fl → a * us < 4294967296) : ptr < 18446744073709551616 := by
  cases fl with
  | nil =>
    have : ptr = 0 := h
    omega
  | cons a rest =>
    have h1 : ptr = memory + a * us := h.1
    have := hb a (List.mem_cons_self _ _)
    omega

theorem PoolOK.length_add {p : PoolAllocator} {live fl : List Nat} (h : PoolOK p live fl) :
    live.length + fl.length = p.maxSize - p.unused := by
  have hp : (live ++ fl).Perm (List.range (p.maxSize - p.unused)) := by
    rw [List.perm_ext_iff_of_nodup h.nodup (List.nodup_range _)]
    intro a
    rw [h.carved a, List.mem_range]
  have := hp.length_eq
  rwa [List.length_append, List.length_range] at this

theorem PoolOK.lt_max {p : PoolAllocator} {live fl : List Nat} (h : PoolOK p live fl)
    {a : Nat} (ha : a ∈ live ++ fl) : a < p.maxSize := by
  have := (h.carved a).mp ha
  omega

theorem unit_end_le (us a m : Nat) (ha : a < m) : a * us + us ≤ m * us := by
  have : (a + 1) * us ≤ m * us := Nat.mul_le_mul_right _ ha
  rwa [Nat.add_mul, Nat.one_mul] at this

/-- Units with different indices do not overlap. -/
theorem unit_disjoint (us a b i k : Nat) (hab : a ≠ b) (hi : i < us) (hk : k < us) :
    a * us + i ≠ b * us + k := by
  intro e
  rcases Nat.lt_or_gt_of_ne hab with h | h
  · have : (a + 1) * us ≤ b * us := Nat.mul_le_mul_right _ h
    rw [Nat.add_mul, Nat.one_mul] at this
    omega
  · have : (b + 1) * us ≤ a * us := Nat.mul_le_mul_right _ h
    rw [Nat.add_mul, Nat.one_mul] at this
    omega

/-- Stores into units that are in use keep the pool consistent. -/
theorem PoolOK.write {p : PoolAllocator} {live fl : List Nat} (h : PoolOK p live fl)
    (bytes' : Bytes)
    (hf : ∀ a, a ∈ fl → ∀ k, k < 8 → bytes' (a * p.unitSize + k) = p.bytes (a * p.unitSize + k)) :
    PoolOK { p with bytes := bytes' } live fl :=
  { unit_ge := h.unit_ge, mem_pos := h.mem_pos, mem_hi := h.mem_hi, max_pos := h.max_pos,
    unused_le := h.unused_le, cap := h.cap, size_eq := h.size_eq, nodup := h.nodup,
    carved := h.carved, chain := h.chain.frame hf }

theorem PoolOK.dealloc {p : PoolAllocator} {live fl : List Nat} (h : PoolOK p live fl)
    {a : Nat} (ha : a ∈ live) :
    PoolOK (poolAllocatorDealloc p a) (live.erase a) (a :: fl) := by
  have hmax : a < p.maxSize := h.lt_max (List.mem_append_left _ ha)
  have hoff := unit_end_le p.unitSize _ _ hmax
  have hcap := h.cap
  have hus := h.unit_ge
  have hmh := h.mem_hi
  have e1 : u32 (a * p.unitSize) = a * p.unitSize := by unfold u32; omega
  have e2 : u64 (p.memory + a * p.unitSize) = p.memory + a * p.unitSize := by unfold u64; omega
  have e3 : ptrOffset p.memory (p.memory + a * p.unitSize) = a * p.unitSize :=
    ptrOffset_add _ _ (by omega) (by omega)
  have hperm : (live.erase a ++ a :: fl).Perm (live ++ fl) := by
    have h1 : (a :: live.erase a).Perm live := (List.perm_cons_erase ha).symm
    exact (List.perm_middle).trans (List.Perm.append_right fl h1)
  have hnf : a ∉ fl := by
    intro hf
    exact (List.nodup_append.mp h.nodup).2.2 ha hf
  have hlen : 1 ≤ live.length := List.length_pos_of_mem ha
  have hll : live.length < 4294967296 := by
    have := h.length_add
    have := h.max_pos
    have : p.maxSize * 8 ≤ p.maxSize * p.unitSize := Nat.mul_le_mul_left _ hus
    omega
  unfold poolAllocatorDealloc poolAllocatorDeallocPtr
  rw [e1, e2, e3]
  refine
    { unit_ge := h.unit_ge, mem_pos := h.mem_pos, mem_hi := h.mem_hi, max_pos := h.max_pos,
      unused_le := h.unused_le, cap := h.cap, size_eq := ?_, nodup := ?_,
      carved := ?_, chain := ?_ }
  · show sub32 p.size 1 = (live.erase a).length
    rw [List.length_erase_of_mem ha, h.size_eq]
    unfold sub32 u32
    omega
  · exact hperm.nodup_iff.mpr h.nodup
  · intro b
    rw [hperm.mem_iff]
    exact h.carved b
  · show Chain _ p.memory p.unitSize (a :: fl) (p.memory + a * p.unitSize)
    refine ⟨rfl, ?_⟩
    have hlt : p.nextFree < 18446744073709551616 :=
      h.chain.ptr_lt hmh (fun b hb => by
        have := unit_end_le p.unitSize _ _ (h.lt_max (List.mem_append_right _ hb))
        omega)
    show Chain (storeWord p.bytes (a * p.unitSize) p.nextFree) p.memory p.unitSize fl
      (loadWord (storeWord p.bytes (a * p.unitSize) p.nextFree) (a * p.unitSize))
    rw [loadWord_storeWord _ _ _ hlt]
    apply h.chain.frame
    intro b hb k hk
    apply storeWord_outside
    have hne : b ≠ a := fun e => hnf (e ▸ hb)
    rcases Nat.lt_or_gt_of_ne hne with h1 | h1
    · have : (b + 1) * p.unitSize ≤ a * p.unitSize := Nat.mul_le_mul_right _ h1
      rw [Nat.add_mul, Nat.one_mul] at this
      omega
    · have : (a + 1) * p.unitSize ≤ b * p.unitSize := Nat.mul_le_mul_right _ h1
      rw [Nat.add_mul, Nat.one_mul] at this
      omega



theorem alloc_eq_pop (p : PoolAllocator) (fresh : Block) (a n : Nat)
    (hc1 : p.nextFree = p.memory + a * p.unitSize) (hmp : 0 < p.memory)
    (hmh : p.memory + 4294967296 ≤ 18446744073709551616)
    (hus : 0 < p.unitSize) (ha : a * p.unitSize < 4294967296)
    (hsz : p.size = n) (hn : n < 4294967295) :
    poolAllocatorAlloc fresh p =
      ({ p with nextFree := loadWord p.bytes (a * p.unitSize), size := n + 1 }, a) := by
  have hnz : p.nextFree ≠ 0 := by omega
  have hdiv : a * p.unitSize / p.unitSize = a := Nat.mul_div_cancel _ hus
  have hale : a ≤ a * p.unitSize := Nat.le_mul_of_pos_right _ hus
  have e4 : u32 a = a := by unfold u32; omega
  have e5 : u32 (p.size + 1) = n + 1 := by unfold u32; omega
  unfold poolAllocatorAlloc poolAllocatorAllocPtr
  rw [if_pos hnz]
  simp only
  rw [if_neg hnz, hc1, ptrOffset_add _ _ hmh ha, hdiv, e4, e5]

theorem alloc_eq_carve (p : PoolAllocator) (fresh : Block) (n : Nat)
    (hnf : p.nextFree = 0) (hmh : p.memory + 4294967296 ≤ 18446744073709551616)
    (hmp : 0 < p.memory) (hus : 0 < p.unitSize) (hu : 0 < p.unused) (hul : p.unused ≤ p.maxSize)
    (hcap : p.maxSize * p.unitSize < 4294967296)
    (hsz : p.size = n) (hn : n < 4294967295) :
    poolAllocatorAlloc fresh p =
      ({ p with unused := p.unused - 1, size := n + 1 }, p.maxSize - p.unused) := by
  have hm1 : p.maxSize ≤ p.maxSize * p.unitSize := Nat.le_mul_of_pos_right _ hus
  have hoff := unit_end_le p.unitSize (p.maxSize - p.unused) p.maxSize (by omega)
  have hidx : sub32 p.maxSize p.unused = p.maxSize - p.unused := by
    unfold sub32 u32; omega
  have e1 : u32 ((p.maxSize - p.unused) * p.unitSize) = (p.maxSize - p.unused) * p.unitSize := by
    unfold u32; omega
  have e2 : u64 (p.memory + (p.maxSize - p.unused) * p.unitSize) =
      p.memory + (p.maxSize - p.unused) * p.unitSize := by unfold u64; omega
  have hdiv : (p.maxSize - p.unused) * p.unitSize / p.unitSize = p.maxSize - p.unused :=
    Nat.mul_div_cancel _ hus
  have e4 : u32 (p.maxSize - p.unused) = p.maxSize - p.unused := by unfold u32; omega
  have e5 : u32 (p.size + 1) = n + 1 := by unfold u32; omega
  unfold poolAllocatorAlloc poolAllocatorAllocPtr
  rw [if_neg (not_not.mpr hnf), if_pos hu]
  simp only
  rw [hidx, e1, e2, if_neg (by omega), ptrOffset_add _ _ (by omega) (by omega), hdiv, e4, e5]

theorem alloc_eq_grow (p : PoolAllocator) (fresh : Block) (n : Nat)
    (hnf : p.nextFree = 0) (hfresh : fresh.ok) (hown : p.ownsMemory = true)
    (hus : 0 < p.unitSize) (hu : p.unused = 0) (hmp : 0 < p.maxSize)
    (hcap : p.maxSize * 2 * p.unitSize < 4294967296)
    (hsz : p.size = n) (hn : n < 4294967295) :
    poolAllocatorAlloc fresh p =
      ({ p with unused := p.maxSize - 1, maxSize := p.maxSize * 2, memory := fresh.addr,
                bytes := memcpy fresh.init p.bytes (p.maxSize * p.unitSize),
                size := n + 1 }, p.maxSize) := by
  have hm1 : p.maxSize * 2 ≤ p.maxSize * 2 * p.unitSize := Nat.le_mul_of_pos_right _ hus
  have hm2 : p.maxSize * 2 * p.unitSize = p.maxSize * p.unitSize * 2 := by ring
  have em : u32 (p.maxSize * 2) = p.maxSize * 2 := by unfold u32; omega
  have eu : u32 (p.unused + p.maxSize) = p.maxSize := by rw [hu]; unfold u32; omega
  have eu1 : sub32 p.maxSize 1 = p.maxSize - 1 := by unfold sub32 u32; omega
  have ei : sub32 (p.maxSize * 2) p.maxSize = p.maxSize := by unfold sub32 u32; omega
  have ec : u32 (p.maxSize * 2 / 2 * p.unitSize) = p.maxSize * p.unitSize := by
    rw [Nat.mul_div_cancel _ (by decide : 0 < 2)]; unfold u32; omega
  have e1 : u32 (p.maxSize * p.unitSize) = p.maxSize * p.unitSize := by unfold u32; omega
  have e2 : u64 (fresh.addr + p.maxSize * p.unitSize) = fresh.addr + p.maxSize * p.unitSize := by
    have := hfresh.2; unfold u64; omega
  have hdiv : p.maxSize * p.unitSize / p.unitSize = p.maxSize := Nat.mul_div_cancel _ hus
  have e4 : u32 p.maxSize = p.maxSize := by unfold u32; omega
  have e5 : u32 (p.size + 1) = n + 1 := by unfold u32; omega
  have hpos := hfresh.1
  have hhi := hfresh.2
  unfold poolAllocatorAlloc poolAllocatorAllocPtr
  rw [if_neg (not_not.mpr hnf), if_neg (by omega), if_pos hown]
  simp only
  rw [em, eu, eu1, ei, ec, e1, e2, e5, if_neg (by omega), ptrOffset_add _ _ (by omega) (by omega), hdiv, e4]

theorem PoolOK.length_lt {p : PoolAllocator} {live fl : List Nat} (h : PoolOK p live fl) :
    live.length < 4294967295 := by
  have h1 := h.length_add
  have h2 := h.cap
  have h3 : p.maxSize * 8 ≤ p.maxSize * p.unitSize := Nat.mul_le_mul_left _ h.unit_ge
  have h4 := h.max_pos
  omega

/-- Effect of `poolAllocatorAlloc` on a consistent pool that owns its memory
and, if it has to grow, can double its buffer within 32 bit offsets. -/
theorem PoolOK.alloc {p : PoolAllocator} {live fl : List Nat} (h : PoolOK p live fl)
    (fresh : Block) (hfresh : fresh.ok) (hown : p.ownsMemory = true)
    (hroom : 2 * live.length * p.unitSize < 4294967296) :
    (poolAllocatorAlloc fresh p).2 = allocIdx fl p.maxSize p.unused ∧
    (poolAllocatorAlloc fresh p).2 ∉ live ∧
    PoolOK (poolAllocatorAlloc fresh p).1 ((poolAllocatorAlloc fresh p).2 :: live) fl.tail ∧
    (poolAllocatorAlloc fresh p).1.unitSize = p.unitSize ∧
    (poolAllocatorAlloc fresh p).1.ownsMemory = true ∧
    (poolAllocatorAlloc fresh p).1.maxSize = allocMaxSize fl p.maxSize p.unused ∧
    (poolAllocatorAlloc fresh p).1.unused = allocUnused fl p.maxSize p.unused ∧
    (∀ a, a ∈ live → ∀ i, i < p.unitSize →
      (poolAllocatorAlloc fresh p).1.bytes (a * p.unitSize + i) = p.bytes (a * p.unitSize + i)) := by
  have hus := h.unit_ge
  have hcap := h.cap
  have hmh := h.mem_hi
  have hmp := h.mem_pos
  have hlen := h.length_add
  have hll := h.length_lt
  cases fl with
  | cons a rest =>
    obtain ⟨hc1, hc2⟩ := h.chain
    have ha : a < p.maxSize := h.lt_max (by simp)
    have hoff := unit_end_le p.unitSize _ _ ha
    rw [alloc_eq_pop p fresh a live.length hc1 hmp hmh (by omega) (by omega) h.size_eq hll]
    have hperm : ((a :: live) ++ rest).Perm (live ++ a :: rest) :=
      List.perm_middle.symm
    have hna : a ∉ live := by
      intro hl
      exact (List.nodup_append.mp h.nodup).2.2 hl (List.mem_cons_self _ _)
    refine ⟨rfl, hna, ?_, rfl, hown, rfl, rfl, fun _ _ _ _ => rfl⟩
    exact
      { unit_ge := h.unit_ge, mem_pos := h.mem_pos, mem_hi := h.mem_hi, max_pos := h.max_pos,
        unused_le := h.unused_le, cap := h.cap, size_eq := rfl,
        nodup := hperm.nodup_iff.mpr h.nodup,
        carved := fun b => (hperm.mem_iff).trans (h.carved b),
        chain := hc2 }
  | nil =>
    have hnf : p.nextFree = 0 := h.chain
    have hlive : live.length = p.maxSize - p.unused := by
      rw [← hlen]; rfl
    have hmem : ∀ b, b ∈ live ↔ b < p.maxSize - p.unused := by
      intro b
      have := h.carved b
      rwa [List.append_nil] at this
    have hnd : live.Nodup := by
      have := h.nodup
      rwa [List.append_nil] at this
    have hul := h.unused_le
    by_cases hu : p.unused > 0
    · rw [alloc_eq_carve p fresh live.length hnf hmh hmp (by omega) hu hul hcap h.size_eq hll]
      have hna : p.maxSize - p.unused ∉ live := by
        intro hl
        have := (hmem _).mp hl
        omega
      have hne : p.unused ≠ 0 := by omega
      refine ⟨rfl, hna, ?_, rfl, hown, ?_, ?_, fun _ _ _ _ => rfl⟩
      · exact
          { unit_ge := h.unit_ge, mem_pos := h.mem_pos, mem_hi := h.mem_hi, max_pos := h.max_pos,
            unused_le := Nat.le_trans (Nat.sub_le _ _) hul,
            cap := h.cap, size_eq := rfl,
            nodup := (List.append_nil _).symm ▸ List.nodup_cons.mpr ⟨hna, hnd⟩,
            carved := fun b => by
              show b ∈ ((p.maxSize - p.unused) :: live) ++ [] ↔ b < p.maxSize - (p.unused - 1)
              rw [List.append_nil, List.mem_cons, hmem b]
              omega,
            chain := hnf }
      · show p.maxSize = allocMaxSize [] p.maxSize p.unused
        unfold allocMaxSize
        rw [if_neg hne]
      · show p.unused - 1 = allocUnused [] p.maxSize p.unused
        unfold allocUnused
        rw [if_neg hne]
    · have hu0 : p.unused = 0 := by omega
      have hmp' := h.max_pos
      have h2m : p.maxSize * 2 * p.unitSize < 4294967296 := by
        rw [hlive, hu0, Nat.sub_zero, Nat.mul_comm 2 p.maxSize] at hroom
        exact hroom
      rw [alloc_eq_grow p fresh live.length hnf hfresh hown (by omega) hu0 hmp' h2m h.size_eq hll]
      have hna : p.maxSize ∉ live := by
        intro hl
        have := (hmem _).mp hl
        omega
      refine ⟨?_, hna, ?_, rfl, hown, ?_, ?_, ?_⟩
      · show p.maxSize = p.maxSize - p.unused
        omega
      · exact
          { unit_ge := h.unit_ge, mem_pos := hfresh.1, mem_hi := hfresh.2,
            max_pos := Nat.mul_pos hmp' (by decide),
            unused_le := by show p.maxSize - 1 ≤ p.maxSize * 2; omega,
            cap := h2m, size_eq := rfl,
            nodup := (List.append_nil _).symm ▸ List.nodup_cons.mpr ⟨hna, hnd⟩,
            carved := fun b => by
              show b ∈ (p.maxSize :: live) ++ [] ↔ b < p.maxSize * 2 - (p.maxSize - 1)
              rw [List.append_nil, List.mem_cons, hmem b]
              omega,
            chain := hnf }
      · show p.maxSize * 2 = allocMaxSize [] p.maxSize p.unused
        unfold allocMaxSize
        rw [if_pos hu0]
      · show p.maxSize - 1 = allocUnused [] p.maxSize p.unused
        unfold allocUnused
        rw [if_pos hu0]
      · intro a ha i hi
        show memcpy fresh.init p.bytes (p.maxSize * p.unitSize) (a * p.unitSize + i) = _
        unfold memcpy
        have := (hmem a).mp ha
        have := unit_end_le p.unitSize a p.maxSize (by omega)
        rw [if_pos (by omega)]

/-! ## Top level entries -/

theorem tag_expanded (h : Nat) (hh : h < 1073741824) : (2147483648 + h) >>> 30 = 2 := by
  rw [Nat.shiftRight_eq_div_pow]
  omega

theorem tag_uniform (v : Nat) (hv : v < 1073741824) : (3221225472 + v) >>> 30 = 3 := by
  rw [Nat.shiftRight_eq_div_pow]
  omega

theorem tag_zero : (0 : Nat) >>> 30 = 0 := by decide

theorem payload_expanded (h : Nat) (hh : h < 1073741824) :
    u32 ((2147483648 + h) <<< 2) >>> 2 = h := by
  rw [payload_eq_mod]
  omega

theorem payload_uniform (v : Nat) (hv : v < 1073741824) :
    u32 ((3221225472 + v) <<< 2) >>> 2 = v := by
  rw [payload_eq_mod]
  omega

theorem entry_expanded (n : Nat) (hn : n < 1073741824) :
    u32 (2 <<< 30) ||| n = 2147483648 + n := by
  have h := Nat.mul_add_lt_is_or (i := 31) (b := n) (by omega) 1
  have e : u32 (2 <<< 30) = 2 ^ 31 * 1 := by decide
  rw [e, ← h]

theorem entry_uniform (v : Nat) (hv : v < 1073741824) :
    v ||| u32 (3 <<< 30) = 3221225472 + v := by
  have h := Nat.mul_add_lt_is_or (i := 30) (b := v) (by omega) 3
  have e : u32 (3 <<< 30) = 2 ^ 30 * 3 := by decide
  rw [e, Nat.or_comm, ← h]

theorem getWithinChunkIdx_eq (x y z : Nat) :
    getWithinChunkIdx x y z = x % 8 * 64 + z % 8 * 8 + y % 8 := by
  unfold getWithinChunkIdx u32
  have e : ∀ a : Nat, a &&& 7 = a % 8 := fun a => Nat.and_pow_two_sub_one_eq_mod a 3
  rw [e, e, e]
  omega

theorem getWithinChunkIdx_lt (x y z : Nat) : getWithinChunkIdx x y z < 512 := by
  rw [getWithinChunkIdx_eq]
  omega

/-! ## Stores into pool units -/

theorem poolAllocatorGet_offset {p : PoolAllocator} {live fl : List Nat} (h : PoolOK p live fl)
    {a : Nat} (ha : a < p.maxSize) :
    ptrOffset p.memory (poolAllocatorGet p a) = a * p.unitSize := by
  have h1 := unit_end_le p.unitSize a p.maxSize ha
  have h2 := h.cap
  have h3 := h.unit_ge
  unfold poolAllocatorGet
  have e : u32 (a * p.unitSize) = a * p.unitSize := by unfold u32; omega
  rw [e]
  exact ptrOffset_base _ _ h.mem_hi (by omega)

/-- A store that stays inside a unit in use keeps the pool consistent. -/
theorem PoolOK.writeUnit {p : PoolAllocator} {live fl : List Nat} (h : PoolOK p live fl)
    {a : Nat} (ha : a ∈ live) (bytes' : Bytes)
    (hf : ∀ i, i < a * p.unitSize ∨ a * p.unitSize + p.unitSize ≤ i → bytes' i = p.bytes i) :
    PoolOK { p with bytes := bytes' } live fl := by
  apply h.write
  intro b hb k hk
  apply hf
  have hne : b ≠ a := by
    intro e
    subst e
    exact (List.nodup_append.mp h.nodup).2.2 ha hb
  have hus := h.unit_ge
  rcases Nat.lt_or_gt_of_ne hne with h1 | h1
  · have := unit_end_le p.unitSize b a h1
    omega
  · have := unit_end_le p.unitSize a b h1
    omega

theorem setBitmaskBit_unitSize (p : PoolAllocator) (ptr i v : Nat) :
    (setBitmaskBit p ptr i v).unitSize = p.unitSize := rfl

theorem setBitmaskBit_maxSize (p : PoolAllocator) (ptr i v : Nat) :
    (setBitmaskBit p ptr i v).maxSize = p.maxSize := rfl

theorem setBitmaskBit_unused (p : PoolAllocator) (ptr i v : Nat) :
    (setBitmaskBit p ptr i v).unused = p.unused := rfl

theorem setBitmaskBit_ownsMemory (p : PoolAllocator) (ptr i v : Nat) :
    (setBitmaskBit p ptr i v).ownsMemory = p.ownsMemory := rfl

theorem setBitmaskBit_size (p : PoolAllocator) (ptr i v : Nat) :
    (setBitmaskBit p ptr i v).size = p.size := rfl

/-- The bit store of `terrain_setBlock` into the bitmask unit of a handle in use keeps
the bitmask pool consistent. -/
theorem PoolOK.setBitmaskBit {p : PoolAllocator} {live fl : List Nat} (h : PoolOK p live fl)
    {a : Nat} (ha : a ∈ live) (hus : p.unitSize = 64) (i v : Nat) (hi : i < 512) :
    PoolOK (setBitmaskBit p (poolAllocatorGet p a) i v) live fl := by
  have hmax : a < p.maxSize := h.lt_max (List.mem_append_left _ ha)
  have hoff := poolAllocatorGet_offset h hmax
  unfold VoxelTerrain.setBitmaskBit
  rw [hoff]
  apply h.writeUnit ha
  intro j hj
  apply store32_outside
  rw [hus] at hj ⊢
  omega

theorem expandedBytes_outside (bytes : Bytes) (off c i v j : Nat) (hi : i < 512)
    (hj : j < off ∨ off + 512 ≤ j) : expandedBytes bytes off c i v j = bytes j := by
  unfold expandedBytes
  rw [memset_outside _ _ _ _ _ (by omega), storeByte_other _ _ _ _ (by omega),
    memset_outside _ _ _ _ _ (by omega)]

theorem poolAllocatorDealloc_unitSize (p : PoolAllocator) (a : Nat) :
    (poolAllocatorDealloc p a).unitSize = p.unitSize := rfl

theorem poolAllocatorDealloc_maxSize (p : PoolAllocator) (a : Nat) :
    (poolAllocatorDealloc p a).maxSize = p.maxSize := rfl

theorem poolAllocatorDealloc_unused (p : PoolAllocator) (a : Nat) :
    (poolAllocatorDealloc p a).unused = p.unused := rfl

theorem poolAllocatorDealloc_ownsMemory (p : PoolAllocator) (a : Nat) :
    (poolAllocatorDealloc p a).ownsMemory = p.ownsMemory := rfl

/-! ## Consistency of the terrain -/

theorem TerrainOK.index_lt {t : Terrain} {live fl : List Nat} (ht : TerrainOK t live fl)
    {x y z : Nat} (hx : x < t.width) (hy : y < t.height) (hz : z < t.width) :
    getChunkIdx x y z t.width t.height < t.chunkCount := by
  have hw := ht.width_mod
  have hh := ht.height_mod
  have hc := ht.count_le
  rw [ht.count_eq] at hc ⊢
  rw [getChunkIdx_eq x y z _ _ (by omega) (by omega) hx hy hz (by omega)]
  exact chunkIdxNat_lt x y z _ _ (by omega) (by omega) hx hy hz

theorem TerrainOK.handle_lt {t : Terrain} {live fl : List Nat} (ht : TerrainOK t live fl)
    {a : Nat} (ha : a ∈ live) : a < 8388608 := by
  have h1 := ht.chunk_ok.lt_max (List.mem_append_left _ ha)
  have h2 := ht.chunk_ok.cap
  rw [ht.chunk_unit] at h2
  omega

/-- A chunk that owns no pool unit leaves room: fewer units are in use than there are
chunks. -/
theorem TerrainOK.live_lt {t : Terrain} {live fl : List Nat} (ht : TerrainOK t live fl)
    {c : Nat} (hne : ∀ a, a ∈ live → t.topLevelArray c ≠ 2147483648 + a) :
    live.length < t.chunkCount ∨ t.chunkCount ≤ c := by
  classical
  by_cases hc : c < t.chunkCount
  · left
    have hnd : live.Nodup := (List.nodup_append.mp ht.chunk_ok.nodup).1
    let f : Nat → Nat := fun a => if ha : a ∈ live then Classical.choose (ht.owner a ha) else 0
    have hf : ∀ a, a ∈ live → f a < t.chunkCount ∧ t.topLevelArray (f a) = 2147483648 + a := by
      intro a ha
      have := Classical.choose_spec (ht.owner a ha)
      simp only [f, dif_pos ha]
      exact this
    have hcard : live.toFinset.card ≤ ((Finset.range t.chunkCount).erase c).card := by
      apply Finset.card_le_card_of_injOn f
      · intro a ha
        have ha' : a ∈ live := List.mem_toFinset.mp ha
        have := hf a ha'
        rw [Finset.mem_erase, Finset.mem_range]
        refine ⟨?_, this.1⟩
        intro e
        exact hne a ha' (e ▸ this.2)
      · intro a ha b hb e
        have ha' : a ∈ live := List.mem_toFinset.mp ha
        have hb' : b ∈ live := List.mem_toFinset.mp hb
        have h1 := (hf a ha').2
        have h2 := (hf b hb').2
        rw [e, h2] at h1
        omega
    rw [List.toFinset_card_of_nodup hnd, Finset.card_erase_of_mem (Finset.mem_range.mpr hc),
      Finset.card_range] at hcard
    omega
  · right
    omega

theorem writtenPool_bytes {t : Terrain} {live fl : List Nat} (ht : TerrainOK t live fl)
    {a : Nat} (ha : a ∈ live) (i v : Nat) :
    (writtenPool t a i v).bytes = storeByte t.chunkPool.bytes (a * 512 + i) v := by
  have hmax : a < t.chunkPool.maxSize := ht.chunk_ok.lt_max (List.mem_append_left _ ha)
  have hoff := poolAllocatorGet_offset ht.chunk_ok hmax
  unfold writtenPool
  simp only
  rw [hoff, ht.chunk_unit]

theorem writtenPool_ok {t : Terrain} {live fl : List Nat} (ht : TerrainOK t live fl)
    {a : Nat} (ha : a ∈ live) (i v : Nat) (hi : i < 512) :
    PoolOK (writtenPool t a i v) live fl := by
  have hmax : a < t.chunkPool.maxSize := ht.chunk_ok.lt_max (List.mem_append_left _ ha)
  have hoff := poolAllocatorGet_offset ht.chunk_ok hmax
  unfold writtenPool
  simp only
  rw [hoff]
  apply ht.chunk_ok.writeUnit ha
  intro j hj
  apply storeByte_other
  rw [ht.chunk_unit] at hj ⊢
  omega

theorem nowUniform_value {t : Terrain} {live fl : List Nat} (ht : TerrainOK t live fl)
    {a : Nat} (ha : a ∈ live) (i v : Nat) (hi : i < 512)
    (hu : nowUniform t a i v = true) :
    loadByte (writtenPool t a i v).bytes
      (ptrOffset t.chunkPool.memory (poolAllocatorGet t.chunkPool a)) = u8 v := by
  have hmax : a < t.chunkPool.maxSize := ht.chunk_ok.lt_max (List.mem_append_left _ ha)
  have hoff := poolAllocatorGet_offset ht.chunk_ok hmax
  unfold nowUniform at hu
  rw [memcmpNext_iff] at hu
  rw [← hu i (by omega), hoff, ht.chunk_unit, writtenPool_bytes ht ha]
  unfold loadByte
  rw [storeByte_same]
  unfold u8
  exact Nat.mod_mod _ _

theorem u8_small (v : Nat) (hv : v < 256) : u8 v = v := Nat.mod_eq_of_lt hv

/-- The branch of `terrain_setBlock` for an expanded chunk keeps the terrain consistent;
when the chunk collapses its handle moves from the handles in use to the free list. -/
theorem TerrainOK.setBlockExpanded {t : Terrain} {live fl : List Nat} (ht : TerrainOK t live fl)
    {c a : Nat} (hc : c < t.chunkCount) (ha : a ∈ live)
    (he : t.topLevelArray c = 2147483648 + a) (i v : Nat) (hi : i < 512) (hv : v < 256) :
    TerrainOK (setBlockExpanded t c a i v)
      (if nowUniform t a i v then live.erase a else live)
      (if nowUniform t a i v then a :: fl else fl) := by
  have hpool := writtenPool_ok ht ha i v hi
  have hmask := ht.mask_ok.setBitmaskBit ha ht.mask_unit i v hi
  by_cases hu : nowUniform t a i v = true
  · have huv := nowUniform_value ht ha i v hi hu
    rw [u8_small v hv] at huv
    have hnd : live.Nodup := (List.nodup_append.mp ht.chunk_ok.nodup).1
    have halt := ht.handle_lt ha
    unfold VoxelTerrain.setBlockExpanded
    rw [if_pos hu, if_pos hu, if_pos hu]
    simp only
    rw [huv]
    have hE : (if v ≠ 0 then v ||| u32 (3 <<< 30) else v) = 0 ∨
        ∃ w, 0 < w ∧ w < 256 ∧ (if v ≠ 0 then v ||| u32 (3 <<< 30) else v) = 3221225472 + w := by
      by_cases hv0 : v = 0
      · left
        rw [if_neg (not_not.mpr hv0)]
        exact hv0
      · right
        rw [if_pos hv0]
        exact ⟨v, Nat.pos_of_ne_zero hv0, hv, entry_uniform v (by omega)⟩
    generalize (if v ≠ 0 then v ||| u32 (3 <<< 30) else v) = E at hE
    have hEne : ∀ b, b ∈ live → E ≠ 2147483648 + b := by
      intro b hb e
      have := ht.handle_lt hb
      rcases hE with h0 | ⟨w, _, _, hw⟩
      · omega
      · omega
    exact
      { width_mod := ht.width_mod, height_mod := ht.height_mod, count_eq := ht.count_eq,
        count_le := ht.count_le,
        chunk_ok := hpool.dealloc ha, mask_ok := hmask.dealloc ha,
        chunk_unit := ht.chunk_unit, mask_unit := ht.mask_unit,
        chunk_owns := ht.chunk_owns, mask_owns := ht.mask_owns,
        same_max := ht.same_max, same_unused := ht.same_unused,
        entry := by
          intro c' hc'
          dsimp only
          by_cases e : c' = c
          · subst e
            rw [Function.update_same]
            rcases hE with h0 | hw
            · exact Or.inl h0
            · exact Or.inr (Or.inl hw)
          · rw [Function.update_noteq e]
            rcases ht.entry c' hc' with h0 | hw | ⟨b, hb, hb'⟩
            · exact Or.inl h0
            · exact Or.inr (Or.inl hw)
            · refine Or.inr (Or.inr ⟨b, ?_, hb'⟩)
              apply (List.mem_erase_of_ne _).mpr hb
              intro eb
              subst eb
              exact e (ht.inj c' c b hb hc' hc hb' he),
        owner := by
          intro b hb
          have hb' : b ∈ live := List.mem_of_mem_erase hb
          have hne : b ≠ a := fun e => by
            subst e
            exact (List.Nodup.not_mem_erase hnd) hb
          obtain ⟨c', hc', hc''⟩ := ht.owner b hb'
          have hcc : c' ≠ c := by
            intro e
            subst e
            rw [he] at hc''
            omega
          exact ⟨c', hc', by
            show Function.update t.topLevelArray c E c' = _
            rw [Function.update_noteq hcc]; exact hc''⟩,
        inj := by
          intro c1 c2 b hb h1 h2 e1 e2
          have hb' : b ∈ live := List.mem_of_mem_erase hb
          have hc1 : c1 ≠ c := by
            intro e
            subst e
            have : Function.update t.topLevelArray c1 E c1 = 2147483648 + b := e1
            rw [Function.update_same] at this
            exact hEne b hb' this
          have hc2 : c2 ≠ c := by
            intro e
            subst e
            have : Function.update t.topLevelArray c2 E c2 = 2147483648 + b := e2
            rw [Function.update_same] at this
            exact hEne b hb' this
          have e1' : Function.update t.topLevelArray c E c1 = 2147483648 + b := e1
          have e2' : Function.update t.topLevelArray c E c2 = 2147483648 + b := e2
          rw [Function.update_noteq hc1] at e1'
          rw [Function.update_noteq hc2] at e2'
          exact ht.inj c1 c2 b hb' h1 h2 e1' e2' }
  · unfold VoxelTerrain.setBlockExpanded
    rw [if_neg hu, if_neg hu, if_neg hu]
    exact
      { width_mod := ht.width_mod, height_mod := ht.height_mod, count_eq := ht.count_eq,
        count_le := ht.count_le,
        chunk_ok := hpool, mask_ok := hmask,
        chunk_unit := ht.chunk_unit, mask_unit := ht.mask_unit,
        chunk_owns := ht.chunk_owns, mask_owns := ht.mask_owns,
        same_max := ht.same_max, same_unused := ht.same_unused,
        entry := ht.entry, owner := ht.owner, inj := ht.inj }

/-- The branch of `terrain_setBlock` that expands a chunk keeps the terrain consistent;
the handle returned by `poolAllocatorAlloc` joins the handles in use. -/
theorem TerrainOK.setBlockExpand {t : Terrain} {live fl : List Nat} (ht : TerrainOK t live fl)
    {c : Nat} (hc : c < t.chunkCount)
    (hne : ∀ a, a ∈ live → t.topLevelArray c ≠ 2147483648 + a)
    (f₁ f₂ : Block) (h₁ : f₁.ok) (h₂ : f₂.ok) (cv i v : Nat) (hi : i < 512) :
    TerrainOK (setBlockExpand f₁ f₂ t c cv i v)
      ((poolAllocatorAlloc f₁ t.chunkPool).2 :: live) fl.tail := by
  have hlen : live.length < t.chunkCount := by
    rcases ht.live_lt hne with h | h
    · exact h
    · omega
  have hcl := ht.count_le
  have hroom₁ : 2 * live.length * t.chunkPool.unitSize < 4294967296 := by
    rw [ht.chunk_unit]; omega
  have hroom₂ : 2 * live.length * t.chunkBitmaskPool.unitSize < 4294967296 := by
    rw [ht.mask_unit]; omega
  obtain ⟨hidx1, hnl1, hok1, hus1, hown1, hmax1, hun1, _⟩ :=
    ht.chunk_ok.alloc f₁ h₁ ht.chunk_owns hroom₁
  obtain ⟨hidx2, _, hok2, hus2, hown2, hmax2, hun2, _⟩ :=
    ht.mask_ok.alloc f₂ h₂ ht.mask_owns hroom₂
  have hsame : (poolAllocatorAlloc f₂ t.chunkBitmaskPool).2 = (poolAllocatorAlloc f₁ t.chunkPool).2 := by
    rw [hidx1, hidx2, ht.same_max, ht.same_unused]
  rw [hsame] at hok2
  rw [ht.same_max, ht.same_unused, ← hmax1] at hmax2
  rw [ht.same_max, ht.same_unused, ← hun1] at hun2
  rw [ht.chunk_unit] at hus1
  rw [ht.mask_unit] at hus2
  unfold VoxelTerrain.setBlockExpand
  simp only []
  generalize poolAllocatorAlloc f₁ t.chunkPool = r₁ at *
  generalize poolAllocatorAlloc f₂ t.chunkBitmaskPool = r₂ at *
  have hn : r₁.2 ∈ r₁.2 :: live := List.mem_cons_self _ _
  have hnmax : r₁.2 < r₁.1.maxSize := hok1.lt_max (List.mem_append_left _ hn)
  have hnlt : r₁.2 < 8388608 := by
    have := hok1.cap
    rw [hus1] at this
    omega
  have hoff := poolAllocatorGet_offset hok1 hnmax
  have hcp : PoolOK { r₁.1 with
      bytes := expandedBytes r₁.1.bytes (ptrOffset r₁.1.memory (poolAllocatorGet r₁.1 r₁.2)) cv i v }
      (r₁.2 :: live) fl.tail := by
    rw [hoff]
    apply hok1.writeUnit hn
    intro j hj
    apply expandedBytes_outside _ _ _ _ _ _ hi
    rw [hus1] at hj ⊢
    omega
  have hmp := hok2.setBitmaskBit hn hus2 i v hi
  have hE := entry_expanded r₁.2 (by omega)
  exact
    { width_mod := ht.width_mod, height_mod := ht.height_mod, count_eq := ht.count_eq,
      count_le := ht.count_le,
      chunk_ok := hcp, mask_ok := hmp,
      chunk_unit := hus1, mask_unit := hus2,
      chunk_owns := hown1, mask_owns := hown2,
      same_max := hmax2, same_unused := hun2,
      entry := by
        intro c' hc'
        show Function.update t.topLevelArray c (u32 (2 <<< 30) ||| r₁.2) c' = 0 ∨
          (∃ w, 0 < w ∧ w < 256 ∧
            Function.update t.topLevelArray c (u32 (2 <<< 30) ||| r₁.2) c' = 3221225472 + w) ∨
          ∃ b, b ∈ r₁.2 :: live ∧
            Function.update t.topLevelArray c (u32 (2 <<< 30) ||| r₁.2) c' = 2147483648 + b
        rw [hE]
        by_cases e : c' = c
        · subst e
          rw [Function.update_same]
          exact Or.inr (Or.inr ⟨r₁.2, hn, rfl⟩)
        · rw [Function.update_noteq e]
          rcases ht.entry c' hc' with h0 | hw | ⟨b, hb, hb'⟩
          · exact Or.inl h0
          · exact Or.inr (Or.inl hw)
          · exact Or.inr (Or.inr ⟨b, List.mem_cons_of_mem _ hb, hb'⟩),
      owner := by
        intro b hb
        show ∃ c', c' < t.chunkCount ∧
          Function.update t.topLevelArray c (u32 (2 <<< 30) ||| r₁.2) c' = 2147483648 + b
        rw [hE]
        rcases List.mem_cons.mp hb with e | hb'
        · subst e
          exact ⟨c, hc, Function.update_same _ _ _⟩
        · obtain ⟨c', hc', hc''⟩ := ht.owner b hb'
          have hcc : c' ≠ c := by
            intro e
            subst e
            exact hne b hb' hc''
          exact ⟨c', hc', by rw [Function.update_noteq hcc]; exact hc''⟩,
      inj := by
        intro c1 c2 b hb h1 h2 e1 e2
        have e1' : Function.update t.topLevelArray c (u32 (2 <<< 30) ||| r₁.2) c1 =
            2147483648 + b := e1
        have e2' : Function.update t.topLevelArray c (u32 (2 <<< 30) ||| r₁.2) c2 =
            2147483648 + b := e2
        rw [hE] at e1' e2'
        have key : ∀ c', c' < t.chunkCount → c' ≠ c →
            t.topLevelArray c' = 2147483648 + b → b ∈ live := by
          intro c' hc' _ e
          rcases ht.entry c' hc' with h0 | ⟨w, _, _, hw⟩ | ⟨b', hb', hb''⟩
          · omega
          · rcases List.mem_cons.mp hb with eb | hbl
            · omega
            · exact hbl
          · have : b = b' := by omega
            exact this ▸ hb'
        by_cases hc1 : c1 = c
        · by_cases hc2 : c2 = c
          · rw [hc1, hc2]
          · exfalso
            rw [hc1, Function.update_same] at e1'
            rw [Function.update_noteq hc2] at e2'
            have hbl := key c2 h2 hc2 e2'
            have : b = r₁.2 := by omega
            exact hnl1 (this ▸ hbl)
        · by_cases hc2 : c2 = c
          · exfalso
            rw [hc2, Function.update_same] at e2'
            rw [Function.update_noteq hc1] at e1'
            have hbl := key c1 h1 hc1 e1'
            have : b = r₁.2 := by omega
            exact hnl1 (this ▸ hbl)
          · rw [Function.update_noteq hc1] at e1'
            rw [Function.update_noteq hc2] at e2'
            exact ht.inj c1 c2 b (key c1 h1 hc1 e1') h1 h2 e1' e2' }

theorem outOfBounds_false (t : Terrain) (x y z : Nat) (hx : x < t.width) (hy : y < t.height)
    (hz : z < t.width) : outOfBounds t x y z = false := by
  unfold outOfBounds
  rw [decide_eq_false (by omega), decide_eq_false (by omega), decide_eq_false (by omega)]
  rfl

theorem boundsCheck_false (D : Bool) (t : Terrain) (x y z : Nat) (hx : x < t.width)
    (hy : y < t.height) (hz : z < t.width) : ¬ ((D && outOfBounds t x y z) = true) := by
  rw [outOfBounds_false t x y z hx hy hz, Bool.and_false]
  exact Bool.false_ne_true

theorem setBlockExpanded_shape (t : Terrain) (c a i v : Nat) :
    (setBlockExpanded t c a i v).width = t.width ∧
    (setBlockExpanded t c a i v).height = t.height ∧
    (setBlockExpanded t c a i v).chunkCount = t.chunkCount := by
  unfold setBlockExpanded
  simp only []
  split
  · exact ⟨rfl, rfl, rfl⟩
  · exact ⟨rfl, rfl, rfl⟩

theorem setBlockExpand_shape (f₁ f₂ : Block) (t : Terrain) (c a i v : Nat) :
    (setBlockExpand f₁ f₂ t c a i v).width = t.width ∧
    (setBlockExpand f₁ f₂ t c a i v).height = t.height ∧
    (setBlockExpand f₁ f₂ t c a i v).chunkCount = t.chunkCount :=
  ⟨rfl, rfl, rfl⟩

theorem terrain_setBlock_shape (D : Bool) (f₁ f₂ : Block) (t : Terrain) (x y z v : Nat) :
    (terrain_setBlock D f₁ f₂ t x y z v).width = t.width ∧
    (terrain_setBlock D f₁ f₂ t x y z v).height = t.height ∧
    (terrain_setBlock D f₁ f₂ t x y z v).chunkCount = t.chunkCount := by
  unfold terrain_setBlock
  simp only []
  split
  · exact ⟨rfl, rfl, rfl⟩
  · split
    · exact ⟨rfl, rfl, rfl⟩
    · split
      · exact ⟨rfl, rfl, rfl⟩
      · split
        · exact setBlockExpanded_shape _ _ _ _ _
        · exact setBlockExpand_shape _ _ _ _ _ _ _

/-! ## The branches of `terrain_setBlock` -/

theorem terrain_setBlock_noop (D : Bool) (f₁ f₂ : Block) (t : Terrain) (x y z v : Nat)
    (h : (t.topLevelArray (getChunkIdx x y z t.width t.height) >>> 30 = 0 ∧ v = 0) ∨
      (t.topLevelArray (getChunkIdx x y z t.width t.height) >>> 30 = 3 ∧
        v = u32 (t.topLevelArray (getChunkIdx x y z t.width t.height) <<< 2) >>> 2)) :
    terrain_setBlock D f₁ f₂ t x y z v = t := by
  unfold terrain_setBlock
  split
  · rfl
  · simp only []
    rcases h with h | h
    · rw [if_pos h]
    · split
      · rfl
      · rfl

theorem liveAfter_noop (D : Bool) (f₁ : Block) (t : Terrain) (x y z v : Nat) (live : List Nat)
    (h : (t.topLevelArray (getChunkIdx x y z t.width t.height) >>> 30 = 0 ∧ v = 0) ∨
      (t.topLevelArray (getChunkIdx x y z t.width t.height) >>> 30 = 3 ∧
        v = u32 (t.topLevelArray (getChunkIdx x y z t.width t.height) <<< 2) >>> 2)) :
    liveAfter D f₁ t x y z v live = live := by
  unfold liveAfter
  split
  · rfl
  · simp only []
    rcases h with h | h
    · rw [if_pos h]
    · split
      · rfl
      · rfl

theorem terrain_setBlock_expanded (D : Bool) (f₁ f₂ : Block) (t : Terrain) (x y z v : Nat)
    (hb : ¬ ((D && outOfBounds t x y z) = true))
    (h : t.topLevelArray (getChunkIdx x y z t.width t.height) >>> 30 = 2) :
    terrain_setBlock D f₁ f₂ t x y z v =
      setBlockExpanded t (getChunkIdx x y z t.width t.height)
        (u32 (t.topLevelArray (getChunkIdx x y z t.width t.height) <<< 2) >>> 2)
        (getWithinChunkIdx x y z) v := by
  unfold terrain_setBlock
  rw [if_neg hb]
  simp only []
  rw [if_neg (fun e => by rw [h] at e; exact absurd e.1 (by decide)),
    if_neg (fun e => by rw [h] at e; exact absurd e.1 (by decide)), if_pos h]

theorem liveAfter_expanded (D : Bool) (f₁ : Block) (t : Terrain) (x y z v : Nat)
    (live : List Nat) (hb : ¬ ((D && outOfBounds t x y z) = true))
    (h : t.topLevelArray (getChunkIdx x y z t.width t.height) >>> 30 = 2) :
    liveAfter D f₁ t x y z v live =
      if nowUniform t (u32 (t.topLevelArray (getChunkIdx x y z t.width t.height) <<< 2) >>> 2)
          (getWithinChunkIdx x y z) v then
        live.erase (u32 (t.topLevelArray (getChunkIdx x y z t.width t.height) <<< 2) >>> 2)
      else live := by
  unfold liveAfter
  rw [if_neg hb]
  simp only []
  rw [if_neg (fun e => by rw [h] at e; exact absurd e.1 (by decide)),
    if_neg (fun e => by rw [h] at e; exact absurd e.1 (by decide)), if_pos h]

theorem terrain_setBlock_expand (D : Bool) (f₁ f₂ : Block) (t : Terrain) (x y z v : Nat)
    (hb : ¬ ((D && outOfBounds t x y z) = true))
    (h0 : ¬ (t.topLevelArray (getChunkIdx x y z t.width t.height) >>> 30 = 0 ∧ v = 0))
    (h3 : ¬ (t.topLevelArray (getChunkIdx x y z t.width t.height) >>> 30 = 3 ∧
        v = u32 (t.topLevelArray (getChunkIdx x y z t.width t.height) <<< 2) >>> 2))
    (h2 : ¬ (t.topLevelArray (getChunkIdx x y z t.width t.height) >>> 30 = 2)) :
    terrain_setBlock D f₁ f₂ t x y z v =
      setBlockExpand f₁ f₂ t (getChunkIdx x y z t.width t.height)
        (u32 (t.topLevelArray (getChunkIdx x y z t.width t.height) <<< 2) >>> 2)
        (getWithinChunkIdx x y z) v := by
  unfold terrain_setBlock
  rw [if_neg hb]
  simp only []
  rw [if_neg h0, if_neg h3, if_neg h2]

theorem liveAfter_expand (D : Bool) (f₁ : Block) (t : Terrain) (x y z v : Nat)
    (live : List Nat) (hb : ¬ ((D && outOfBounds t x y z) = true))
    (h0 : ¬ (t.topLevelArray (getChunkIdx x y z t.width t.height) >>> 30 = 0 ∧ v = 0))
    (h3 : ¬ (t.topLevelArray (getChunkIdx x y z t.width t.height) >>> 30 = 3 ∧
        v = u32 (t.topLevelArray (getChunkIdx x y z t.width t.height) <<< 2) >>> 2))
    (h2 : ¬ (t.topLevelArray (getChunkIdx x y z t.width t.height) >>> 30 = 2)) :
    liveAfter D f₁ t x y z v live = (poolAllocatorAlloc f₁ t.chunkPool).2 :: live := by
  unfold liveAfter
  rw [if_neg hb]
  simp only []
  rw [if_neg h0, if_neg h3, if_neg h2]

/-- A call of `terrain_setBlock` with coordinates inside the grid keeps the terrain
consistent, with the handles in use that `liveAfter` lists. -/
theorem TerrainOK.setBlock {t : Terrain} {live fl : List Nat} (ht : TerrainOK t live fl)
    (D : Bool) (f₁ f₂ : Block) (h₁ : f₁.ok) (h₂ : f₂.ok) (x y z v : Nat)
    (hx : x < t.width) (hy : y < t.height) (hz : z < t.width) (hv : v < 256) :
    ∃ fl', TerrainOK (terrain_setBlock D f₁ f₂ t x y z v) (liveAfter D f₁ t x y z v live) fl' := by
  have hc := ht.index_lt hx hy hz
  have hb := boundsCheck_false D t x y z hx hy hz
  have hi := getWithinChunkIdx_lt x y z
  rcases ht.entry _ hc with h0 | ⟨w, hw0, hw, hw'⟩ | ⟨a, ha, ha'⟩
  · have hne : ∀ b, b ∈ live →
        t.topLevelArray (getChunkIdx x y z t.width t.height) ≠ 2147483648 + b := by
      intro b _
      rw [h0]
      omega
    have htag : t.topLevelArray (getChunkIdx x y z t.width t.height) >>> 30 = 0 := by
      rw [h0]; rfl
    by_cases hv0 : v = 0
    · rw [terrain_setBlock_noop D f₁ f₂ t x y z v (Or.inl ⟨htag, hv0⟩),
        liveAfter_noop D f₁ t x y z v live (Or.inl ⟨htag, hv0⟩)]
      exact ⟨fl, ht⟩
    · have n0 : ¬ (t.topLevelArray (getChunkIdx x y z t.width t.height) >>> 30 = 0 ∧ v = 0) :=
        fun h => hv0 h.2
      have n3 : ¬ (t.topLevelArray (getChunkIdx x y z t.width t.height) >>> 30 = 3 ∧
          v = u32 (t.topLevelArray (getChunkIdx x y z t.width t.height) <<< 2) >>> 2) := by
        rw [htag]; exact fun h => absurd h.1 (by decide)
      have n2 : ¬ (t.topLevelArray (getChunkIdx x y z t.width t.height) >>> 30 = 2) := by
        rw [htag]; decide
      rw [terrain_setBlock_expand D f₁ f₂ t x y z v hb n0 n3 n2,
        liveAfter_expand D f₁ t x y z v live hb n0 n3 n2]
      exact ⟨fl.tail, ht.setBlockExpand hc hne f₁ f₂ h₁ h₂ _ _ v hi⟩
  · have hne : ∀ b, b ∈ live →
        t.topLevelArray (getChunkIdx x y z t.width t.height) ≠ 2147483648 + b := by
      intro b hb
      have := ht.handle_lt hb
      rw [hw']
      omega
    have htag : t.topLevelArray (getChunkIdx x y z t.width t.height) >>> 30 = 3 := by
      rw [hw']; exact tag_uniform w (by omega)
    have hpay : u32 (t.topLevelArray (getChunkIdx x y z t.width t.height) <<< 2) >>> 2 = w := by
      rw [hw']; exact payload_uniform w (by omega)
    by_cases hvw : v = w
    · rw [terrain_setBlock_noop D f₁ f₂ t x y z v (Or.inr ⟨htag, by rw [hpay]; exact hvw⟩),
        liveAfter_noop D f₁ t x y z v live (Or.inr ⟨htag, by rw [hpay]; exact hvw⟩)]
      exact ⟨fl, ht⟩
    · have n0 : ¬ (t.topLevelArray (getChunkIdx x y z t.width t.height) >>> 30 = 0 ∧ v = 0) := by
        rw [htag]; exact fun h => absurd h.1 (by decide)
      have n3 : ¬ (t.topLevelArray (getChunkIdx x y z t.width t.height) >>> 30 = 3 ∧
          v = u32 (t.topLevelArray (getChunkIdx x y z t.width t.height) <<< 2) >>> 2) := by
        rw [hpay]; exact fun h => hvw h.2
      have n2 : ¬ (t.topLevelArray (getChunkIdx x y z t.width t.height) >>> 30 = 2) := by
        rw [htag]; decide
      rw [terrain_setBlock_expand D f₁ f₂ t x y z v hb n0 n3 n2,
        liveAfter_expand D f₁ t x y z v live hb n0 n3 n2]
      exact ⟨fl.tail, ht.setBlockExpand hc hne f₁ f₂ h₁ h₂ _ _ v hi⟩
  · have halt := ht.handle_lt ha
    have htag : t.topLevelArray (getChunkIdx x y z t.width t.height) >>> 30 = 2 := by
      rw [ha']; exact tag_expanded a (by omega)
    have hpay : u32 (t.topLevelArray (getChunkIdx x y z t.width t.height) <<< 2) >>> 2 = a := by
      rw [ha']; exact payload_expanded a (by omega)
    rw [terrain_setBlock_expanded D f₁ f₂ t x y z v hb htag,
      liveAfter_expanded D f₁ t x y z v live hb htag, hpay]
    exact ⟨_, ht.setBlockExpanded hc ha ha' _ v hi hv⟩

theorem poolAllocatorCreate_ok (fresh : Block) (hf : fresh.ok) (us : Nat) (h8 : 8 ≤ us)
    (hcap : 65536 * us < 4294967296) :
    PoolOK (poolAllocatorCreate fresh 65536 us ⟨0, fun _ => 0⟩) [] [] := by
  unfold poolAllocatorCreate poolAllocatorFreeAll
  simp only [ne_eq, not_true_eq_false, if_false]
  exact
    { unit_ge := h8, mem_pos := hf.1, mem_hi := hf.2, max_pos := (by decide : 0 < 65536),
      unused_le := le_refl _, cap := hcap, size_eq := rfl, nodup := List.nodup_nil,
      carved := fun a => by
        show a ∈ [] ↔ a < 65536 - 65536
        simp,
      chain := rfl }

theorem emptyTerrain_chunkCount (m : InitBlocks) (w h : Nat)
    (hc : w / 8 * (w / 8) * (h / 8) < 4294967296) :
    (emptyTerrain m w h).chunkCount = w / 8 * (w / 8) * (h / 8) := by
  show u32 (u32 (w / 8 * (w / 8)) * (h / 8)) = w / 8 * (w / 8) * (h / 8)
  rcases Nat.eq_zero_or_pos (h / 8) with h0 | h0
  · rw [h0, Nat.mul_zero, Nat.mul_zero]
    rfl
  · have h1 : w / 8 * (w / 8) ≤ w / 8 * (w / 8) * (h / 8) := Nat.le_mul_of_pos_right _ h0
    have e1 : u32 (w / 8 * (w / 8)) = w / 8 * (w / 8) := Nat.mod_eq_of_lt (by omega)
    rw [e1]
    exact Nat.mod_eq_of_lt hc

theorem emptyTerrain_entry (m : InitBlocks) (w h c : Nat)
    (hc : c < (emptyTerrain m w h).chunkCount) : (emptyTerrain m w h).topLevelArray c = 0 := by
  have hlt : (emptyTerrain m w h).chunkCount < 4294967296 := Nat.mod_lt _ (by decide)
  show (if c < u64 ((emptyTerrain m w h).chunkCount * 4) / 4 then 0 else u32 (m.top.init c)) = 0
  have e : u64 ((emptyTerrain m w h).chunkCount * 4) / 4 = (emptyTerrain m w h).chunkCount := by
    unfold u64
    omega
  rw [e, if_pos hc]

theorem emptyTerrain_ok (m : InitBlocks) (w h : Nat) (hw : w % 64 = 0) (hh : h % 64 = 0)
    (hc : w / 8 * (w / 8) * (h / 8) ≤ 4194304) (h₁ : m.chunk.ok) (h₂ : m.bitmask.ok) :
    TerrainOK (emptyTerrain m w h) [] [] :=
  { width_mod := hw, height_mod := hh,
    count_eq := emptyTerrain_chunkCount m w h (by omega),
    count_le := by rw [emptyTerrain_chunkCount m w h (by omega)]; exact hc,
    chunk_ok := poolAllocatorCreate_ok m.chunk h₁ 512 (by decide) (by decide),
    mask_ok := poolAllocatorCreate_ok m.bitmask h₂ 64 (by decide) (by decide),
    chunk_unit := rfl, mask_unit := rfl, chunk_owns := rfl, mask_owns := rfl,
    same_max := rfl, same_unused := rfl,
    entry := fun c hc => Or.inl (emptyTerrain_entry m w h c hc),
    owner := fun a ha => absurd ha (List.not_mem_nil a),
    inj := fun _ _ a ha => absurd ha (List.not_mem_nil a) }

/-- Every state of a run on a terrain of at most `2^22` chunks is consistent. -/
theorem Run.ok {D : Bool} {t : Terrain} {live : List Nat} (hr : Run D t live)
    (hc : t.width / 8 * (t.width / 8) * (t.height / 8) ≤ 4194304) :
    ∃ fl, TerrainOK t live fl := by
  induction hr with
  | init m w h hw hh _ _ h₁ h₂ => exact ⟨[], emptyTerrain_ok m w h hw hh hc h₁ h₂⟩
  | step t live f₁ f₂ x y z v _ h₁ h₂ hx hy hz hv ih =>
    obtain ⟨e1, e2, _⟩ := terrain_setBlock_shape D f₁ f₂ t x y z v
    rw [e1, e2] at hc
    obtain ⟨fl, ht⟩ := ih hc
    exact ht.setBlock D f₁ f₂ h₁ h₂ x y z v hx hy hz hv

theorem TerrainOK.expandedCount {t : Terrain} {live fl : List Nat} (ht : TerrainOK t live fl) :
    expandedCount t = live.length := by
  have hnd : live.Nodup := (List.nodup_append.mp ht.chunk_ok.nodup).1
  unfold VoxelTerrain.expandedCount
  generalize hL : (List.range t.chunkCount).filter (fun c => t.topLevelArray c >>> 30 = 2) = L
  have hmem : ∀ c, c ∈ L ↔ c < t.chunkCount ∧ t.topLevelArray c >>> 30 = 2 := by
    intro c
    rw [← hL, List.mem_filter, List.mem_range, decide_eq_true_eq]
  have hLnd : L.Nodup := by
    rw [← hL]
    exact (List.nodup_range _).filter _
  have hform : ∀ c, c ∈ L → ∃ a, a ∈ live ∧ t.topLevelArray c = 2147483648 + a := by
    intro c hc
    obtain ⟨h1, h2⟩ := (hmem c).mp hc
    rcases ht.entry c h1 with h0 | ⟨w, _, hw, hw'⟩ | hx
    · rw [h0] at h2
      exact absurd h2 (by decide)
    · rw [hw', tag_uniform w (by omega)] at h2
      exact absurd h2 (by decide)
    · exact hx
  have hperm : (L.map (fun c => t.topLevelArray c % 1073741824)).Perm live := by
    rw [List.perm_ext_iff_of_nodup _ hnd]
    · intro a
      rw [List.mem_map]
      constructor
      · rintro ⟨c, hc, rfl⟩
        obtain ⟨b, hb, hb'⟩ := hform c hc
        have := ht.handle_lt hb
        rw [hb']
        have e : (2147483648 + b) % 1073741824 = b := by omega
        rw [e]
        exact hb
      · intro ha
        obtain ⟨c, hc, hc'⟩ := ht.owner a ha
        have := ht.handle_lt ha
        refine ⟨c, (hmem c).mpr ⟨hc, ?_⟩, ?_⟩
        · rw [hc']
          exact tag_expanded a (by omega)
        · rw [hc']
          omega
    · apply List.Nodup.map_on _ hLnd
      intro c hc c' hc' e
      obtain ⟨b, hb, hb'⟩ := hform c hc
      obtain ⟨b', hb2, hb2'⟩ := hform c' hc'
      have := ht.handle_lt hb
      have := ht.handle_lt hb2
      rw [hb', hb2'] at e
      have ebb : b = b' := by omega
      subst ebb
      exact ht.inj c c' b hb ((hmem c).mp hc).1 ((hmem c').mp hc').1 hb' hb2'
  have := hperm.length_eq
  rwa [List.length_map] at this

/-! ## Reading voxels back -/

/-- Reading a voxel of an expanded chunk returns the byte of its pool unit. -/
theorem terrain_getBlock_expanded {t : Terrain} {live fl : List Nat} (ht : TerrainOK t live fl)
    (D : Bool) {x y z a : Nat} (hx : x < t.width) (hy : y < t.height) (hz : z < t.width)
    (ha : a ∈ live)
    (he : t.topLevelArray (getChunkIdx x y z t.width t.height) = 2147483648 + a) :
    terrain_getBlock D t x y z = loadByte t.chunkPool.bytes (a * 512 + getWithinChunkIdx x y z) := by
  have hb := boundsCheck_false D t x y z hx hy hz
  have halt := ht.handle_lt ha
  have hmax : a < t.chunkPool.maxSize := ht.chunk_ok.lt_max (List.mem_append_left _ ha)
  have hoff := poolAllocatorGet_offset ht.chunk_ok hmax
  unfold terrain_getBlock
  rw [if_neg hb]
  simp only []
  rw [he, tag_expanded a (by omega), payload_expanded a (by omega), if_neg (by decide),
    if_neg (by decide), hoff, ht.chunk_unit]

theorem terrain_getBlock_uniform (D : Bool) (t : Terrain) {x y z w : Nat} (hx : x < t.width)
    (hy : y < t.height) (hz : z < t.width) (hw : w < 256)
    (he : t.topLevelArray (getChunkIdx x y z t.width t.height) = 3221225472 + w) :
    terrain_getBlock D t x y z = w := by
  have hb := boundsCheck_false D t x y z hx hy hz
  unfold terrain_getBlock
  rw [if_neg hb]
  simp only []
  rw [he, tag_uniform w (by omega), if_neg (by decide), if_pos rfl, u8_and_255]
  have e : (3221225472 + w) &&& 255 = (3221225472 + w) % 256 :=
    Nat.and_pow_two_sub_one_eq_mod _ 8
  rw [e]
  omega

/-- The bytes of the unit at `off` after the stores of the expand branch: the first 64
bytes hold the argument of the second `memset`, the target byte (if it is not among them)
holds the value, every other byte the previous content of the chunk. -/
theorem expandedBytes_inside (bytes : Bytes) (off cv i v j : Nat) (hj : j < 512) :
    loadByte (expandedBytes bytes off cv i v) (off + j) =
      if j < 64 then (if cv = 0 then 0 else 255)
      else if j = i then u8 v else u8 cv := by
  unfold expandedBytes loadByte
  by_cases h64 : j < 64
  · rw [if_pos h64, memset_inside _ _ _ _ _ (by omega) (by omega)]
    by_cases h0 : cv = 0
    · rw [if_pos h0]; rfl
    · rw [if_neg h0]; rfl
  · rw [if_neg h64, memset_outside _ _ _ _ _ (by omega)]
    by_cases hji : j = i
    · rw [if_pos hji, hji, storeByte_same]
      exact Nat.mod_mod _ _
    · rw [if_neg hji, storeByte_other _ _ _ _ (by omega),
        memset_inside _ _ _ _ _ (by omega) (by omega)]
      exact Nat.mod_mod _ _

/-- The state after the expand branch: the chunk's entry carries the new handle, and the
bytes of its unit are those of `expandedBytes_inside`. -/
theorem setBlockExpand_content {t : Terrain} {live fl : List Nat} (ht : TerrainOK t live fl)
    {c : Nat} (hc : c < t.chunkCount)
    (hne : ∀ a, a ∈ live → t.topLevelArray c ≠ 2147483648 + a)
    (f₁ f₂ : Block) (h₁ : f₁.ok) (cv i v : Nat) :
    (setBlockExpand f₁ f₂ t c cv i v).topLevelArray c =
      2147483648 + (poolAllocatorAlloc f₁ t.chunkPool).2 ∧
    (∀ c', c' ≠ c → (setBlockExpand f₁ f₂ t c cv i v).topLevelArray c' = t.topLevelArray c') ∧
    ∀ j, j < 512 →
      loadByte (setBlockExpand f₁ f₂ t c cv i v).chunkPool.bytes
        ((poolAllocatorAlloc f₁ t.chunkPool).2 * 512 + j) =
      if j < 64 then (if cv = 0 then 0 else 255)
      else if j = i then u8 v else u8 cv := by
  have hlen : live.length < t.chunkCount := by
    rcases ht.live_lt hne with h | h
    · exact h
    · omega
  have hcl := ht.count_le
  have hroom₁ : 2 * live.length * t.chunkPool.unitSize < 4294967296 := by
    rw [ht.chunk_unit]; omega
  obtain ⟨_, _, hok1, hus1, _, _, _, _⟩ := ht.chunk_ok.alloc f₁ h₁ ht.chunk_owns hroom₁
  rw [ht.chunk_unit] at hus1
  unfold setBlockExpand
  simp only []
  generalize poolAllocatorAlloc f₁ t.chunkPool = r₁ at *
  have hn : r₁.2 ∈ r₁.2 :: live := List.mem_cons_self _ _
  have hnmax : r₁.2 < r₁.1.maxSize := hok1.lt_max (List.mem_append_left _ hn)
  have hnlt : r₁.2 < 8388608 := by
    have := hok1.cap
    rw [hus1] at this
    omega
  have hoff := poolAllocatorGet_offset hok1 hnmax
  rw [hoff, hus1, entry_expanded r₁.2 (by omega)]
  refine ⟨Function.update_same _ _ _, fun c' hc' => Function.update_noteq hc' _ _, ?_⟩
  intro j hj
  exact expandedBytes_inside _ _ _ _ _ j hj

theorem loadByte_storeByte_same (m : Bytes) (off v : Nat) :
    loadByte (storeByte m off v) off = u8 v := by
  unfold loadByte
  rw [storeByte_same]
  exact Nat.mod_mod _ _

theorem loadByte_storeByte_other (m : Bytes) (off v i : Nat) (h : i ≠ off) :
    loadByte (storeByte m off v) i = loadByte m i := by
  unfold loadByte
  rw [storeByte_other _ _ _ _ h]

/-- The test of line 120 succeeds exactly when every other byte of the unit already holds
the value that was stored. -/
theorem nowUniform_iff {t : Terrain} {live fl : List Nat} (ht : TerrainOK t live fl)
    {a : Nat} (ha : a ∈ live) (i v : Nat) (hi : i < 512) :
    nowUniform t a i v = true ↔
      ∀ j, j < 512 → j ≠ i → loadByte t.chunkPool.bytes (a * 512 + j) = u8 v := by
  have hmax : a < t.chunkPool.maxSize := ht.chunk_ok.lt_max (List.mem_append_left _ ha)
  have hoff := poolAllocatorGet_offset ht.chunk_ok hmax
  unfold nowUniform
  rw [memcmpNext_iff, hoff, ht.chunk_unit, writtenPool_bytes ht ha]
  constructor
  · intro h j hj hji
    have h1 := h i (by omega)
    rw [loadByte_storeByte_same] at h1
    have h2 := h j (by omega)
    rw [loadByte_storeByte_other _ _ _ _ (by omega)] at h2
    rw [h2, ← h1]
  · intro h
    have key : ∀ k, k < 512 →
        loadByte (storeByte t.chunkPool.bytes (a * 512 + i) v) (a * 512 + k) = u8 v := by
      intro k hk
      by_cases hki : k = i
      · rw [hki, loadByte_storeByte_same]
      · rw [loadByte_storeByte_other _ _ _ _ (by omega)]
        exact h k hk hki
    intro k hk
    rw [key k (by omega)]
    have := key 0 (by omega)
    rw [Nat.add_zero] at this
    exact this.symm

theorem setBlockExpanded_keep {t : Terrain} {live fl : List Nat} (ht : TerrainOK t live fl)
    {a : Nat} (ha : a ∈ live) (c i v : Nat) (hu : ¬ (nowUniform t a i v = true)) :
    (setBlockExpanded t c a i v).topLevelArray = t.topLevelArray ∧
    (setBlockExpanded t c a i v).chunkPool.bytes =
      storeByte t.chunkPool.bytes (a * 512 + i) v ∧
    (setBlockExpanded t c a i v).chunkPool.size = t.chunkPool.size := by
  unfold setBlockExpanded
  rw [if_neg hu]
  exact ⟨rfl, writtenPool_bytes ht ha i v, rfl⟩

theorem setBlockExpanded_collapse {t : Terrain} {live fl : List Nat} (ht : TerrainOK t live fl)
    {a : Nat} (ha : a ∈ live) (c i v : Nat) (hi : i < 512) (hv : v < 256)
    (hu : nowUniform t a i v = true) :
    (setBlockExpanded t c a i v).topLevelArray =
      Function.update t.topLevelArray c (if v ≠ 0 then 3221225472 + v else 0) := by
  have huv := nowUniform_value ht ha i v hi hu
  rw [u8_small v hv] at huv
  unfold setBlockExpanded
  rw [if_pos hu]
  simp only []
  rw [huv]
  by_cases hv0 : v = 0
  · rw [if_neg (not_not.mpr hv0), if_neg (not_not.mpr hv0), hv0]
  · rw [if_pos hv0, if_pos hv0, entry_uniform v (by omega)]

/-! ## Reads and writes in an arbitrary state of the terrain -/

/-- When the test of line 120 succeeds, the first byte of the unit holds the value that
line 113 stored, whatever the state of the terrain. -/
theorem nowUniform_first (t : Terrain) (a i v : Nat) (hi : i < 512)
    (hu : nowUniform t a i v = true) :
    loadByte (writtenPool t a i v).bytes
      (ptrOffset t.chunkPool.memory (poolAllocatorGet t.chunkPool a)) = u8 v := by
  unfold nowUniform at hu
  rw [memcmpNext_iff] at hu
  have h1 := hu i (by omega)
  rw [← h1]
  unfold writtenPool
  exact loadByte_storeByte_same _ _ _

/-- The test of line 120 succeeds when the 511 other bytes of the unit hold the value. -/
theorem nowUniform_of_bytes (t : Terrain) (a i v : Nat)
    (h : ∀ j, j < 512 → j ≠ i → blockByte t a j = u8 v) : nowUniform t a i v = true := by
  unfold nowUniform
  rw [memcmpNext_iff]
  have key : ∀ k, k < 512 → loadByte (writtenPool t a i v).bytes
      (ptrOffset t.chunkPool.memory (poolAllocatorGet t.chunkPool a) + k) = u8 v := by
    intro k hk
    unfold writtenPool
    by_cases hki : k = i
    · rw [hki]
      exact loadByte_storeByte_same _ _ _
    · have := h k hk hki
      unfold blockByte at this
      simp only []
      rw [loadByte_storeByte_other _ _ _ _ (by omega)]
      exact this
  intro k hk
  rw [key k (by omega)]
  have := key 0 (by omega)
  rw [Nat.add_zero] at this
  exact this.symm

/-- The entry written by the collapse of lines 121 to 129, whatever the state of the
terrain. -/
theorem setBlockExpanded_entry (t : Terrain) (c a i v : Nat) (hi : i < 512) (hv : v < 256)
    (hu : nowUniform t a i v = true) :
    (setBlockExpanded t c a i v).topLevelArray =
      Function.update t.topLevelArray c (if v ≠ 0 then 3221225472 + v else 0) := by
  have huv := nowUniform_first t a i v hi hu
  rw [u8_small v hv] at huv
  unfold setBlockExpanded
  rw [if_pos hu]
  simp only []
  rw [huv]
  by_cases hv0 : v = 0
  · rw [if_neg (not_not.mpr hv0), if_neg (not_not.mpr hv0), hv0]
  · rw [if_pos hv0, if_pos hv0, entry_uniform v (by omega)]

theorem terrain_getBlock_tag0 (D : Bool) (t : Terrain) (x y z : Nat)
    (h : t.topLevelArray (getChunkIdx x y z t.width t.height) >>> 30 = 0) :
    terrain_getBlock D t x y z = 0 := by
  unfold terrain_getBlock
  by_cases hb : (D && outOfBounds t x y z) = true
  · rw [if_pos hb]
  · rw [if_neg hb]
    simp only []
    rw [if_pos h]

theorem terrain_getBlock_tag3 (D : Bool) (t : Terrain) (x y z : Nat)
    (hb : ¬ ((D && outOfBounds t x y z) = true))
    (h : t.topLevelArray (getChunkIdx x y z t.width t.height) >>> 30 = 3) :
    terrain_getBlock D t x y z = t.topLevelArray (getChunkIdx x y z t.width t.height) % 256 := by
  unfold terrain_getBlock
  rw [if_neg hb]
  simp only []
  rw [h, if_neg (by decide), if_pos rfl, u8_and_255]
  exact Nat.and_pow_two_sub_one_eq_mod _ 8

theorem terrain_getBlock_tag2 (D : Bool) (t : Terrain) (x y z : Nat)
    (hb : ¬ ((D && outOfBounds t x y z) = true))
    (h : t.topLevelArray (getChunkIdx x y z t.width t.height) >>> 30 = 2) :
    terrain_getBlock D t x y z =
      blockByte t (u32 (t.topLevelArray (getChunkIdx x y z t.width t.height) <<< 2) >>> 2)
        (getWithinChunkIdx x y z) := by
  unfold terrain_getBlock blockByte
  rw [if_neg hb]
  simp only []
  rw [h, if_neg (by decide), if_neg (by decide)]

theorem poolAllocatorAllocPtr_unitSize (fresh : Block) (p : PoolAllocator) :
    (poolAllocatorAllocPtr fresh p).1.unitSize = p.unitSize := by
  unfold poolAllocatorAllocPtr
  split
  · rfl
  · split
    · rfl
    · split <;> rfl

/-- The handle of a unit of 512 bytes that lies less than `2^39` bytes above the start of
the buffer fits the 30 payload bits of a top level entry. -/
theorem alloc_handle_fits (fresh : Block) (p : PoolAllocator) (hu : p.unitSize = 512)
    (hnear : ptrOffset (poolAllocatorAllocPtr fresh p).1.memory (poolAllocatorAllocPtr fresh p).2
      < 549755813888) :
    (poolAllocatorAlloc fresh p).2 < 1073741824 := by
  unfold poolAllocatorAlloc
  simp only []
  rw [poolAllocatorAllocPtr_unitSize, hu]
  split
  · decide
  · unfold u32
    have : ptrOffset (poolAllocatorAllocPtr fresh p).1.memory (poolAllocatorAllocPtr fresh p).2
        / 512 < 1073741824 := by omega
    omega

/-! ## Filling the chunk at the origin of a 64 x 64 terrain -/

theorem voxel_of_index (w h k : Nat) (hw : w = 64) (hh : h = 64) (hk : k < 512) :
    getChunkIdx (k / 64) (k % 8) (k / 8 % 8) w h = 0 ∧
    getWithinChunkIdx (k / 64) (k % 8) (k / 8 % 8) = k ∧
    k / 64 < w ∧ k % 8 < h ∧ k / 8 % 8 < w := by
  subst hw hh
  refine ⟨?_, ?_, by omega, by omega, by omega⟩
  · rw [getChunkIdx_eq _ _ _ 64 64 (by decide) (by decide) (by omega) (by omega) (by omega)
      (by decide)]
    unfold chunkIdxNat
    omega
  · rw [getWithinChunkIdx_eq]
    omega

/-- First call on the empty 64 x 64 terrain, at voxel number `i` of the chunk at the
origin: the chunk is expanded and its first 64 bytes are zero again. -/
theorem fill_first (D : Bool) (f₁ f₂ : Block) (h₁ : f₁.ok) (h₂ : f₂.ok) (m : InitBlocks)
    (hm₁ : m.chunk.ok) (hm₂ : m.bitmask.ok) (i v : Nat) (hi : i < 512) (hv0 : v ≠ 0)
    (hv : v < 256) :
    ∃ a fl,
      TerrainOK (terrain_setBlock D f₁ f₂ (emptyTerrain m 64 64) (i / 64) (i % 8) (i / 8 % 8) v)
        [a] fl ∧
      (terrain_setBlock D f₁ f₂ (emptyTerrain m 64 64) (i / 64) (i % 8) (i / 8 % 8) v).topLevelArray
        0 = 2147483648 + a ∧
      ∀ j, j < 512 →
        loadByte (terrain_setBlock D f₁ f₂ (emptyTerrain m 64 64) (i / 64) (i % 8)
          (i / 8 % 8) v).chunkPool.bytes (a * 512 + j) =
        if j < 64 then 0 else if j = i then v else 0 := by
  have ht := emptyTerrain_ok m 64 64 (by decide) (by decide) (by decide) hm₁ hm₂
  obtain ⟨e1, e2, hx, hy, hz⟩ := voxel_of_index (emptyTerrain m 64 64).width
    (emptyTerrain m 64 64).height i rfl rfl hi
  have hb := boundsCheck_false D _ _ _ _ hx hy hz
  have hc : (0 : Nat) < (emptyTerrain m 64 64).chunkCount := by
    rw [emptyTerrain_chunkCount m 64 64 (by decide)]
    decide
  have h0 : (emptyTerrain m 64 64).topLevelArray 0 = 0 := emptyTerrain_entry m 64 64 0 hc
  have hne : ∀ a, a ∈ ([] : List Nat) → (emptyTerrain m 64 64).topLevelArray 0 ≠ 2147483648 + a :=
    fun a ha => absurd ha (List.not_mem_nil a)
  have hset := terrain_setBlock_expand D f₁ f₂ (emptyTerrain m 64 64) (i / 64) (i % 8)
    (i / 8 % 8) v hb (by rw [e1, h0]; exact fun h => hv0 h.2)
    (by rw [e1, h0]; exact fun h => absurd h.1 (by decide))
    (by rw [e1, h0]; decide)
  rw [e1, e2, h0] at hset
  rw [hset]
  have hok := ht.setBlockExpand hc hne f₁ f₂ h₁ h₂ (u32 (0 <<< 2) >>> 2) i v hi
  obtain ⟨c1, _, c3⟩ := setBlockExpand_content ht hc hne f₁ f₂ h₁ (u32 (0 <<< 2) >>> 2) i v
  refine ⟨_, _, hok, c1, ?_⟩
  intro j hj
  rw [c3 j hj, u8_small v hv]
  have e0 : u32 (0 <<< 2) >>> 2 = 0 := by decide
  rw [e0, if_pos rfl]
  rfl

/-- A later call on the expanded chunk at the origin that cannot make it uniform: one byte
is stored, everything else stays. -/
theorem fill_write (D : Bool) (f₁ f₂ : Block) (t : Terrain) (a : Nat) (fl : List Nat)
    (ht : TerrainOK t [a] fl) (hw : t.width = 64) (hh : t.height = 64)
    (he : t.topLevelArray 0 = 2147483648 + a) (i v j₀ : Nat) (hi : i < 512) (hv : v < 256)
    (hj₀ : j₀ < 512) (hne : j₀ ≠ i) (hdiff : loadByte t.chunkPool.bytes (a * 512 + j₀) ≠ v) :
    TerrainOK (terrain_setBlock D f₁ f₂ t (i / 64) (i % 8) (i / 8 % 8) v) [a] fl ∧
    (terrain_setBlock D f₁ f₂ t (i / 64) (i % 8) (i / 8 % 8) v).width = 64 ∧
    (terrain_setBlock D f₁ f₂ t (i / 64) (i % 8) (i / 8 % 8) v).height = 64 ∧
    (terrain_setBlock D f₁ f₂ t (i / 64) (i % 8) (i / 8 % 8) v).topLevelArray 0 =
      2147483648 + a ∧
    (terrain_setBlock D f₁ f₂ t (i / 64) (i % 8) (i / 8 % 8) v).chunkPool.bytes =
      storeByte t.chunkPool.bytes (a * 512 + i) v := by
  obtain ⟨e1, e2, hx, hy, hz⟩ := voxel_of_index t.width t.height i hw hh hi
  have hb := boundsCheck_false D _ _ _ _ hx hy hz
  have ha : a ∈ [a] := List.mem_singleton_self a
  have halt := ht.handle_lt ha
  have hc : (0 : Nat) < t.chunkCount := by
    rw [ht.count_eq, hw, hh]
    decide
  have hset := terrain_setBlock_expanded D f₁ f₂ t (i / 64) (i % 8) (i / 8 % 8) v hb
    (by rw [e1, he]; exact tag_expanded a (by omega))
  rw [e1, e2, he, payload_expanded a (by omega)] at hset
  have hnu : ¬ (nowUniform t a i v = true) := by
    intro hu
    have := (nowUniform_iff ht ha i v hi).mp hu j₀ hj₀ hne
    rw [u8_small v hv] at this
    exact hdiff this
  have hok := ht.setBlockExpanded hc ha he i v hi hv
  rw [if_neg hnu, if_neg hnu] at hok
  obtain ⟨k1, k2, _⟩ := setBlockExpanded_keep ht ha 0 i v hnu
  obtain ⟨s1, s2, _⟩ := setBlockExpanded_shape t 0 a i v
  rw [hset]
  exact ⟨hok, s1.trans hw, s2.trans hh, by rw [k1]; exact he, k2⟩

/-- A call on the expanded chunk at the origin after which the unit holds one value: the
chunk collapses to a uniform entry. -/
theorem fill_collapse (D : Bool) (f₁ f₂ : Block) (t : Terrain) (a : Nat) (fl : List Nat)
    (ht : TerrainOK t [a] fl) (hw : t.width = 64) (hh : t.height = 64)
    (he : t.topLevelArray 0 = 2147483648 + a) (i v : Nat) (hi : i < 512) (hv0 : v ≠ 0)
    (hv : v < 256)
    (hall : ∀ j, j < 512 → j ≠ i → loadByte t.chunkPool.bytes (a * 512 + j) = v) :
    TerrainOK (terrain_setBlock D f₁ f₂ t (i / 64) (i % 8) (i / 8 % 8) v) [] (a :: fl) ∧
    (terrain_setBlock D f₁ f₂ t (i / 64) (i % 8) (i / 8 % 8) v).width = 64 ∧
    (terrain_setBlock D f₁ f₂ t (i / 64) (i % 8) (i / 8 % 8) v).height = 64 ∧
    (terrain_setBlock D f₁ f₂ t (i / 64) (i % 8) (i / 8 % 8) v).topLevelArray 0 =
      3221225472 + v := by
  obtain ⟨e1, e2, hx, hy, hz⟩ := voxel_of_index t.width t.height i hw hh hi
  have hb := boundsCheck_false D _ _ _ _ hx hy hz
  have ha : a ∈ [a] := List.mem_singleton_self a
  have halt := ht.handle_lt ha
  have hc : (0 : Nat) < t.chunkCount := by
    rw [ht.count_eq, hw, hh]
    decide
  have hset := terrain_setBlock_expanded D f₁ f₂ t (i / 64) (i % 8) (i / 8 % 8) v hb
    (by rw [e1, he]; exact tag_expanded a (by omega))
  rw [e1, e2, he, payload_expanded a (by omega)] at hset
  have hu : nowUniform t a i v = true := by
    rw [nowUniform_iff ht ha i v hi]
    intro j hj hji
    rw [u8_small v hv]
    exact hall j hj hji
  have hok := ht.setBlockExpanded hc ha he i v hi hv
  rw [if_pos hu, if_pos hu] at hok
  have hE := setBlockExpanded_collapse ht ha 0 i v hi hv hu
  obtain ⟨s1, s2, _⟩ := setBlockExpanded_shape t 0 a i v
  rw [hset]
  refine ⟨?_, s1.trans hw, s2.trans hh, ?_⟩
  · have e : [a].erase a = [] := List.erase_cons_head a []
    rw [e] at hok
    exact hok
  · rw [hE, Function.update_same, if_pos hv0]

/-- Filling the chunk at the origin in ascending order never repairs the byte of the
origin: after `k + 1` calls (`k + 1 ≤ 512`) the chunk is expanded and that byte is `0`. -/
theorem fillAscending_stuck (D : Bool) (f₁ f₂ : Block) (h₁ : f₁.ok) (h₂ : f₂.ok)
    (m : InitBlocks) (hm₁ : m.chunk.ok) (hm₂ : m.bitmask.ok) (v : Nat) (hv0 : v ≠ 0)
    (hv : v < 256) (k : Nat) (hk : k + 1 ≤ 512) :
    ∃ a fl,
      TerrainOK (fillAscending D f₁ f₂ (emptyTerrain m 64 64) v (k + 1)) [a] fl ∧
      (fillAscending D f₁ f₂ (emptyTerrain m 64 64) v (k + 1)).width = 64 ∧
      (fillAscending D f₁ f₂ (emptyTerrain m 64 64) v (k + 1)).height = 64 ∧
      (fillAscending D f₁ f₂ (emptyTerrain m 64 64) v (k + 1)).topLevelArray 0 =
        2147483648 + a ∧
      loadByte (fillAscending D f₁ f₂ (emptyTerrain m 64 64) v (k + 1)).chunkPool.bytes
        (a * 512 + 0) = 0 := by
  induction k with
  | zero =>
    obtain ⟨a, fl, hok, he, hbytes⟩ := fill_first D f₁ f₂ h₁ h₂ m hm₁ hm₂ 0 v (by decide) hv0 hv
    obtain ⟨s1, s2, _⟩ := terrain_setBlock_shape D f₁ f₂ (emptyTerrain m 64 64) (0 / 64) (0 % 8)
      (0 / 8 % 8) v
    refine ⟨a, fl, hok, s1, s2, he, ?_⟩
    have := hbytes 0 (by decide)
    rw [if_pos (by decide)] at this
    exact this
  | succ k ih =>
    obtain ⟨a, fl, hok, hw, hh, he, h0⟩ := ih (by omega)
    have hstep := fill_write D f₁ f₂ _ a fl hok hw hh he (k + 1) v 0 (by omega) hv (by decide)
      (by omega) (by rw [h0]; exact fun e => hv0 e.symm)
    obtain ⟨hok', hw', hh', he', hb'⟩ := hstep
    refine ⟨a, fl, hok', hw', hh', he', ?_⟩
    show loadByte (terrain_setBlock D f₁ f₂ _ ((k + 1) / 64) ((k + 1) % 8) ((k + 1) / 8 % 8)
      v).chunkPool.bytes (a * 512 + 0) = 0
    rw [hb', loadByte_storeByte_other _ _ _ _ (by omega)]
    exact h0

/-- Filling the chunk at the origin in descending order: after `k + 1` calls
(`k + 1 ≤ 511`) the chunk is expanded and exactly the last `k + 1` bytes hold the value. -/
theorem fillDescending_partial (D : Bool) (f₁ f₂ : Block) (h₁ : f₁.ok) (h₂ : f₂.ok)
    (m : InitBlocks) (hm₁ : m.chunk.ok) (hm₂ : m.bitmask.ok) (v : Nat) (hv0 : v ≠ 0)
    (hv : v < 256) (k : Nat) (hk : k + 1 ≤ 511) :
    ∃ a fl,
      TerrainOK (fillDescending D f₁ f₂ (emptyTerrain m 64 64) v (k + 1)) [a] fl ∧
      (fillDescending D f₁ f₂ (emptyTerrain m 64 64) v (k + 1)).width = 64 ∧
      (fillDescending D f₁ f₂ (emptyTerrain m 64 64) v (k + 1)).height = 64 ∧
      (fillDescending D f₁ f₂ (emptyTerrain m 64 64) v (k + 1)).topLevelArray 0 =
        2147483648 + a ∧
      ∀ j, j < 512 →
        loadByte (fillDescending D f₁ f₂ (emptyTerrain m 64 64) v (k + 1)).chunkPool.bytes
          (a * 512 + j) = if 511 - k ≤ j then v else 0 := by
  induction k with
  | zero =>
    obtain ⟨a, fl, hok, he, hbytes⟩ :=
      fill_first D f₁ f₂ h₁ h₂ m hm₁ hm₂ (511 - 0) v (by decide) hv0 hv
    obtain ⟨s1, s2, _⟩ := terrain_setBlock_shape D f₁ f₂ (emptyTerrain m 64 64)
      ((511 - 0) / 64) ((511 - 0) % 8) ((511 - 0) / 8 % 8) v
    refine ⟨a, fl, hok, s1, s2, he, ?_⟩
    intro j hj
    show loadByte (terrain_setBlock D f₁ f₂ (emptyTerrain m 64 64) ((511 - 0) / 64)
      ((511 - 0) % 8) ((511 - 0) / 8 % 8) v).chunkPool.bytes (a * 512 + j) = _
    rw [hbytes j hj]
    by_cases h64 : j < 64
    · rw [if_pos h64, if_neg (by omega)]
    · rw [if_neg h64]
      by_cases hj1 : j = 511 - 0
      · rw [if_pos hj1, if_pos (by omega)]
      · rw [if_neg hj1, if_neg (by omega)]
  | succ k ih =>
    obtain ⟨a, fl, hok, hw, hh, he, hbytes⟩ := ih (by omega)
    have h0 := hbytes 0 (by decide)
    rw [if_neg (by omega)] at h0
    have hstep := fill_write D f₁ f₂ _ a fl hok hw hh he (511 - (k + 1)) v 0 (by omega) hv
      (by decide) (by omega) (by rw [h0]; exact fun e => hv0 e.symm)
    obtain ⟨hok', hw', hh', he', hb'⟩ := hstep
    refine ⟨a, fl, hok', hw', hh', he', ?_⟩
    intro j hj
    show loadByte (terrain_setBlock D f₁ f₂ _ ((511 - (k + 1)) / 64) ((511 - (k + 1)) % 8)
      ((511 - (k + 1)) / 8 % 8) v).chunkPool.bytes (a * 512 + j) = _
    rw [hb']
    by_cases hj1 : j = 511 - (k + 1)
    · rw [hj1, loadByte_storeByte_same, u8_small v hv, if_pos (le_refl _)]
    · rw [loadByte_storeByte_other _ _ _ _ (by omega), hbytes j hj]
      by_cases hle : 511 - k ≤ j
      · rw [if_pos hle, if_pos (by omega)]
      · rw [if_neg hle, if_neg (by omega)]

/-- Filling the chunk at the origin in descending order collapses it with the last call. -/
theorem fillDescending_uniform (D : Bool) (f₁ f₂ : Block) (h₁ : f₁.ok) (h₂ : f₂.ok)
    (m : InitBlocks) (hm₁ : m.chunk.ok) (hm₂ : m.bitmask.ok) (v : Nat) (hv0 : v ≠ 0)
    (hv : v < 256) :
    ∃ fl,
      TerrainOK (fillDescending D f₁ f₂ (emptyTerrain m 64 64) v 512) [] fl ∧
      (fillDescending D f₁ f₂ (emptyTerrain m 64 64) v 512).width = 64 ∧
      (fillDescending D f₁ f₂ (emptyTerrain m 64 64) v 512).height = 64 ∧
      (fillDescending D f₁ f₂ (emptyTerrain m 64 64) v 512).topLevelArray 0 =
        3221225472 + v := by
  obtain ⟨a, fl, hok, hw, hh, he, hbytes⟩ :=
    fillDescending_partial D f₁ f₂ h₁ h₂ m hm₁ hm₂ v hv0 hv 510 (by decide)
  have hstep := fill_collapse D f₁ f₂ _ a fl hok hw hh he (511 - 511) v (by decide) hv0 hv
    (by
      intro j hj hj0
      rw [hbytes j hj, if_pos (by omega)])
  exact ⟨a :: fl, hstep⟩

/-- Reading the chunk that a call of `terrain_setBlock` has just expanded: the first 64
bytes of the unit hold the argument of the second `memset` (`0` for a chunk that was empty,
`255` otherwise), the target voxel (if it is not among them) holds the value, every other
voxel the previous content of the chunk. -/
theorem terrain_getBlock_after_expand {t : Terrain} {live fl : List Nat}
    (ht : TerrainOK t live fl) (D : Bool) (f₁ f₂ : Block) (h₁ : f₁.ok) (h₂ : f₂.ok)
    {x y z x' y' z' v : Nat} (hx : x < t.width) (hy : y < t.height) (hz : z < t.width)
    (hx' : x' < t.width) (hy' : y' < t.height) (hz' : z' < t.width) (hv : v < 256)
    (hsame : getChunkIdx x' y' z' t.width t.height = getChunkIdx x y z t.width t.height)
    (hne : ∀ a, a ∈ live →
      t.topLevelArray (getChunkIdx x y z t.width t.height) ≠ 2147483648 + a)
    (hnoop : ¬ NoopCase t x y z v) :
    terrain_getBlock D (terrain_setBlock D f₁ f₂ t x y z v) x' y' z' =
      if getWithinChunkIdx x' y' z' < 64 then
        (if t.topLevelArray (getChunkIdx x y z t.width t.height) % 1073741824 = 0 then 0
          else 255)
      else if getWithinChunkIdx x' y' z' = getWithinChunkIdx x y z then v
      else u8 (t.topLevelArray (getChunkIdx x y z t.width t.height) % 1073741824) := by
  have hc := ht.index_lt hx hy hz
  have hb := boundsCheck_false D t x y z hx hy hz
  have hi := getWithinChunkIdx_lt x y z
  have hi' := getWithinChunkIdx_lt x' y' z'
  unfold NoopCase at hnoop
  simp only [← payload_eq_mod] at hnoop ⊢
  rw [not_or] at hnoop
  have n2 : ¬ (t.topLevelArray (getChunkIdx x y z t.width t.height) >>> 30 = 2) := by
    intro h2
    rcases ht.entry _ hc with h0 | ⟨w, _, hw, hw'⟩ | ⟨a, ha, ha'⟩
    · rw [h0] at h2
      exact absurd h2 (by decide)
    · rw [hw', tag_uniform w (by omega)] at h2
      exact absurd h2 (by decide)
    · exact hne a ha ha'
  rw [terrain_setBlock_expand D f₁ f₂ t x y z v hb hnoop.1 hnoop.2 n2]
  have hok := ht.setBlockExpand hc hne f₁ f₂ h₁ h₂
    (u32 (t.topLevelArray (getChunkIdx x y z t.width t.height) <<< 2) >>> 2)
    (getWithinChunkIdx x y z) v hi
  obtain ⟨c1, _, c3⟩ := setBlockExpand_content ht hc hne f₁ f₂ h₁
    (u32 (t.topLevelArray (getChunkIdx x y z t.width t.height) <<< 2) >>> 2)
    (getWithinChunkIdx x y z) v
  have hread := terrain_getBlock_expanded hok D (x := x') (y := y') (z := z')
    (a := (poolAllocatorAlloc f₁ t.chunkPool).2) hx' hy' hz' (List.mem_cons_self _ _)
    (by
      show (setBlockExpand f₁ f₂ t _ _ _ v).topLevelArray (getChunkIdx x' y' z' t.width t.height) = _
      rw [hsame]
      exact c1)
  rw [hread, c3 _ hi', u8_small v hv]

theorem fillAscending_shape (D : Bool) (f₁ f₂ : Block) (t : Terrain) (v k : Nat) :
    (fillAscending D f₁ f₂ t v k).width = t.width ∧
    (fillAscending D f₁ f₂ t v k).height = t.height := by
  induction k with
  | zero => exact ⟨rfl, rfl⟩
  | succ k ih =>
    obtain ⟨s1, s2, _⟩ := terrain_setBlock_shape D f₁ f₂ (fillAscending D f₁ f₂ t v k) (k / 64)
      (k % 8) (k / 8 % 8) v
    exact ⟨s1.trans ih.1, s2.trans ih.2⟩

theorem fillDescending_shape (D : Bool) (f₁ f₂ : Block) (t : Terrain) (v k : Nat) :
    (fillDescending D f₁ f₂ t v k).width = t.width ∧
    (fillDescending D f₁ f₂ t v k).height = t.height := by
  induction k with
  | zero => exact ⟨rfl, rfl⟩
  | succ k ih =>
    obtain ⟨s1, s2, _⟩ := terrain_setBlock_shape D f₁ f₂ (fillDescending D f₁ f₂ t v k)
      ((511 - k) / 64) ((511 - k) % 8) ((511 - k) / 8 % 8) v
    exact ⟨s1.trans ih.1, s2.trans ih.2⟩

/-- The states of `fillAscending` on a 64 x 64 terrain are reached by calls inside the
grid. -/
theorem fillAscending_reachable (D : Bool) (f₁ f₂ : Block) (h₁ : f₁.ok) (h₂ : f₂.ok)
    (m : InitBlocks) (hm₁ : m.chunk.ok) (hm₂ : m.bitmask.ok) (v : Nat) (hv : v < 256)
    (k : Nat) (hk : k ≤ 512) :
    Reachable D (fillAscending D f₁ f₂ (emptyTerrain m 64 64) v k) := by
  induction k with
  | zero =>
    exact ⟨[], Run.init m 64 64 (by decide) (by decide) (by decide) (by decide) hm₁ hm₂⟩
  | succ k ih =>
    obtain ⟨live, hr⟩ := ih (by omega)
    obtain ⟨s1, s2⟩ := fillAscending_shape D f₁ f₂ (emptyTerrain m 64 64) v k
    have hw : (fillAscending D f₁ f₂ (emptyTerrain m 64 64) v k).width = 64 := s1
    have hh : (fillAscending D f₁ f₂ (emptyTerrain m 64 64) v k).height = 64 := s2
    exact ⟨_, Run.step _ live f₁ f₂ (k / 64) (k % 8) (k / 8 % 8) v hr h₁ h₂
      (by rw [hw]; omega) (by rw [hh]; omega) (by rw [hw]; omega) hv⟩

/-- The states of `fillDescending` on a 64 x 64 terrain are reached by calls inside the
grid. -/
theorem fillDescending_reachable (D : Bool) (f₁ f₂ : Block) (h₁ : f₁.ok) (h₂ : f₂.ok)
    (m : InitBlocks) (hm₁ : m.chunk.ok) (hm₂ : m.bitmask.ok) (v : Nat) (hv : v < 256)
    (k : Nat) (hk : k ≤ 512) :
    Reachable D (fillDescending D f₁ f₂ (emptyTerrain m 64 64) v k) := by
  induction k with
  | zero =>
    exact ⟨[], Run.init m 64 64 (by decide) (by decide) (by decide) (by decide) hm₁ hm₂⟩
  | succ k ih =>
    obtain ⟨live, hr⟩ := ih (by omega)
    obtain ⟨s1, s2⟩ := fillDescending_shape D f₁ f₂ (emptyTerrain m 64 64) v k
    have hw : (fillDescending D f₁ f₂ (emptyTerrain m 64 64) v k).width = 64 := s1
    have hh : (fillDescending D f₁ f₂ (emptyTerrain m 64 64) v k).height = 64 := s2
    exact ⟨_, Run.step _ live f₁ f₂ ((511 - k) / 64) ((511 - k) % 8) ((511 - k) / 8 % 8) v hr
      h₁ h₂ (by rw [hw]; omega) (by rw [hh]; omega) (by rw [hw]; omega) hv⟩

theorem origin_chunk (x y z : Nat) (hx : x < 8) (hy : y < 8) (hz : z < 8) :
    getChunkIdx x y z 64 64 = 0 ∧ getWithinChunkIdx x y z = x * 64 + z * 8 + y := by
  constructor
  · rw [getChunkIdx_eq _ _ _ 64 64 (by decide) (by decide) (by omega) (by omega) (by omega)
      (by decide)]
    unfold chunkIdxNat
    omega
  · rw [getWithinChunkIdx_eq]
    omega

/-! ## Properties C1 to C10 of the specification -/

/-- C1, evaluated at the failing input.  On the empty 64 x 64 terrain,
`terrain_setBlock(0, 0, 0, 5)` is followed by `terrain_getBlock(0, 0, 0) = 0`, where the
round trip asks for 5, and by `terrain_getBlock(1, 0, 0) = 0`. -/
theorem roundtrip_lost_at_origin :
    terrain_getBlock false (terrain_setBlock false (sampleBlock 4294967296)
      (sampleBlock 8589934592) (emptyTerrain sampleBlocks 64 64) 0 0 0 5) 0 0 0 = 0 ∧
    terrain_getBlock false (terrain_setBlock false (sampleBlock 4294967296)
      (sampleBlock 8589934592) (emptyTerrain sampleBlocks 64 64) 0 0 0 5) 1 0 0 = 0 := by
  decide

set_option maxRecDepth 4000 in
/-- C4, evaluated at the failing input.  On the empty 64 x 64 terrain, after one
`terrain_setBlock(0, 0, 0, 5)` the voxel reads `0`, after a second identical call it reads
`5`: the second call changes a block byte of the chunk's unit, and the state after two
calls is not the state after one. -/
theorem setBlock_twice_differs :
    terrain_getBlock false (terrain_setBlock false (sampleBlock 4294967296)
      (sampleBlock 8589934592) (emptyTerrain sampleBlocks 64 64) 0 0 0 5) 0 0 0 = 0 ∧
    terrain_getBlock false (terrain_setBlock false (sampleBlock 4294967296)
      (sampleBlock 8589934592) (terrain_setBlock false (sampleBlock 4294967296)
      (sampleBlock 8589934592) (emptyTerrain sampleBlocks 64 64) 0 0 0 5) 0 0 0 5) 0 0 0 = 5 ∧
    terrain_setBlock false (sampleBlock 4294967296)
      (sampleBlock 8589934592) (terrain_setBlock false (sampleBlock 4294967296)
      (sampleBlock 8589934592) (emptyTerrain sampleBlocks 64 64) 0 0 0 5) 0 0 0 5 ≠
    terrain_setBlock false (sampleBlock 4294967296)
      (sampleBlock 8589934592) (emptyTerrain sampleBlocks 64 64) 0 0 0 5 := by
  have h1 : terrain_getBlock false (terrain_setBlock false (sampleBlock 4294967296)
      (sampleBlock 8589934592) (emptyTerrain sampleBlocks 64 64) 0 0 0 5) 0 0 0 = 0 := by
    decide
  have h2 : terrain_getBlock false (terrain_setBlock false (sampleBlock 4294967296)
      (sampleBlock 8589934592) (terrain_setBlock false (sampleBlock 4294967296)
      (sampleBlock 8589934592) (emptyTerrain sampleBlocks 64 64) 0 0 0 5) 0 0 0 5) 0 0 0 = 5 := by
    decide
  refine ⟨h1, h2, fun h => ?_⟩
  rw [h, h1] at h2
  exact absurd h2 (by decide)

theorem sampleBlock_ok_low : (sampleBlock 4294967296).ok := ⟨by decide, by decide⟩

theorem sampleBlock_ok_high : (sampleBlock 8589934592).ok := ⟨by decide, by decide⟩

theorem sampleBlocks_ok : sampleBlocks.chunk.ok ∧ sampleBlocks.bitmask.ok :=
  ⟨⟨by decide, by decide⟩, ⟨by decide, by decide⟩⟩

/-- C3, evaluated at the failing input.  On the empty 64 x 64 terrain, after
`terrain_setBlock` was called with value 7 once on each of the 512 voxels of the chunk at
the origin in the order `x`, `z`, `y` ascending, the chunk's entry still has tag `10`,
`terrain_getBlock(0, 0, 0)` returns `0`, and the chunk still holds its unit in both
pools. -/
theorem fill_ascending_stays_expanded :
    Reachable false (fillAscending false (sampleBlock 4294967296) (sampleBlock 8589934592)
      (emptyTerrain sampleBlocks 64 64) 7 512) ∧
    (fillAscending false (sampleBlock 4294967296) (sampleBlock 8589934592)
      (emptyTerrain sampleBlocks 64 64) 7 512).topLevelArray 0 >>> 30 = 2 ∧
    terrain_getBlock false (fillAscending false (sampleBlock 4294967296)
      (sampleBlock 8589934592) (emptyTerrain sampleBlocks 64 64) 7 512) 0 0 0 = 0 ∧
    (fillAscending false (sampleBlock 4294967296) (sampleBlock 8589934592)
      (emptyTerrain sampleBlocks 64 64) 7 512).chunkPool.size = 1 ∧
    (fillAscending false (sampleBlock 4294967296) (sampleBlock 8589934592)
      (emptyTerrain sampleBlocks 64 64) 7 512).chunkBitmaskPool.size = 1 := by
  obtain ⟨a, fl, hok, hw, hh, he, h0⟩ := fillAscending_stuck false (sampleBlock 4294967296)
    (sampleBlock 8589934592) sampleBlock_ok_low sampleBlock_ok_high sampleBlocks
    sampleBlocks_ok.1 sampleBlocks_ok.2 7 (by decide) (by decide) 511 (by decide)
  simp only [Nat.reduceAdd] at hok hw hh he h0
  have ha : a ∈ [a] := List.mem_singleton_self a
  have halt := hok.handle_lt ha
  refine ⟨?_, ?_, ?_, ?_, ?_⟩
  · exact fillAscending_reachable false _ _ sampleBlock_ok_low sampleBlock_ok_high sampleBlocks
      sampleBlocks_ok.1 sampleBlocks_ok.2 7 (by decide) 512 (le_refl _)
  · rw [he]
    exact tag_expanded a (by omega)
  · have hr := terrain_getBlock_expanded hok false (x := 0) (y := 0) (z := 0) (a := a)
      (by rw [hw]; decide) (by rw [hh]; decide) (by rw [hw]; decide) ha
      (by rw [hw, hh, (origin_chunk 0 0 0 (by decide) (by decide) (by decide)).1]; exact he)
    rw [hr, (origin_chunk 0 0 0 (by decide) (by decide) (by decide)).2]
    exact h0
  · exact hok.chunk_ok.size_eq
  · exact hok.mask_ok.size_eq

/-- C2, evaluated at the failing input.  The 64 x 64 terrain whose chunk at the origin was
filled with 7 (in descending order, which collapses it) has that chunk uniform with value
7; after `terrain_setBlock(1, 0, 0, 5)` the voxel `(0, 1, 0)` of the chunk reads back
`255`, not 7. -/
theorem expand_of_uniform_overwrites :
    Reachable false (fillDescending false (sampleBlock 4294967296) (sampleBlock 8589934592)
      (emptyTerrain sampleBlocks 64 64) 7 512) ∧
    (fillDescending false (sampleBlock 4294967296) (sampleBlock 8589934592)
      (emptyTerrain sampleBlocks 64 64) 7 512).topLevelArray
        (getChunkIdx 1 0 0 64 64) = 3221225472 + 7 ∧
    terrain_getBlock false (fillDescending false (sampleBlock 4294967296)
      (sampleBlock 8589934592) (emptyTerrain sampleBlocks 64 64) 7 512) 0 1 0 = 7 ∧
    terrain_getBlock false (terrain_setBlock false (sampleBlock 4294967296)
      (sampleBlock 8589934592) (fillDescending false (sampleBlock 4294967296)
      (sampleBlock 8589934592) (emptyTerrain sampleBlocks 64 64) 7 512) 1 0 0 5) 0 1 0 = 255 := by
  obtain ⟨fl, hok, hw, hh, he⟩ := fillDescending_uniform false (sampleBlock 4294967296)
    (sampleBlock 8589934592) sampleBlock_ok_low sampleBlock_ok_high sampleBlocks
    sampleBlocks_ok.1 sampleBlocks_ok.2 7 (by decide) (by decide)
  have o1 := origin_chunk 1 0 0 (by decide) (by decide) (by decide)
  have o2 := origin_chunk 0 1 0 (by decide) (by decide) (by decide)
  refine ⟨?_, ?_, ?_, ?_⟩
  · exact fillDescending_reachable false _ _ sampleBlock_ok_low sampleBlock_ok_high sampleBlocks
      sampleBlocks_ok.1 sampleBlocks_ok.2 7 (by decide) 512 (le_refl _)
  · rw [o1.1]
    exact he
  · exact terrain_getBlock_uniform false _ (by rw [hw]; decide) (by rw [hh]; decide)
      (by rw [hw]; decide) (by decide) (by rw [hw, hh, o2.1]; exact he)
  · have hr := @terrain_getBlock_after_expand _ _ _ hok false (sampleBlock 4294967296)
      (sampleBlock 8589934592) sampleBlock_ok_low sampleBlock_ok_high 1 0 0 0 1 0 5
      (by rw [hw]; decide) (by rw [hh]; decide) (by rw [hw]; decide)
      (by rw [hw]; decide) (by rw [hh]; decide) (by rw [hw]; decide) (by decide)
      (by rw [hw, hh, o1.1, o2.1])
      (fun a ha => absurd ha (List.not_mem_nil a))
      (by
        unfold NoopCase
        rw [hw, hh, o1.1, he]
        decide)
    rw [hr, hw, hh, o1.1, o2.2, he]
    decide

theorem sampleBlock_ok_small : (sampleBlock 1048576).ok := ⟨by decide, by decide⟩

theorem sampleBlock_ok (a : Nat) (h0 : 0 < a) (h1 : a + 4294967296 ≤ 18446744073709551616) :
    (sampleBlock a).ok := ⟨h0, h1⟩

/-- C5, as amended.  In every terrain state reached from the all-empty terrain by
`terrain_setBlock` calls with coordinates inside the grid, on a terrain of at most `2^22`
chunks, the payload of every tag `10` entry is a handle that `poolAllocatorAlloc` returned
and that was not deallocated since, no two tag `10` entries carry the same payload, every
such handle is the payload of a tag `10` entry, and the number of tag `10` entries equals
`chunkPool.size` and `chunkBitmaskPool.size`. -/
theorem tag_pool_consistency (D : Bool) (t : Terrain) (live : List Nat) (hr : Run D t live)
    (hc : t.width / 8 * (t.width / 8) * (t.height / 8) ≤ 4194304) :
    TagPoolConsistent t live := by
  obtain ⟨fl, ht⟩ := hr.ok hc
  have hform : ∀ c, c < t.chunkCount → t.topLevelArray c >>> 30 = 2 →
      ∃ a, a ∈ live ∧ t.topLevelArray c = 2147483648 + a := by
    intro c h1 h2
    rcases ht.entry c h1 with h0 | ⟨w, _, hw, hw'⟩ | hx
    · rw [h0] at h2
      exact absurd h2 (by decide)
    · rw [hw', tag_uniform w (by omega)] at h2
      exact absurd h2 (by decide)
    · exact hx
  refine ⟨?_, ?_, ?_, ?_, ?_⟩
  · intro c h1 h2
    obtain ⟨a, ha, ha'⟩ := hform c h1 h2
    have := ht.handle_lt ha
    rw [ha']
    have e : (2147483648 + a) % 1073741824 = a := by omega
    rw [e]
    exact ha
  · intro c c' h1 h1' h2 h2' e
    obtain ⟨a, ha, ha'⟩ := hform c h1 h2
    obtain ⟨b, hb, hb'⟩ := hform c' h1' h2'
    have := ht.handle_lt ha
    have := ht.handle_lt hb
    rw [ha', hb'] at e
    have eab : a = b := by omega
    subst eab
    exact ht.inj c c' a ha h1 h1' ha' hb'
  · intro a ha
    obtain ⟨c, hc, hc'⟩ := ht.owner a ha
    have := ht.handle_lt ha
    refine ⟨c, hc, ?_, ?_⟩
    · rw [hc']
      exact tag_expanded a (by omega)
    · rw [hc']
      omega
  · rw [ht.expandedCount, ht.chunk_ok.size_eq]
  · rw [ht.expandedCount, ht.mask_ok.size_eq]

theorem sample_run : Run false (terrain_setBlock false (sampleBlock 4294967296)
    (sampleBlock 8589934592) (emptyTerrain sampleBlocks 64 64) 0 0 0 5)
    (liveAfter false (sampleBlock 4294967296) (emptyTerrain sampleBlocks 64 64) 0 0 0 5 []) :=
  Run.step _ _ _ _ 0 0 0 5
    (Run.init sampleBlocks 64 64 (by decide) (by decide) (by decide) (by decide)
      ⟨by decide, by decide⟩ ⟨by decide, by decide⟩)
    ⟨by decide, by decide⟩ ⟨by decide, by decide⟩ (by decide) (by decide) (by decide) (by decide)

/-- Witness of C5 on the 64 x 64 terrain after `terrain_setBlock(0, 0, 0, 5)`. -/
theorem tag_pool_consistency_witness :
    Run false (terrain_setBlock false (sampleBlock 4294967296) (sampleBlock 8589934592)
      (emptyTerrain sampleBlocks 64 64) 0 0 0 5)
      (liveAfter false (sampleBlock 4294967296) (emptyTerrain sampleBlocks 64 64) 0 0 0 5 []) ∧
    TagPoolConsistent (terrain_setBlock false (sampleBlock 4294967296) (sampleBlock 8589934592)
      (emptyTerrain sampleBlocks 64 64) 0 0 0 5)
      (liveAfter false (sampleBlock 4294967296) (emptyTerrain sampleBlocks 64 64) 0 0 0 5 []) :=
  ⟨sample_run, tag_pool_consistency false _ _ sample_run (by decide)⟩

/-- C5, counterexample.  On the terrain of width and height 16384, whose chunk count wraps
to `0` in 32 bits, the state after `terrain_setBlock(0, 0, 0, 5)` has one unit in use in
`chunkPool` and no tag `10` entry among its `chunkCount` entries. -/
theorem tag_pool_consistency_fails_on_overflow :
    Run false (terrain_setBlock false (sampleBlock 4294967296) (sampleBlock 8589934592)
      (emptyTerrain sampleBlocks 16384 16384) 0 0 0 5)
      (liveAfter false (sampleBlock 4294967296) (emptyTerrain sampleBlocks 16384 16384) 0 0 0 5 []) ∧
    ¬ TagPoolConsistent (terrain_setBlock false (sampleBlock 4294967296) (sampleBlock 8589934592)
      (emptyTerrain sampleBlocks 16384 16384) 0 0 0 5)
      (liveAfter false (sampleBlock 4294967296) (emptyTerrain sampleBlocks 16384 16384) 0 0 0 5 []) := by
  refine ⟨?_, ?_⟩
  · exact Run.step _ _ _ _ 0 0 0 5
      (Run.init sampleBlocks 16384 16384 (by decide) (by decide) (by decide) (by decide)
        ⟨by decide, by decide⟩ ⟨by decide, by decide⟩)
      ⟨by decide, by decide⟩ ⟨by decide, by decide⟩ (by decide) (by decide) (by decide)
      (by decide)
  · rintro ⟨_, _, _, h, _⟩
    have h1 : expandedCount (terrain_setBlock false (sampleBlock 4294967296)
        (sampleBlock 8589934592) (emptyTerrain sampleBlocks 16384 16384) 0 0 0 5) = 0 := by
      unfold expandedCount
      rw [(terrain_setBlock_shape _ _ _ _ _ _ _ _).2.2]
      rfl
    have h2 : (terrain_setBlock false (sampleBlock 4294967296)
        (sampleBlock 8589934592) (emptyTerrain sampleBlocks 16384 16384) 0 0 0 5).chunkPool.size
        = 1 := by decide
    rw [h1, h2] at h
    exact absurd h (by decide)

/-- C6.  When the debug bounds check does not reject the coordinates, `terrain_getBlock`
returns `0` for a tag `00` entry, the low 8 bits of the entry for a tag `11` entry, and for
a tag `10` entry the byte `getWithinChunkIdx(x, y, z)` of the `chunkPool` unit that
`poolAllocatorGet` addresses with the low 30 bits of the entry; the terrain state is left
as it was. -/
theorem terrain_getBlock_decode (DEBUG_MODE : Bool) (t : Terrain) (x y z : Nat)
    (hb : (DEBUG_MODE && outOfBounds t x y z) = false) : DecodesEntry DEBUG_MODE t x y z := by
  unfold DecodesEntry
  refine ⟨?_, ?_, ?_, rfl⟩
  · intro h
    simp [terrain_getBlock, hb, h]
  · intro h
    simp [terrain_getBlock, hb, h, u8_and_255]
  · intro h
    simp [terrain_getBlock, hb, h, payload_eq_mod]

/-- Witness of C6 on the 64 x 64 terrain after `terrain_setBlock(1, 0, 0, 5)`. -/
theorem terrain_getBlock_decode_witness :
    (false && outOfBounds (terrain_setBlock false (sampleBlock 4294967296)
      (sampleBlock 8589934592) (emptyTerrain sampleBlocks 64 64) 1 0 0 5) 1 0 0) = false ∧
    DecodesEntry false (terrain_setBlock false (sampleBlock 4294967296)
      (sampleBlock 8589934592) (emptyTerrain sampleBlocks 64 64) 1 0 0 5) 1 0 0 :=
  ⟨rfl, terrain_getBlock_decode false _ 1 0 0 rfl⟩

/-- C7.  When the debug bounds check does not reject the coordinates: if the addressed
chunk is empty and the value is `0`, or it is uniform and the value equals its stored
payload, `terrain_setBlock` leaves the whole terrain state unchanged (the dirty flag
included); in every other case `dirty` is true after the call. -/
theorem terrain_setBlock_noop_dirty (DEBUG_MODE : Bool) (f₁ f₂ : Block) (t : Terrain)
    (x y z value : Nat) (hb : (DEBUG_MODE && outOfBounds t x y z) = false) :
    (NoopCase t x y z value → terrain_setBlock DEBUG_MODE f₁ f₂ t x y z value = t) ∧
    (¬ NoopCase t x y z value →
      (terrain_setBlock DEBUG_MODE f₁ f₂ t x y z value).dirty = true) := by
  unfold NoopCase
  simp only [← payload_eq_mod]
  constructor
  · intro h
    exact terrain_setBlock_noop DEBUG_MODE f₁ f₂ t x y z value h
  · intro h
    rw [not_or] at h
    have hb' : ¬ ((DEBUG_MODE && outOfBounds t x y z) = true) := by
      rw [hb]; exact Bool.false_ne_true
    by_cases h2 : t.topLevelArray (getChunkIdx x y z t.width t.height) >>> 30 = 2
    · rw [terrain_setBlock_expanded DEBUG_MODE f₁ f₂ t x y z value hb' h2]
      unfold setBlockExpanded
      simp only []
      split <;> rfl
    · rw [terrain_setBlock_expand DEBUG_MODE f₁ f₂ t x y z value hb' h.1 h.2 h2]
      rfl

/-- Witness of C7 on the empty 64 x 64 terrain with value `0`. -/
theorem terrain_setBlock_noop_dirty_witness :
    (false && outOfBounds (emptyTerrain sampleBlocks 64 64) 0 0 0) = false ∧
    (NoopCase (emptyTerrain sampleBlocks 64 64) 0 0 0 0 →
      terrain_setBlock false (sampleBlock 4294967296) (sampleBlock 8589934592)
        (emptyTerrain sampleBlocks 64 64) 0 0 0 0 = emptyTerrain sampleBlocks 64 64) ∧
    (¬ NoopCase (emptyTerrain sampleBlocks 64 64) 0 0 0 0 →
      (terrain_setBlock false (sampleBlock 4294967296) (sampleBlock 8589934592)
        (emptyTerrain sampleBlocks 64 64) 0 0 0 0).dirty = true) :=
  ⟨rfl, terrain_setBlock_noop_dirty false _ _ _ 0 0 0 0 rfl⟩

/-- C8.  `terrain_init` ends in `PANIC` exactly when `width % 64 != 0` or
`height % 64 != 0`; for multiples of 64 (0 included) it returns a terrain that stores
`width` and `height` unchanged. -/
theorem terrain_init_panic_iff (n : Noise) (m : InitBlocks) (width height : Nat) :
    (terrain_init n m width height = none ↔ (width % 64 ≠ 0 ∨ height % 64 ≠ 0)) ∧
    (width % 64 = 0 ∧ height % 64 = 0 →
      ∃ t, terrain_init n m width height = some t ∧ t.width = width ∧ t.height = height) := by
  unfold terrain_init
  constructor
  · constructor
    · intro h
      by_contra hn
      rw [if_neg hn] at h
      exact Option.noConfusion h
    · intro h
      rw [if_pos h]
  · rintro ⟨hw, hh⟩
    rw [if_neg (by rw [not_or, not_not, not_not]; exact ⟨hw, hh⟩)]
    have hs := generate_shape n (emptyTerrain m width height)
    exact ⟨_, rfl, hs.1, hs.2.1⟩

theorem emptyTerrain_getBlock (D : Bool) (m : InitBlocks) (w h x y z : Nat) (hw : w % 64 = 0)
    (hh : h % 64 = 0) (hc : w / 8 * (w / 8) * (h / 8) < 4294967296)
    (hx : x < w) (hy : y < h) (hz : z < w) :
    terrain_getBlock D (emptyTerrain m w h) x y z = 0 := by
  have hi : getChunkIdx x y z w h < (emptyTerrain m w h).chunkCount := by
    rw [emptyTerrain_chunkCount m w h hc,
      getChunkIdx_eq x y z w h (by omega) (by omega) hx hy hz (by omega)]
    exact chunkIdxNat_lt x y z w h (by omega) (by omega) hx hy hz
  have he := emptyTerrain_entry m w h _ hi
  unfold terrain_getBlock
  split
  · rfl
  · simp only []
    have e : (emptyTerrain m w h).topLevelArray
        (getChunkIdx x y z (emptyTerrain m w h).width (emptyTerrain m w h).height) = 0 := he
    rw [e, if_pos tag_zero]

theorem emptyTerrain_freshlyEmpty (m : InitBlocks) (w h : Nat) (hw : w % 64 = 0)
    (hh : h % 64 = 0) (hc : w / 8 * (w / 8) * (h / 8) < 4294967296) :
    FreshlyEmpty (emptyTerrain m w h) :=
  ⟨fun c hc' => emptyTerrain_entry m w h c hc', ⟨rfl, rfl, rfl⟩, ⟨rfl, rfl, rfl⟩, rfl,
    fun D x y z hx hy hz => emptyTerrain_getBlock D m w h x y z hw hh hc hx hy hz⟩

/-- C9, as amended.  For dimensions that are multiples of 64 and whose chunk count fits
32 bits, `terrain_init` builds the empty terrain (every top level entry `0`, both pools of
size 0 with capacity 65536 and unit sizes 512 and 64, `dirty` set, `terrain_getBlock`
returning `0` at every coordinate inside the grid) and then returns what `generate` makes
of it, with `dirty` still set. -/
theorem terrain_init_runs_generate (n : Noise) (m : InitBlocks) (width height : Nat)
    (hw : width % 64 = 0) (hh : height % 64 = 0)
    (hc : width / 8 * (width / 8) * (height / 8) < 4294967296) :
    terrain_init n m width height = some (generate n (emptyTerrain m width height)) ∧
    FreshlyEmpty (emptyTerrain m width height) ∧
    (generate n (emptyTerrain m width height)).dirty = true := by
  refine ⟨?_, emptyTerrain_freshlyEmpty m width height hw hh hc, ?_⟩
  · unfold terrain_init
    rw [if_neg (by rw [not_or, not_not, not_not]; exact ⟨hw, hh⟩)]
  · rw [(generate_shape n (emptyTerrain m width height)).2.2.2.2.2]
    rfl

/-- Witness of C9 (amended) for `width = height = 64`. -/
theorem terrain_init_runs_generate_witness :
    (64 % 64 = 0 ∧ 64 % 64 = 0 ∧ 64 / 8 * (64 / 8) * (64 / 8) < 4294967296) ∧
    terrain_init sampleNoise sampleBlocks 64 64 =
      some (generate sampleNoise (emptyTerrain sampleBlocks 64 64)) ∧
    FreshlyEmpty (emptyTerrain sampleBlocks 64 64) ∧
    (generate sampleNoise (emptyTerrain sampleBlocks 64 64)).dirty = true :=
  ⟨⟨by decide, by decide, by decide⟩,
    terrain_init_runs_generate sampleNoise sampleBlocks 64 64 (by decide) (by decide) (by decide)⟩

/-- C9, counterexample.  On a 64 x 64 terrain there is no noise with a height map value of
at least 1 in the first column for which `terrain_init` leaves the top level entry of the
chunk at the origin `0`: `generate` populates it. -/
theorem terrain_init_populates :
    ¬ ∃ (n : Noise) (m : InitBlocks) (t : Terrain), 1 ≤ n.heightMap 0 0 0 0 % 65536 ∧
      terrain_init n m 64 64 = some t ∧ t.topLevelArray 0 = 0 := by
  rintro ⟨n, m, t, hn, ht, h0⟩
  have hi : terrain_init n m 64 64 = some (generate n (emptyTerrain m 64 64)) := by
    unfold terrain_init
    rw [if_neg (by decide)]
  rw [hi] at ht
  have ht := Option.some.inj ht
  obtain ⟨k, hk⟩ := columnHeight_pos _ hn
  have hw : (emptyTerrain m 64 64).width = 64 := rfl
  have hh : (emptyTerrain m 64 64).height = 64 := rfl
  have ho := generate_first n (emptyTerrain m 64 64) k 7 7 (by rw [hw]) (by rw [hh]) hk
  have h1 : getChunkIdx (u32 (0 * 8)) (u32 (0 * 8)) (u32 (0 * 8)) 64 64 = 0 := by decide
  rw [hw, hh, h1, ht] at ho
  unfold Occupied at ho
  omega

theorem u32_mul_chain (a b : Nat) : u32 (u32 (a * a) * b) = a * a * b % 4294967296 := by
  unfold u32
  rw [Nat.mul_mod, Nat.mod_mod, ← Nat.mul_mod]

/-- C10, as amended.  For `width` and `height` multiples of 64, `terrain_init` sets
`widthChunkC = width / 8`, `heightChunkC = height / 8` and `chunkCount` to
`(width / 8)^2 * (height / 8)` reduced modulo `2^32`, which is the mathematical value when
that is below `2^32`; `chunkCount` top level entries are zeroed. -/
theorem terrain_init_chunkCount (n : Noise) (m : InitBlocks) (width height : Nat)
    (hw : width % 64 = 0) (hh : height % 64 = 0) :
    ∃ t, terrain_init n m width height = some t ∧
      t.widthChunkC = width / 8 ∧ t.heightChunkC = height / 8 ∧
      t.chunkCount = width / 8 * (width / 8) * (height / 8) % 4294967296 ∧
      (width / 8 * (width / 8) * (height / 8) < 4294967296 →
        t.chunkCount = width / 8 * (width / 8) * (height / 8)) ∧
      ∀ i, i < t.chunkCount → (emptyTerrain m width height).topLevelArray i = 0 := by
  have hs := generate_shape n (emptyTerrain m width height)
  have hcc : (emptyTerrain m width height).chunkCount =
      width / 8 * (width / 8) * (height / 8) % 4294967296 := u32_mul_chain _ _
  refine ⟨generate n (emptyTerrain m width height), ?_, hs.2.2.1, hs.2.2.2.1, ?_, ?_, ?_⟩
  · unfold terrain_init
    rw [if_neg (by rw [not_or, not_not, not_not]; exact ⟨hw, hh⟩)]
  · rw [hs.2.2.2.2.1]
    exact hcc
  · intro hlt
    rw [hs.2.2.2.2.1, hcc]
    exact Nat.mod_eq_of_lt hlt
  · intro i hi
    rw [hs.2.2.2.2.1] at hi
    exact emptyTerrain_entry m width height i hi

/-- Witness of C10 (amended) for `width = height = 64`. -/
theorem terrain_init_chunkCount_witness :
    (64 % 64 = 0 ∧ 64 % 64 = 0) ∧
    ∃ t, terrain_init sampleNoise sampleBlocks 64 64 = some t ∧
      t.widthChunkC = 64 / 8 ∧ t.heightChunkC = 64 / 8 ∧
      t.chunkCount = 64 / 8 * (64 / 8) * (64 / 8) % 4294967296 ∧
      (64 / 8 * (64 / 8) * (64 / 8) < 4294967296 →
        t.chunkCount = 64 / 8 * (64 / 8) * (64 / 8)) ∧
      ∀ i, i < t.chunkCount → (emptyTerrain sampleBlocks 64 64).topLevelArray i = 0 :=
  ⟨⟨by decide, by decide⟩,
    terrain_init_chunkCount sampleNoise sampleBlocks 64 64 (by decide) (by decide)⟩

/-- C10, counterexample.  For `width = height = 16384` the `chunkCount` that `terrain_init`
stores is not `(width / 8)^2 * (height / 8)`: the 32 bit product wraps to `0`. -/
theorem terrain_init_chunkCount_wraps :
    ¬ ∃ (n : Noise) (m : InitBlocks) (t : Terrain), terrain_init n m 16384 16384 = some t ∧
      t.chunkCount = 16384 / 8 * (16384 / 8) * (16384 / 8) := by
  rintro ⟨n, m, t, ht, hc⟩
  have hi : terrain_init n m 16384 16384 = some (generate n (emptyTerrain m 16384 16384)) := by
    unfold terrain_init
    rw [if_neg (by decide)]
  rw [hi] at ht
  have ht := Option.some.inj ht
  have hs := generate_shape n (emptyTerrain m 16384 16384)
  rw [ht] at hs
  rw [hs.2.2.2.2.1] at hc
  have h0 : (emptyTerrain m 16384 16384).chunkCount = 0 := rfl
  rw [h0] at hc
  exact absurd hc (by decide)

/-! ## Properties C11 to C13: chunk and voxel indices -/

theorem low_bits_or (a b c : Nat) (hb : b < 2) (hc : c < 2) :
    (a <<< 2 ||| b <<< 1 ||| c) = 4 * a + 2 * b + c := by
  have h1 : a <<< 2 ||| b <<< 1 = 2 * (2 * a + b) := by
    rw [Nat.shiftLeft_eq, Nat.shiftLeft_eq]
    have := Nat.mul_add_lt_is_or (i := 2) (b := b * 2 ^ 1) (by omega) a
    rw [Nat.mul_comm a (2 ^ 2), ← this]
    omega
  rw [h1]
  have := Nat.mul_add_lt_is_or (i := 1) (b := c) (by omega) (2 * a + b)
  rw [Nat.pow_one] at this
  rw [← this]
  omega

theorem chunkIdxSpec_eq (x y z w h : Nat) :
    chunkIdxSpec x y z w h = chunkIdxNat x y z w h := by
  unfold chunkIdxSpec chunkIdxNat
  simp only [Nat.and_one_is_mod, Nat.shiftRight_eq_div_pow]
  rw [low_bits_or _ _ _ (Nat.mod_lt _ (by decide)) (Nat.mod_lt _ (by decide))]
  rw [Nat.shiftLeft_eq]
  have := Nat.mul_add_lt_is_or (i := 3) (b := 4 * (x / 2 ^ 3 % 2) + 2 * (z / 2 ^ 3 % 2) + y / 2 ^ 3 % 2)
    (by omega) ((x / 2 ^ 4 * (w / 2 ^ 4) + z / 2 ^ 4) * (h / 2 ^ 4) + y / 2 ^ 4)
  rw [Nat.mul_comm _ (2 ^ 3), ← this]
  norm_num

theorem mul_add_inj (a b a' b' n : Nat) (hb : b < n) (hb' : b' < n)
    (e : a * n + b = a' * n + b') : a = a' ∧ b = b' := by
  have h1 : (a * n + b) / n = a := by
    rw [Nat.add_comm, Nat.add_mul_div_right _ _ (by omega), Nat.div_eq_of_lt hb, Nat.zero_add]
  have h2 : (a' * n + b') / n = a' := by
    rw [Nat.add_comm, Nat.add_mul_div_right _ _ (by omega), Nat.div_eq_of_lt hb', Nat.zero_add]
  have ha : a = a' := by rw [← h1, ← h2, e]
  subst ha
  exact ⟨rfl, by omega⟩

theorem chunkIdxNat_inj (x y z x' y' z' w h : Nat) (hw : w % 16 = 0) (hh : h % 16 = 0)
    (hy : y < h) (hz : z < w) (hy' : y' < h) (hz' : z' < w) :
    chunkIdxNat x y z w h = chunkIdxNat x' y' z' w h ↔
      (x / 8 = x' / 8 ∧ y / 8 = y' / 8 ∧ z / 8 = z' / 8) := by
  constructor
  · intro e
    unfold chunkIdxNat at e
    have hY : y / 16 < h / 16 := by omega
    have hY' : y' / 16 < h / 16 := by omega
    have hZ : z / 16 < w / 16 := by omega
    have hZ' : z' / 16 < w / 16 := by omega
    have e1 : (x / 16 * (w / 16) + z / 16) * (h / 16) + y / 16 =
        (x' / 16 * (w / 16) + z' / 16) * (h / 16) + y' / 16 := by omega
    have e2 : 4 * (x / 8 % 2) + 2 * (z / 8 % 2) + y / 8 % 2 =
        4 * (x' / 8 % 2) + 2 * (z' / 8 % 2) + y' / 8 % 2 := by omega
    obtain ⟨e3, e4⟩ := mul_add_inj _ _ _ _ _ hY hY' e1
    obtain ⟨e5, e6⟩ := mul_add_inj _ _ _ _ _ hZ hZ' e3
    omega
  · rintro ⟨e1, e2, e3⟩
    unfold chunkIdxNat
    have a1 : x / 16 = x' / 16 := by omega
    have a2 : y / 16 = y' / 16 := by omega
    have a3 : z / 16 = z' / 16 := by omega
    rw [e1, e2, e3, a1, a2, a3]

theorem getChunkIdx_inj (x y z x' y' z' w h : Nat) (hw : w % 16 = 0) (hh : h % 16 = 0)
    (hc : w / 8 * (w / 8) * (h / 8) ≤ 4294967296)
    (hx : x < w) (hy : y < h) (hz : z < w) (hx' : x' < w) (hy' : y' < h) (hz' : z' < w) :
    getChunkIdx x y z w h = getChunkIdx x' y' z' w h ↔
      (x / 8 = x' / 8 ∧ y / 8 = y' / 8 ∧ z / 8 = z' / 8) := by
  rw [getChunkIdx_eq x y z w h hw hh hx hy hz hc, getChunkIdx_eq x' y' z' w h hw hh hx' hy' hz' hc]
  exact chunkIdxNat_inj x y z x' y' z' w h hw hh hy hz hy' hz'

theorem initialised_chunkCount (n : Noise) (m : InitBlocks) (w h : Nat) (t : Terrain)
    (hc : w / 8 * (w / 8) * (h / 8) < 4294967296) (ht : terrain_init n m w h = some t) :
    t.width = w ∧ t.height = h ∧ t.chunkCount = w / 8 * (w / 8) * (h / 8) := by
  unfold terrain_init at ht
  split at ht
  · exact Option.noConfusion ht
  · have e := Option.some.inj ht
    have hs := generate_shape n (emptyTerrain m w h)
    rw [e] at hs
    refine ⟨hs.1, hs.2.1, ?_⟩
    rw [hs.2.2.2.2.1]
    exact emptyTerrain_chunkCount m w h hc

/-- C11.  For `width` and `height` multiples of 64 with `(width/8)^2 * (height/8) < 2^32`
and coordinates inside the grid, `getChunkIdx` returns the value of the specification's
formula (super-chunk index shifted left by 3, or'ed with the three low bits), and that
value is below the `chunkCount` of the terrain that `terrain_init` builds, before and after
`generate`. -/
theorem getChunkIdx_formula_in_range (n : Noise) (m : InitBlocks) (width height x y z : Nat)
    (hw : width % 64 = 0) (hh : height % 64 = 0)
    (hc : width / 8 * (width / 8) * (height / 8) < 4294967296)
    (hx : x < width) (hy : y < height) (hz : z < width) :
    getChunkIdx x y z width height = chunkIdxSpec x y z width height ∧
    getChunkIdx x y z width height < (emptyTerrain m width height).chunkCount ∧
    ∃ t, terrain_init n m width height = some t ∧
      getChunkIdx x y z t.width t.height < t.chunkCount := by
  have e := getChunkIdx_eq x y z width height (by omega) (by omega) hx hy hz (by omega)
  have hlt := chunkIdxNat_lt x y z width height (by omega) (by omega) hx hy hz
  refine ⟨?_, ?_, generate n (emptyTerrain m width height), ?_, ?_⟩
  · rw [e, chunkIdxSpec_eq]
  · rw [e, emptyTerrain_chunkCount m width height hc]
    exact hlt
  · unfold terrain_init
    rw [if_neg (by rw [not_or, not_not, not_not]; exact ⟨hw, hh⟩)]
  · have hs := generate_shape n (emptyTerrain m width height)
    rw [hs.1, hs.2.1, hs.2.2.2.2.1, emptyTerrain_chunkCount m width height hc]
    show getChunkIdx x y z width height < _
    rw [e]
    exact hlt

/-- Witness of C11 on the 64 x 64 terrain at the voxel `(9, 17, 33)`. -/
theorem getChunkIdx_formula_in_range_witness :
    getChunkIdx 9 17 33 64 64 = chunkIdxSpec 9 17 33 64 64 ∧
    getChunkIdx 9 17 33 64 64 < (emptyTerrain sampleBlocks 64 64).chunkCount ∧
    ∃ t, terrain_init sampleNoise sampleBlocks 64 64 = some t ∧
      getChunkIdx 9 17 33 t.width t.height < t.chunkCount :=
  getChunkIdx_formula_in_range sampleNoise sampleBlocks 64 64 9 17 33 (by decide) (by decide)
    (by decide) (by decide) (by decide) (by decide)

theorem dealloc_eq (p : PoolAllocator) (a : Nat)
    (hmh : p.memory + 4294967296 ≤ 18446744073709551616) (ha : a * p.unitSize < 4294967296) :
    poolAllocatorDealloc p a =
      { p with bytes := storeWord p.bytes (a * p.unitSize) p.nextFree,
               nextFree := p.memory + a * p.unitSize,
               size := sub32 p.size 1 } := by
  have e1 : u32 (a * p.unitSize) = a * p.unitSize := by unfold u32; omega
  have e2 : u64 (p.memory + a * p.unitSize) = p.memory + a * p.unitSize := by unfold u64; omega
  unfold poolAllocatorDealloc poolAllocatorDeallocPtr
  rw [e1, e2, ptrOffset_add _ _ hmh ha]

theorem dealloc_alloc_eq (fresh : Block) (p : PoolAllocator) (a : Nat)
    (hmp : 0 < p.memory) (hmh : p.memory + 4294967296 ≤ 18446744073709551616)
    (hus : 0 < p.unitSize) (ha : a * p.unitSize < 4294967296)
    (hnf : p.nextFree < 18446744073709551616) (hs1 : 1 ≤ p.size) (hs2 : p.size < 4294967296) :
    poolAllocatorAlloc fresh (poolAllocatorDealloc p a) =
      ({ p with bytes := storeWord p.bytes (a * p.unitSize) p.nextFree }, a) := by
  rw [dealloc_eq p a hmh ha]
  have e := alloc_eq_pop
    { p with bytes := storeWord p.bytes (a * p.unitSize) p.nextFree,
             nextFree := p.memory + a * p.unitSize,
             size := sub32 p.size 1 } fresh a (p.size - 1) rfl hmp hmh hus ha
    (by show sub32 p.size 1 = _; unfold sub32 u32; omega) (by omega)
  rw [e]
  simp only []
  rw [loadWord_storeWord _ _ _ hnf]
  have : p.size - 1 + 1 = p.size := by omega
  rw [this]

/-- C14.  On a pool whose buffer is not `NULL` and lies in the address space, with a positive
unit size, for a handle `h` whose unit starts within 32 bit offsets and a `size` of at least 1:
`poolAllocatorDealloc(h)` followed by `poolAllocatorAlloc` returns `h`, leaves `unused` and
`maxSize` unchanged and restores `size` and `nextFree`; and after `poolAllocatorDealloc(h)`
then `poolAllocatorDealloc(h₂)` the next two calls of `poolAllocatorAlloc` return `h₂`, then
`h`. -/
theorem free_list_lifo (fresh : Block) (p : PoolAllocator) (h : Nat)
    (hmp : 0 < p.memory) (hmh : p.memory + 4294967296 ≤ 18446744073709551616)
    (hus : 0 < p.unitSize) (hh : h * p.unitSize < 4294967296)
    (hnf : p.nextFree < 18446744073709551616) (hs1 : 1 ≤ p.size) (hs2 : p.size < 4294967296) :
    (poolAllocatorAlloc fresh (poolAllocatorDealloc p h)).2 = h ∧
    (poolAllocatorAlloc fresh (poolAllocatorDealloc p h)).1.unused = p.unused ∧
    (poolAllocatorAlloc fresh (poolAllocatorDealloc p h)).1.maxSize = p.maxSize ∧
    (poolAllocatorAlloc fresh (poolAllocatorDealloc p h)).1.size = p.size ∧
    (poolAllocatorAlloc fresh (poolAllocatorDealloc p h)).1.nextFree = p.nextFree ∧
    ∀ (h₂ : Nat) (fresh₂ : Block), h₂ * p.unitSize < 4294967296 → 2 ≤ p.size →
      (poolAllocatorAlloc fresh (poolAllocatorDealloc (poolAllocatorDealloc p h) h₂)).2 = h₂ ∧
      (poolAllocatorAlloc fresh₂
        (poolAllocatorAlloc fresh (poolAllocatorDealloc (poolAllocatorDealloc p h) h₂)).1).2 = h := by
  refine ⟨?_, ?_, ?_, ?_, ?_, ?_⟩
  · rw [dealloc_alloc_eq fresh p h hmp hmh hus hh hnf hs1 hs2]
  · rw [dealloc_alloc_eq fresh p h hmp hmh hus hh hnf hs1 hs2]
  · rw [dealloc_alloc_eq fresh p h hmp hmh hus hh hnf hs1 hs2]
  · rw [dealloc_alloc_eq fresh p h hmp hmh hus hh hnf hs1 hs2]
  · rw [dealloc_alloc_eq fresh p h hmp hmh hus hh hnf hs1 hs2]
  · intro h₂ fresh₂ hh₂ hs
    rw [dealloc_eq p h hmh hh]
    have hsz : sub32 p.size 1 = p.size - 1 := by unfold sub32 u32; omega
    have e := dealloc_alloc_eq fresh
      { p with bytes := storeWord p.bytes (h * p.unitSize) p.nextFree,
               nextFree := p.memory + h * p.unitSize,
               size := sub32 p.size 1 } h₂ hmp hmh hus hh₂
      (by show p.memory + h * p.unitSize < _; omega)
      (by show 1 ≤ sub32 p.size 1; omega) (by show sub32 p.size 1 < _; omega)
    rw [e]
    refine ⟨rfl, ?_⟩
    simp only []
    have e2 := alloc_eq_pop
      { p with bytes := storeWord (storeWord p.bytes (h * p.unitSize) p.nextFree)
                 (h₂ * p.unitSize) (p.memory + h * p.unitSize),
               nextFree := p.memory + h * p.unitSize,
               size := sub32 p.size 1 } fresh₂ h (p.size - 1) rfl hmp hmh hus hh hsz (by omega)
    rw [e2]

/-- Witness of C14: the pool of 65536 units of 512 bytes after two allocations, handles 0
and 1. -/
theorem free_list_lifo_witness :
    (poolAllocatorAlloc (sampleBlock 4294967296) (poolAllocatorDealloc
      (allocRepeat (sampleBlock 4294967296)
        (poolAllocatorCreate (sampleBlock 1048576) 65536 512 (sampleBlock 0)) 2) 0)).2 = 0 ∧
    (poolAllocatorAlloc (sampleBlock 4294967296) (poolAllocatorDealloc (poolAllocatorDealloc
      (allocRepeat (sampleBlock 4294967296)
        (poolAllocatorCreate (sampleBlock 1048576) 65536 512 (sampleBlock 0)) 2) 0) 1)).2 = 1 :=
  have w := free_list_lifo (sampleBlock 4294967296)
    (allocRepeat (sampleBlock 4294967296)
      (poolAllocatorCreate (sampleBlock 1048576) 65536 512 (sampleBlock 0)) 2) 0
    (by decide) (by decide) (by decide) (by decide) (by decide) (by decide) (by decide)
  ⟨w.1, (w.2.2.2.2.2 1 (sampleBlock 4294967296) (by decide) (by decide)).1⟩

/-- C15.  When `poolAllocatorAlloc` is called on a pool that owns its memory, has an empty
free list and `unused == 0`, with capacity `m >= 1`, unit size at least 1 and
`2 * m * unitSize < 2^32`, then afterwards `maxSize == 2 * m`, the returned handle is `m`,
`unused == m - 1`, `size` has increased by 1, and for every handle `h < m` the `unitSize`
bytes at `poolAllocatorGet(h)` are the bytes that were there before the call. -/
theorem grow_preserves_data (fresh : Block) (p : PoolAllocator) (hfresh : fresh.ok)
    (hown : p.ownsMemory = true) (hnf : p.nextFree = 0) (hu : p.unused = 0)
    (hm : 1 ≤ p.maxSize) (hus : 1 ≤ p.unitSize)
    (hcap : 2 * p.maxSize * p.unitSize < 4294967296)
    (hmh : p.memory + 4294967296 ≤ 18446744073709551616) (hsz : p.size < 4294967295) :
    (poolAllocatorAlloc fresh p).1.maxSize = 2 * p.maxSize ∧
    (poolAllocatorAlloc fresh p).2 = p.maxSize ∧
    (poolAllocatorAlloc fresh p).1.unused = p.maxSize - 1 ∧
    (poolAllocatorAlloc fresh p).1.size = p.size + 1 ∧
    ∀ h i, h < p.maxSize → i < p.unitSize →
      loadByte (poolAllocatorAlloc fresh p).1.bytes
        (ptrOffset (poolAllocatorAlloc fresh p).1.memory
          (poolAllocatorGet (poolAllocatorAlloc fresh p).1 h) + i) =
      loadByte p.bytes (ptrOffset p.memory (poolAllocatorGet p h) + i) := by
  have h2m : p.maxSize * 2 * p.unitSize < 4294967296 := by
    rw [Nat.mul_comm p.maxSize 2]; exact hcap
  rw [alloc_eq_grow p fresh p.size hnf hfresh hown hus hu hm h2m rfl hsz]
  refine ⟨Nat.mul_comm _ _, rfl, rfl, rfl, ?_⟩
  intro h i hh hi
  have hend := unit_end_le p.unitSize h p.maxSize hh
  have hle : p.maxSize * p.unitSize ≤ p.maxSize * 2 * p.unitSize := by
    rw [Nat.mul_right_comm]; omega
  have e1 : u32 (h * p.unitSize) = h * p.unitSize := by unfold u32; omega
  unfold poolAllocatorGet
  simp only []
  rw [e1, ptrOffset_base _ _ hfresh.2 (by omega), ptrOffset_base _ _ hmh (by omega)]
  unfold loadByte memcpy
  rw [if_pos (by omega)]

/-- Witness of C15: a pool of 2 units of 512 bytes after 2 allocations. -/
theorem grow_preserves_data_witness :
    (poolAllocatorAlloc (sampleBlock 4294967296) (allocRepeat (sampleBlock 4294967296)
      (poolAllocatorCreate (sampleBlock 1048576) 2 512 (sampleBlock 0)) 2)).1.maxSize = 4 ∧
    (poolAllocatorAlloc (sampleBlock 4294967296) (allocRepeat (sampleBlock 4294967296)
      (poolAllocatorCreate (sampleBlock 1048576) 2 512 (sampleBlock 0)) 2)).2 = 2 :=
  have w := grow_preserves_data (sampleBlock 4294967296)
    (allocRepeat (sampleBlock 4294967296)
      (poolAllocatorCreate (sampleBlock 1048576) 2 512 (sampleBlock 0)) 2)
    ⟨by decide, by decide⟩ (by decide) (by decide) (by decide) (by decide) (by decide)
    (by decide) (by decide) (by decide)
  ⟨w.1, w.2.1⟩

/-- C17.  On a pool that does not own its memory, with an empty free list and
`unused == 0`, `poolAllocatorAllocPtr` returns `NULL` and `poolAllocatorAlloc` returns the
handle 0; both return (the process goes on) and leave the pool as it was. -/
theorem exhausted_pool_alloc_fails (fresh : Block) (p : PoolAllocator)
    (hown : p.ownsMemory = false) (hnf : p.nextFree = 0) (hu : p.unused = 0) :
    poolAllocatorAllocPtr fresh p = (p, 0) ∧ poolAllocatorAlloc fresh p = (p, 0) := by
  have e : poolAllocatorAllocPtr fresh p = (p, 0) := by
    unfold poolAllocatorAllocPtr
    rw [if_neg (not_not.mpr hnf), if_neg (by omega), if_neg (by rw [hown]; decide)]
  refine ⟨e, ?_⟩
  unfold poolAllocatorAlloc
  rw [e]
  rfl

/-- Witness of C17: a pool over an external buffer of 2 units, after 2 allocations. -/
theorem exhausted_pool_alloc_fails_witness :
    poolAllocatorAllocPtr (sampleBlock 4294967296) (allocRepeat (sampleBlock 4294967296)
      (poolAllocatorCreate (sampleBlock 0) 2 512 (sampleBlock 1048576)) 2) =
      (allocRepeat (sampleBlock 4294967296)
        (poolAllocatorCreate (sampleBlock 0) 2 512 (sampleBlock 1048576)) 2, 0) ∧
    poolAllocatorAlloc (sampleBlock 4294967296) (allocRepeat (sampleBlock 4294967296)
      (poolAllocatorCreate (sampleBlock 0) 2 512 (sampleBlock 1048576)) 2) =
      (allocRepeat (sampleBlock 4294967296)
        (poolAllocatorCreate (sampleBlock 0) 2 512 (sampleBlock 1048576)) 2, 0) :=
  exhausted_pool_alloc_fails (sampleBlock 4294967296) _ (by decide) (by decide) (by decide)

theorem carve_step (fresh : Block) (p : PoolAllocator) (hnf : p.nextFree = 0)
    (hus : 1 ≤ p.unitSize) (hmp : 0 < p.memory)
    (hmh : p.memory + 4294967296 ≤ 18446744073709551616)
    (hcap : p.maxSize * p.unitSize < 4294967296) (k : Nat) (hk : k < p.maxSize) :
    poolAllocatorAlloc fresh { p with unused := p.maxSize - k, size := k } =
      ({ p with unused := p.maxSize - (k + 1), size := k + 1 }, k) := by
  have hle : p.maxSize ≤ p.maxSize * p.unitSize := Nat.le_mul_of_pos_right _ hus
  have e := alloc_eq_carve { p with unused := p.maxSize - k, size := k } fresh k hnf hmh hmp hus
    (by show 0 < p.maxSize - k; omega) (by show p.maxSize - k ≤ p.maxSize; omega) hcap rfl
    (by omega)
  rw [e]
  simp only []
  have a1 : p.maxSize - k - 1 = p.maxSize - (k + 1) := by omega
  have a2 : p.maxSize - (p.maxSize - k) = k := by omega
  rw [a1, a2]

theorem allocRepeat_carve (fresh : Block) (p : PoolAllocator) (hnf : p.nextFree = 0)
    (hs : p.size = 0) (hu : p.unused = p.maxSize) (hus : 1 ≤ p.unitSize) (hmp : 0 < p.memory)
    (hmh : p.memory + 4294967296 ≤ 18446744073709551616)
    (hcap : p.maxSize * p.unitSize < 4294967296) (k : Nat) (hk : k < p.maxSize) :
    allocRepeat fresh p k = { p with unused := p.maxSize - k, size := k } ∧
    poolAllocatorAlloc fresh (allocRepeat fresh p k) =
      ({ p with unused := p.maxSize - (k + 1), size := k + 1 }, k) := by
  induction k with
  | zero =>
    have e0 : allocRepeat fresh p 0 = { p with unused := p.maxSize - 0, size := 0 } := by
      show p = _
      cases p
      simp only [] at hs hu
      subst hs hu
      rfl
    refine ⟨e0, ?_⟩
    rw [e0]
    exact carve_step fresh p hnf hus hmp hmh hcap 0 hk
  | succ k ih =>
    obtain ⟨_, ih2⟩ := ih (by omega)
    have e1 : allocRepeat fresh p (k + 1) =
        { p with unused := p.maxSize - (k + 1), size := k + 1 } := by
      show (poolAllocatorAlloc fresh (allocRepeat fresh p k)).1 = _
      rw [ih2]
    refine ⟨e1, ?_⟩
    rw [e1]
    exact carve_step fresh p hnf hus hmp hmh hcap (k + 1) hk

/-- C18, as amended.  After `poolAllocatorCreate(capacity, unitSize, buffer)` the pool has `size == 0`,
`unused == capacity`, `maxSize == capacity`, an empty free list, and `ownsMemory` is true
exactly when the buffer is `NULL`; `poolAllocatorFreeAll` puts any pool into the state with
`size == 0`, `unused == maxSize` and an empty free list, without changing `maxSize`,
`unitSize` or the memory; and from a pool `q` in such a state, with a unit size of at least 1
and a buffer that is not `NULL` and is addressed within 32 bit offsets, the `k`-th
consecutive `poolAllocatorAlloc` (`1 <= k <= maxSize`) returns the handle `k - 1` and leaves
`size == k` and `unused == maxSize - k`. -/
theorem fresh_pool_carving (fresh memory : Block) (capacity unitSize : Nat)
    (p q : PoolAllocator) (k : Nat) :
    ((poolAllocatorCreate fresh capacity unitSize memory).size = 0 ∧
      (poolAllocatorCreate fresh capacity unitSize memory).unused = capacity ∧
      (poolAllocatorCreate fresh capacity unitSize memory).maxSize = capacity ∧
      (poolAllocatorCreate fresh capacity unitSize memory).unitSize = unitSize ∧
      (poolAllocatorCreate fresh capacity unitSize memory).nextFree = 0 ∧
      ((poolAllocatorCreate fresh capacity unitSize memory).ownsMemory = true ↔
        memory.addr = 0)) ∧
    ((poolAllocatorFreeAll p).size = 0 ∧
      (poolAllocatorFreeAll p).unused = p.maxSize ∧
      (poolAllocatorFreeAll p).nextFree = 0 ∧
      (poolAllocatorFreeAll p).maxSize = p.maxSize ∧
      (poolAllocatorFreeAll p).unitSize = p.unitSize ∧
      (poolAllocatorFreeAll p).memory = p.memory ∧
      (poolAllocatorFreeAll p).bytes = p.bytes ∧
      (poolAllocatorFreeAll p).ownsMemory = p.ownsMemory) ∧
    (q.size = 0 → q.unused = q.maxSize → q.nextFree = 0 →
      1 ≤ q.unitSize → 0 < q.memory → q.memory + 4294967296 ≤ 18446744073709551616 →
      q.maxSize * q.unitSize < 4294967296 → 1 ≤ k → k ≤ q.maxSize →
      (poolAllocatorAlloc fresh (allocRepeat fresh q (k - 1))).2 = k - 1 ∧
      (allocRepeat fresh q k).size = k ∧
      (allocRepeat fresh q k).unused = q.maxSize - k) := by
  refine ⟨⟨rfl, rfl, rfl, rfl, rfl, ?_⟩, ⟨rfl, rfl, rfl, rfl, rfl, rfl, rfl, rfl⟩, ?_⟩
  · show (if memory.addr ≠ 0 then false else true) = true ↔ memory.addr = 0
    by_cases h : memory.addr = 0
    · simp [h]
    · simp [h]
  · intro hs hu hnf hus hmp hmh hcap hk1 hk2
    obtain ⟨_, e2⟩ := allocRepeat_carve fresh q hnf hs hu hus hmp hmh hcap (k - 1) (by omega)
    have e3 : allocRepeat fresh q k = (poolAllocatorAlloc fresh (allocRepeat fresh q (k - 1))).1 := by
      obtain ⟨j, rfl⟩ : ∃ j, k = j + 1 := ⟨k - 1, by omega⟩
      rfl
    rw [e3, e2]
    have : k - 1 + 1 = k := by omega
    rw [this]
    exact ⟨rfl, rfl, rfl⟩

/-- Witness of C18 (amended): the third allocation from the pool that `terrain_init` creates for the
chunk data returns the handle 2. -/
theorem fresh_pool_carving_witness :
    (poolAllocatorAlloc (sampleBlock 4294967296) (allocRepeat (sampleBlock 4294967296)
      (poolAllocatorCreate (sampleBlock 1048576) 65536 512 (sampleBlock 0)) (3 - 1))).2 = 3 - 1 ∧
    (allocRepeat (sampleBlock 4294967296)
      (poolAllocatorCreate (sampleBlock 1048576) 65536 512 (sampleBlock 0)) 3).size = 3 ∧
    (allocRepeat (sampleBlock 4294967296)
      (poolAllocatorCreate (sampleBlock 1048576) 65536 512 (sampleBlock 0)) 3).unused =
      (poolAllocatorCreate (sampleBlock 1048576) 65536 512 (sampleBlock 0)).maxSize - 3 :=
  (fresh_pool_carving (sampleBlock 4294967296) (sampleBlock 0) 0 0
    (poolAllocatorCreate (sampleBlock 1048576) 65536 512 (sampleBlock 0))
    (poolAllocatorCreate (sampleBlock 1048576) 65536 512 (sampleBlock 0)) 3).2.2
    (by decide) (by decide) (by decide) (by decide) (by decide) (by decide) (by decide)
    (by decide) (by decide)

/-- C18, counterexample.  The pool created with capacity 3 and a unit size of `2^31` bytes
has `maxSize == 3`, and its third consecutive `poolAllocatorAlloc` returns the handle 0, not
2: the byte offset `2 * 2^31` of the third unit wraps to 0 in 32 bits. -/
theorem fresh_pool_carving_wraps :
    (poolAllocatorCreate (sampleBlock 4294967296) 3 2147483648 (sampleBlock 0)).maxSize = 3 ∧
    (poolAllocatorAlloc (sampleBlock 4294967296) (allocRepeat (sampleBlock 4294967296)
      (poolAllocatorCreate (sampleBlock 4294967296) 3 2147483648 (sampleBlock 0)) (3 - 1))).2
      = 0 := by
  constructor <;> decide

/-! ## Property C16: handles returned by the pool allocator -/

theorem poolAllocatorCreate_consistent (fresh memory : Block) (c us : Nat) (hf : fresh.ok)
    (hm : memory.addr = 0 ∨ memory.ok) (hc : 1 ≤ c) (h8 : 8 ≤ us)
    (hcap : c * us < 4294967296) :
    PoolOK (poolAllocatorCreate fresh c us memory) [] [] := by
  unfold poolAllocatorCreate poolAllocatorFreeAll
  by_cases h0 : memory.addr = 0
  · simp only [h0, ne_eq, not_true_eq_false, if_false]
    exact
      { unit_ge := h8, mem_pos := hf.1, mem_hi := hf.2, max_pos := hc,
        unused_le := le_refl _, cap := hcap, size_eq := rfl, nodup := List.nodup_nil,
        carved := fun a => by
          show a ∈ [] ↔ a < c - c
          simp,
        chain := rfl }
  · have hok : memory.ok := hm.resolve_left h0
    simp only [ne_eq, h0, not_false_eq_true, if_true]
    exact
      { unit_ge := h8, mem_pos := hok.1, mem_hi := hok.2, max_pos := hc,
        unused_le := le_refl _, cap := hcap, size_eq := rfl, nodup := List.nodup_nil,
        carved := fun a => by
          show a ∈ [] ↔ a < c - c
          simp,
        chain := rfl }

theorem allocPtr_exhausted (fresh : Block) (p : PoolAllocator) (hnf : p.nextFree = 0)
    (hu : p.unused = 0) (hown : p.ownsMemory ≠ true) : (poolAllocatorAllocPtr fresh p).2 = 0 := by
  unfold poolAllocatorAllocPtr
  rw [if_neg (not_not.mpr hnf), if_neg (by omega), if_neg hown]

theorem alloc_grow_maxSize (fresh : Block) (p : PoolAllocator) (hnf : p.nextFree = 0)
    (hu : p.unused = 0) (hown : p.ownsMemory = true) :
    (poolAllocatorAlloc fresh p).1.maxSize = u32 (p.maxSize * 2) ∧
    (poolAllocatorAlloc fresh p).1.unitSize = p.unitSize := by
  unfold poolAllocatorAlloc poolAllocatorAllocPtr
  rw [if_neg (not_not.mpr hnf), if_neg (by omega), if_pos hown]
  exact ⟨rfl, rfl⟩

/-- Effect of a `poolAllocatorAlloc` that returns a unit on a consistent pool whose buffer
stays within 32 bit offsets. -/
theorem PoolOK.alloc_success {p : PoolAllocator} {live fl : List Nat} (h : PoolOK p live fl)
    (fresh : Block) (hfresh : fresh.ok) (hs : (poolAllocatorAllocPtr fresh p).2 ≠ 0)
    (hroom : (poolAllocatorAlloc fresh p).1.maxSize * (poolAllocatorAlloc fresh p).1.unitSize
      < 4294967296) :
    (poolAllocatorAlloc fresh p).2 ∉ live ∧
    (poolAllocatorAlloc fresh p).2 < (poolAllocatorAlloc fresh p).1.maxSize ∧
    PoolOK (poolAllocatorAlloc fresh p).1 ((poolAllocatorAlloc fresh p).2 :: live) fl.tail := by
  have hus := h.unit_ge
  have hcap := h.cap
  have hmh := h.mem_hi
  have hmp := h.mem_pos
  have hlen := h.length_add
  have hll := h.length_lt
  have key : ∀ q : PoolAllocator × Nat, q.2 ∉ live → PoolOK q.1 (q.2 :: live) fl.tail →
      q.2 ∉ live ∧ q.2 < q.1.maxSize ∧ PoolOK q.1 (q.2 :: live) fl.tail :=
    fun q h1 h2 => ⟨h1, h2.lt_max (by simp), h2⟩
  cases fl with
  | cons a rest =>
    obtain ⟨hc1, hc2⟩ := h.chain
    have ha : a < p.maxSize := h.lt_max (by simp)
    have hoff := unit_end_le p.unitSize _ _ ha
    rw [alloc_eq_pop p fresh a live.length hc1 hmp hmh (by omega) (by omega) h.size_eq hll]
    have hperm : ((a :: live) ++ rest).Perm (live ++ a :: rest) :=
      List.perm_middle.symm
    have hna : a ∉ live := by
      intro hl
      exact (List.nodup_append.mp h.nodup).2.2 hl (List.mem_cons_self _ _)
    apply key _ hna
    exact
      { unit_ge := h.unit_ge, mem_pos := h.mem_pos, mem_hi := h.mem_hi, max_pos := h.max_pos,
        unused_le := h.unused_le, cap := h.cap, size_eq := rfl,
        nodup := hperm.nodup_iff.mpr h.nodup,
        carved := fun b => (hperm.mem_iff).trans (h.carved b),
        chain := hc2 }
  | nil =>
    have hnf : p.nextFree = 0 := h.chain
    have hlive : live.length = p.maxSize - p.unused := by
      rw [← hlen]; rfl
    have hmem : ∀ b, b ∈ live ↔ b < p.maxSize - p.unused := by
      intro b
      have := h.carved b
      rwa [List.append_nil] at this
    have hnd : live.Nodup := by
      have := h.nodup
      rwa [List.append_nil] at this
    have hul := h.unused_le
    by_cases hu : p.unused > 0
    · rw [alloc_eq_carve p fresh live.length hnf hmh hmp (by omega) hu hul hcap h.size_eq hll]
      have hna : p.maxSize - p.unused ∉ live := by
        intro hl
        have := (hmem _).mp hl
        omega
      apply key _ hna
      exact
        { unit_ge := h.unit_ge, mem_pos := h.mem_pos, mem_hi := h.mem_hi, max_pos := h.max_pos,
          unused_le := Nat.le_trans (Nat.sub_le _ _) hul,
          cap := h.cap, size_eq := rfl,
          nodup := (List.append_nil _).symm ▸ List.nodup_cons.mpr ⟨hna, hnd⟩,
          carved := fun b => by
            show b ∈ ((p.maxSize - p.unused) :: live) ++ [] ↔ b < p.maxSize - (p.unused - 1)
            rw [List.append_nil, List.mem_cons, hmem b]
            omega,
          chain := hnf }
    · have hu0 : p.unused = 0 := by omega
      have hown : p.ownsMemory = true := by
        by_contra hne
        exact hs (allocPtr_exhausted fresh p hnf hu0 hne)
      have hmax : p.maxSize * 8 ≤ p.maxSize * p.unitSize := Nat.mul_le_mul_left _ hus
      have e2 : u32 (p.maxSize * 2) = p.maxSize * 2 := by unfold u32; omega
      obtain ⟨g1, g2⟩ := alloc_grow_maxSize fresh p hnf hu0 hown
      rw [g1, g2, e2] at hroom
      have hr2 : 2 * live.length * p.unitSize < 4294967296 := by
        rw [hlive, hu0, Nat.sub_zero, Nat.mul_comm 2 p.maxSize]
        exact hroom
      obtain ⟨_, a2, a3, _⟩ := h.alloc fresh hfresh hown hr2
      exact key _ a2 a3

theorem PoolRun.consistent {p : PoolAllocator} {live : List Nat} (hr : PoolRun p live) :
    ∃ fl, PoolOK p live fl := by
  induction hr with
  | create fresh memory c us hf hm hc h8 hcap =>
    exact ⟨[], poolAllocatorCreate_consistent fresh memory c us hf hm hc h8 hcap⟩
  | alloc p live fresh _ hf hs hroom ih =>
    obtain ⟨fl, hok⟩ := ih
    exact ⟨fl.tail, (hok.alloc_success fresh hf hs hroom).2.2⟩
  | dealloc p live h _ hh ih =>
    obtain ⟨fl, hok⟩ := ih
    exact ⟨h :: fl, hok.dealloc hh⟩

/-- C16, as amended.  For every pool created by `poolAllocatorCreate` with a capacity of at
least 1 and a unit size of at least 8 bytes, whose buffer stays below `2^32` bytes, and then
driven by any sequence of `poolAllocatorAlloc` calls and of `poolAllocatorDealloc` calls on
handles in use: every handle returned by a `poolAllocatorAlloc` that does not fail is below
the `maxSize` in force when it is returned and differs from every handle in use at that
moment. -/
theorem alloc_handle_valid (p : PoolAllocator) (live : List Nat) (fresh : Block)
    (hr : PoolRun p live) (hfresh : fresh.ok) (hs : (poolAllocatorAllocPtr fresh p).2 ≠ 0)
    (hroom : (poolAllocatorAlloc fresh p).1.maxSize * (poolAllocatorAlloc fresh p).1.unitSize
      < 4294967296) :
    (poolAllocatorAlloc fresh p).2 < (poolAllocatorAlloc fresh p).1.maxSize ∧
    (poolAllocatorAlloc fresh p).2 ∉ live := by
  obtain ⟨fl, hok⟩ := hr.consistent
  obtain ⟨h1, h2, _⟩ := hok.alloc_success fresh hfresh hs hroom
  exact ⟨h2, h1⟩

/-- Witness of C16 (amended): the first allocation from a pool of 65536 units of 512 bytes. -/
theorem alloc_handle_valid_witness :
    PoolRun (poolAllocatorCreate (sampleBlock 1048576) 65536 512 (sampleBlock 0)) [] ∧
    (poolAllocatorAlloc (sampleBlock 4294967296)
      (poolAllocatorCreate (sampleBlock 1048576) 65536 512 (sampleBlock 0))).2 <
    (poolAllocatorAlloc (sampleBlock 4294967296)
      (poolAllocatorCreate (sampleBlock 1048576) 65536 512 (sampleBlock 0))).1.maxSize ∧
    (poolAllocatorAlloc (sampleBlock 4294967296)
      (poolAllocatorCreate (sampleBlock 1048576) 65536 512 (sampleBlock 0))).2 ∉ [] :=
  have hr : PoolRun (poolAllocatorCreate (sampleBlock 1048576) 65536 512 (sampleBlock 0)) [] :=
    PoolRun.create _ _ _ _ ⟨by decide, by decide⟩ (Or.inl rfl) (by decide) (by decide)
      (by decide)
  ⟨hr, alloc_handle_valid _ _ (sampleBlock 4294967296) hr ⟨by decide, by decide⟩ (by decide)
    (by decide)⟩

/-- C16, counterexample.  Three pools driven by `poolAllocatorAlloc` and by
`poolAllocatorDealloc` on handles in use.  With capacity 0 the first allocation returns the
handle 0 while `maxSize` is 0.  With capacity 3 and a unit size of `2^31` bytes the third
allocation returns the handle 0, which is in use.  With capacity 8 and a unit size of 4
bytes, in a buffer of 32 bytes at address `2^32`: four allocations return the handles 0, 1, 2
and 3; the handles 3, 2 and 1 are deallocated, each 8-byte link overwriting the low half of
the link stored before it; the next two allocations return 1 and 2; the free list then
stands at the address `2^32 + 1`, inside the unit 0, and the third allocation returns the
handle 0, which has been in use since the first allocation.  Every address the free list
passes through (`2^32 + 4`, `2^32 + 8`, `2^32 + 1`) lies in the buffer, and none of these
allocations failed. -/
theorem alloc_handle_invalid :
    ((poolAllocatorAllocPtr (sampleBlock 4294967296)
        (poolAllocatorCreate (sampleBlock 4294967296) 0 512 (sampleBlock 0))).2 ≠ 0 ∧
      (poolAllocatorAlloc (sampleBlock 4294967296)
        (poolAllocatorCreate (sampleBlock 4294967296) 0 512 (sampleBlock 0))).2 = 0 ∧
      (poolAllocatorAlloc (sampleBlock 4294967296)
        (poolAllocatorCreate (sampleBlock 4294967296) 0 512 (sampleBlock 0))).1.maxSize = 0) ∧
    ((poolAllocatorAlloc (sampleBlock 4294967296)
        (poolAllocatorCreate (sampleBlock 4294967296) 3 2147483648 (sampleBlock 0))).2 = 0 ∧
      (poolAllocatorAlloc (sampleBlock 4294967296) (allocRepeat (sampleBlock 4294967296)
        (poolAllocatorCreate (sampleBlock 4294967296) 3 2147483648 (sampleBlock 0)) 1)).2 = 1 ∧
      (poolAllocatorAllocPtr (sampleBlock 4294967296) (allocRepeat (sampleBlock 4294967296)
        (poolAllocatorCreate (sampleBlock 4294967296) 3 2147483648 (sampleBlock 0)) 2)).2 ≠ 0 ∧
      (poolAllocatorAlloc (sampleBlock 4294967296) (allocRepeat (sampleBlock 4294967296)
        (poolAllocatorCreate (sampleBlock 4294967296) 3 2147483648 (sampleBlock 0)) 2)).2 = 0) ∧
    ((poolAllocatorAlloc (sampleBlock 4294967296)
        (poolAllocatorCreate (sampleBlock 4294967296) 8 4 (sampleBlock 0))).2 = 0 ∧
      (poolAllocatorAlloc (sampleBlock 4294967296) (allocRepeat (sampleBlock 4294967296)
        (poolAllocatorCreate (sampleBlock 4294967296) 8 4 (sampleBlock 0)) 1)).2 = 1 ∧
      (poolAllocatorAlloc (sampleBlock 4294967296) (allocRepeat (sampleBlock 4294967296)
        (poolAllocatorCreate (sampleBlock 4294967296) 8 4 (sampleBlock 0)) 2)).2 = 2 ∧
      (poolAllocatorAlloc (sampleBlock 4294967296) (allocRepeat (sampleBlock 4294967296)
        (poolAllocatorCreate (sampleBlock 4294967296) 8 4 (sampleBlock 0)) 3)).2 = 3 ∧
      (poolAllocatorAllocPtr (sampleBlock 4294967296)
        (poolAllocatorDealloc (poolAllocatorDealloc (poolAllocatorDealloc
          (allocRepeat (sampleBlock 4294967296)
            (poolAllocatorCreate (sampleBlock 4294967296) 8 4 (sampleBlock 0)) 4) 3) 2) 1)).2
        = 4294967300 ∧
      (poolAllocatorAlloc (sampleBlock 4294967296)
        (poolAllocatorDealloc (poolAllocatorDealloc (poolAllocatorDealloc
          (allocRepeat (sampleBlock 4294967296)
            (poolAllocatorCreate (sampleBlock 4294967296) 8 4 (sampleBlock 0)) 4) 3) 2) 1)).2
        = 1 ∧
      (poolAllocatorAllocPtr (sampleBlock 4294967296) (allocRepeat (sampleBlock 4294967296)
        (poolAllocatorDealloc (poolAllocatorDealloc (poolAllocatorDealloc
          (allocRepeat (sampleBlock 4294967296)
            (poolAllocatorCreate (sampleBlock 4294967296) 8 4 (sampleBlock 0)) 4) 3) 2) 1) 1)).2
        = 4294967304 ∧
      (poolAllocatorAlloc (sampleBlock 4294967296) (allocRepeat (sampleBlock 4294967296)
        (poolAllocatorDealloc (poolAllocatorDealloc (poolAllocatorDealloc
          (allocRepeat (sampleBlock 4294967296)
            (poolAllocatorCreate (sampleBlock 4294967296) 8 4 (sampleBlock 0)) 4) 3) 2) 1) 1)).2
        = 2 ∧
      (poolAllocatorAllocPtr (sampleBlock 4294967296) (allocRepeat (sampleBlock 4294967296)
        (poolAllocatorDealloc (poolAllocatorDealloc (poolAllocatorDealloc
          (allocRepeat (sampleBlock 4294967296)
            (poolAllocatorCreate (sampleBlock 4294967296) 8 4 (sampleBlock 0)) 4) 3) 2) 1) 2)).2
        = 4294967297 ∧
      (poolAllocatorAlloc (sampleBlock 4294967296) (allocRepeat (sampleBlock 4294967296)
        (poolAllocatorDealloc (poolAllocatorDealloc (poolAllocatorDealloc
          (allocRepeat (sampleBlock 4294967296)
            (poolAllocatorCreate (sampleBlock 4294967296) 8 4 (sampleBlock 0)) 4) 3) 2) 1) 2)).2
        = 0 ∧
      (poolAllocatorAlloc (sampleBlock 4294967296) (allocRepeat (sampleBlock 4294967296)
        (poolAllocatorDealloc (poolAllocatorDealloc (poolAllocatorDealloc
          (allocRepeat (sampleBlock 4294967296)
            (poolAllocatorCreate (sampleBlock 4294967296) 8 4 (sampleBlock 0)) 4) 3) 2) 1)
              2)).1.maxSize = 8) := by
  refine ⟨⟨?_, ?_, ?_⟩, ⟨?_, ?_, ?_, ?_⟩, ⟨?_, ?_, ?_, ?_, ?_, ?_, ?_, ?_, ?_, ?_, ?_⟩⟩ <;>
    decide

/-! ## Properties C19 and C20: the occupancy bitmask and expansion -/

set_option maxRecDepth 8000 in
theorem setThenCleared_reachable : Reachable false setThenCleared :=
  ⟨_, Run.step _ _ _ _ 2 0 0 0
    (Run.step _ _ _ _ 2 0 0 7
      (Run.step _ _ _ _ 1 0 0 5
        (Run.init sampleBlocks 64 64 (by decide) (by decide) (by decide) (by decide)
          ⟨by decide, by decide⟩ ⟨by decide, by decide⟩)
        ⟨by decide, by decide⟩ ⟨by decide, by decide⟩ (by decide) (by decide) (by decide)
        (by decide))
      ⟨by decide, by decide⟩ ⟨by decide, by decide⟩ (by decide) (by decide) (by decide)
      (by decide))
    ⟨by decide, by decide⟩ ⟨by decide, by decide⟩ (by decide) (by decide) (by decide)
    (by decide)⟩

set_option maxRecDepth 8000 in
/-- C19, evaluated at the failing input.  On the empty 64 x 64 terrain, after
`terrain_setBlock(1, 0, 0, 5)`, `terrain_setBlock(2, 0, 0, 7)` and
`terrain_setBlock(2, 0, 0, 0)` the chunk at the origin is expanded with pool index 0, byte
128 of its `chunkPool` unit (the voxel `(2, 0, 0)`) is 0, and the bit of that voxel in its
`chunkBitmaskPool` unit is still 1. -/
theorem bitmask_bit_not_cleared :
    Reachable false setThenCleared ∧
    setThenCleared.topLevelArray (getChunkIdx 2 0 0 64 64) = 2147483648 ∧
    getWithinChunkIdx 2 0 0 = 128 ∧
    blockByte setThenCleared 0 128 = 0 ∧
    maskBit setThenCleared 0 128 = true := by
  refine ⟨setThenCleared_reachable, ?_, ?_, ?_, ?_⟩ <;> decide

set_option maxRecDepth 8000 in
/-- C20, evaluated at the failing inputs.  On the empty 64 x 64 terrain,
`terrain_setBlock(0, 0, 0, 5)` stores the entry `(0b10 << 30) | 0` and leaves byte 0 of unit 0
of `chunkPool` (the voxel just set) at 0, not 5.  On the empty 64 x 64 terrain whose pool
memory holds `0xFF` bytes before it is written, `terrain_setBlock(1, 0, 0, 5)` stores the
entry `(0b10 << 30) | 0` and leaves the bit of the voxel `(0, 0, 0)` in unit 0 of
`chunkBitmaskPool` at 1, although the chunk was empty. -/
theorem expansion_units_not_initialised :
    ((terrain_setBlock false (sampleBlock 4294967296) (sampleBlock 8589934592)
        (emptyTerrain sampleBlocks 64 64) 0 0 0 5).topLevelArray (getChunkIdx 0 0 0 64 64)
        = 2147483648 ∧
      getWithinChunkIdx 0 0 0 = 0 ∧
      blockByte (terrain_setBlock false (sampleBlock 4294967296) (sampleBlock 8589934592)
        (emptyTerrain sampleBlocks 64 64) 0 0 0 5) 0 0 = 0) ∧
    ((terrain_setBlock false (sampleBlock 4294967296) (sampleBlock 8589934592)
        (emptyTerrain staleBlocks 64 64) 1 0 0 5).topLevelArray (getChunkIdx 1 0 0 64 64)
        = 2147483648 ∧
      getWithinChunkIdx 1 0 0 = 64 ∧
      maskBit (terrain_setBlock false (sampleBlock 4294967296) (sampleBlock 8589934592)
        (emptyTerrain staleBlocks 64 64) 1 0 0 5) 0 0 = true) := by
  refine ⟨⟨?_, ?_, ?_⟩, ⟨?_, ?_, ?_⟩⟩ <;> decide

/-! ## Properties C22, C23, C24 and C30 -/

set_option maxRecDepth 8000 in
/-- C22, evaluated at the failing input.  On the empty 64 x 64 terrain, after
`terrain_setBlock(0, 0, 0, 5)` (a reachable state) the entry of the chunk at the origin has
tag `10` with pool index 0, and all 512 block bytes of its `chunkPool` unit are 0: the chunk
holds one value at every voxel and is not stored collapsed. -/
theorem expanded_chunk_stays_all_zero :
    Reachable false (terrain_setBlock false (sampleBlock 4294967296) (sampleBlock 8589934592)
      (emptyTerrain sampleBlocks 64 64) 0 0 0 5) ∧
    (terrain_setBlock false (sampleBlock 4294967296) (sampleBlock 8589934592)
      (emptyTerrain sampleBlocks 64 64) 0 0 0 5).topLevelArray (getChunkIdx 0 0 0 64 64)
      = 2147483648 ∧
    (∀ j, j < 512 → blockByte (terrain_setBlock false (sampleBlock 4294967296)
      (sampleBlock 8589934592) (emptyTerrain sampleBlocks 64 64) 0 0 0 5) 0 j = 0) ∧
    (terrain_setBlock false (sampleBlock 4294967296) (sampleBlock 8589934592)
      (emptyTerrain sampleBlocks 64 64) 0 0 0 5).chunkPool.size = 1 := by
  refine ⟨⟨_, sample_run⟩, ?_, ?_, ?_⟩ <;> decide

/-- C23.  With `DEBUG_MODE` defined, for every terrain and every `(x, y, z)` with
`x >= width`, `z >= width` or `y >= height`: `terrain_getBlock` returns 0 and
`terrain_setBlock` returns the terrain unchanged, and both do so whatever `topLevelArray`
holds (it is neither read nor written). -/
theorem debug_out_of_bounds (fresh₁ fresh₂ : Block) (t : Terrain) (x y z value : Nat)
    (a : Nat → Nat) (h : x ≥ t.width ∨ z ≥ t.width ∨ y ≥ t.height) :
    terrain_getBlock true t x y z = 0 ∧
    terrain_setBlock true fresh₁ fresh₂ t x y z value = t ∧
    terrain_getBlock true { t with topLevelArray := a } x y z = 0 ∧
    terrain_setBlock true fresh₁ fresh₂ { t with topLevelArray := a } x y z value =
      { t with topLevelArray := a } := by
  have ho : ∀ a' : Nat → Nat,
      (true && outOfBounds { t with topLevelArray := a' } x y z) = true := by
    intro a'
    unfold outOfBounds
    simp only [Bool.true_and, Bool.or_eq_true, decide_eq_true_eq]
    rcases h with h | h | h
    · exact Or.inl (Or.inl h)
    · exact Or.inl (Or.inr h)
    · exact Or.inr h
  have ht : (true && outOfBounds t x y z) = true := ho t.topLevelArray
  refine ⟨?_, ?_, ?_, ?_⟩
  · unfold terrain_getBlock
    rw [if_pos ht]
  · unfold terrain_setBlock
    rw [if_pos ht]
  · unfold terrain_getBlock
    rw [if_pos (ho a)]
  · unfold terrain_setBlock
    rw [if_pos (ho a)]

/-- Witness of C23 on the empty 64 x 64 terrain at `(64, 0, 0)`. -/
theorem debug_out_of_bounds_witness :
    terrain_getBlock true (emptyTerrain sampleBlocks 64 64) 64 0 0 = 0 ∧
    terrain_setBlock true (sampleBlock 4294967296) (sampleBlock 8589934592)
      (emptyTerrain sampleBlocks 64 64) 64 0 0 5 = emptyTerrain sampleBlocks 64 64 :=
  have w := debug_out_of_bounds (sampleBlock 4294967296) (sampleBlock 8589934592)
    (emptyTerrain sampleBlocks 64 64) 64 0 0 5 (fun _ => 0) (Or.inl (by decide))
  ⟨w.1, w.2.1⟩

/-- C24, as amended.  `poolAllocatorDestroy` leaves `memory`, the memory content, `size`,
`unused`, the free list head, `unitSize` and `ownsMemory` of every pool as they were and sets
`maxSize` to 0, also for a pool over an externally supplied buffer. -/
theorem poolAllocatorDestroy_effect (p : PoolAllocator) :
    (poolAllocatorDestroy p).memory = p.memory ∧
    (poolAllocatorDestroy p).bytes = p.bytes ∧
    (poolAllocatorDestroy p).size = p.size ∧
    (poolAllocatorDestroy p).unused = p.unused ∧
    (poolAllocatorDestroy p).nextFree = p.nextFree ∧
    (poolAllocatorDestroy p).unitSize = p.unitSize ∧
    (poolAllocatorDestroy p).ownsMemory = p.ownsMemory ∧
    (poolAllocatorDestroy p).maxSize = 0 :=
  ⟨rfl, rfl, rfl, rfl, rfl, rfl, rfl, rfl⟩

/-- C24, counterexample.  The pool created over an external buffer with capacity 2 does not
own its memory and has `maxSize == 2`; after `poolAllocatorDestroy` its `maxSize` is 0. -/
theorem poolAllocatorDestroy_resets_maxSize :
    (poolAllocatorCreate (sampleBlock 0) 2 512 (sampleBlock 1048576)).ownsMemory = false ∧
    (poolAllocatorCreate (sampleBlock 0) 2 512 (sampleBlock 1048576)).maxSize = 2 ∧
    (poolAllocatorDestroy
      (poolAllocatorCreate (sampleBlock 0) 2 512 (sampleBlock 1048576))).maxSize = 0 := by
  refine ⟨?_, ?_, ?_⟩ <;> decide

/-- C30.  The pool created over an external buffer with capacity 1: its first
`poolAllocatorAlloc` gets a unit (`poolAllocatorAllocPtr` is not `NULL`) and returns the
handle 0, with `size` going from 0 to 1; its second `poolAllocatorAlloc` fails
(`poolAllocatorAllocPtr` is `NULL`) and returns 0 as well, with `size` still 1. -/
theorem alloc_failure_value_not_distinct :
    (poolAllocatorCreate (sampleBlock 0) 1 512 (sampleBlock 1048576)).ownsMemory = false ∧
    (poolAllocatorCreate (sampleBlock 0) 1 512 (sampleBlock 1048576)).size = 0 ∧
    (poolAllocatorAllocPtr (sampleBlock 4294967296)
      (poolAllocatorCreate (sampleBlock 0) 1 512 (sampleBlock 1048576))).2 ≠ 0 ∧
    (poolAllocatorAlloc (sampleBlock 4294967296)
      (poolAllocatorCreate (sampleBlock 0) 1 512 (sampleBlock 1048576))).2 = 0 ∧
    (poolAllocatorAlloc (sampleBlock 4294967296)
      (poolAllocatorCreate (sampleBlock 0) 1 512 (sampleBlock 1048576))).1.size = 1 ∧
    (poolAllocatorAllocPtr (sampleBlock 4294967296) (poolAllocatorAlloc (sampleBlock 4294967296)
      (poolAllocatorCreate (sampleBlock 0) 1 512 (sampleBlock 1048576))).1).2 = 0 ∧
    (poolAllocatorAlloc (sampleBlock 4294967296) (poolAllocatorAlloc (sampleBlock 4294967296)
      (poolAllocatorCreate (sampleBlock 0) 1 512 (sampleBlock 1048576))).1).2 = 0 ∧
    (poolAllocatorAlloc (sampleBlock 4294967296) (poolAllocatorAlloc (sampleBlock 4294967296)
      (poolAllocatorCreate (sampleBlock 0) 1 512 (sampleBlock 1048576))).1).1.size = 1 := by
  refine ⟨?_, ?_, ?_, ?_, ?_, ?_, ?_, ?_⟩ <;> decide

/-! ## Property C29: the function setBit -/

theorem complement_testBit (m i : Nat) (hm : m < 4294967296) :
    (4294967295 - m).testBit i = (decide (i < 32) && !m.testBit i) := by
  have e : 4294967295 - m = 2 ^ 32 - (m + 1) := by norm_num; omega
  rw [e]
  exact Nat.testBit_two_pow_sub_succ (by norm_num; exact hm) i

theorem word_testBit_high (w i : Nat) (hw : w < 4294967296) (hi : ¬ i < 32) :
    w.testBit i = false := by
  have h1 : w < 2 ^ 32 := by norm_num; exact hw
  have h2 : 2 ^ 32 ≤ 2 ^ i := Nat.pow_le_pow_right (by decide) (by omega)
  exact Nat.testBit_lt_two_pow (Nat.lt_of_lt_of_le h1 h2)

theorem setBit_false (w idx : Nat) (hw : w < 4294967296) : setBit w idx false = w := by
  unfold setBit
  simp only [Bool.false_eq_true, if_false, Nat.zero_shiftLeft]
  have e0 : u32 0 = 0 := rfl
  rw [e0, Nat.or_zero]
  apply Nat.eq_of_testBit_eq
  intro i
  rw [Nat.testBit_and, complement_testBit 0 i (by decide)]
  by_cases hi : i < 32
  · simp [hi]
  · simp [word_testBit_high w i hw hi]

theorem setBit_true (w idx : Nat) (hw : w < 4294967296) (hi : idx < 32) :
    setBit w idx true = w ||| (1 <<< (31 - idx)) := by
  have hs : sub32 31 idx = 31 - idx := by unfold sub32 u32; omega
  have hlt : 1 <<< (31 - idx) < 4294967296 := by
    rw [Nat.shiftLeft_eq, Nat.one_mul]
    calc 2 ^ (31 - idx) ≤ 2 ^ 31 := Nat.pow_le_pow_right (by decide) (by omega)
      _ < 4294967296 := by norm_num
  have hm : u32 (1 <<< (31 - idx)) = 1 <<< (31 - idx) := Nat.mod_eq_of_lt hlt
  unfold setBit
  simp only [if_true]
  rw [hs, hm]
  apply Nat.eq_of_testBit_eq
  intro i
  rw [Nat.testBit_or, Nat.testBit_or, Nat.testBit_and, complement_testBit _ i hlt]
  by_cases hb : (1 <<< (31 - idx)).testBit i = true
  · simp [hb]
  · have hb' : (1 <<< (31 - idx)).testBit i = false := by simpa using hb
    rw [hb']
    simp only [Bool.not_false, Bool.and_true, Bool.or_false]
    by_cases h32 : i < 32
    · simp [h32]
    · simp [word_testBit_high w i hw h32]

theorem loadLE_lt (m : Bytes) (off k : Nat) : loadLE m off k < 256 ^ k := by
  induction k generalizing off with
  | zero => simp [loadLE]
  | succ k ih =>
    unfold loadLE
    have h1 : loadByte m off < 256 := Nat.mod_lt _ (by decide)
    have h2 := ih (off + 1)
    rw [Nat.pow_succ]
    omega

theorem load32_lt (m : Bytes) (off : Nat) : load32 m off < 4294967296 := by
  have := loadLE_lt m off 4
  norm_num at this
  exact this

theorem setBit_lt (w idx : Nat) (value : Bool) (hw : w < 4294967296) :
    setBit w idx value < 4294967296 := by
  unfold setBit
  simp only []
  have h1 : w &&& (4294967295 - u32 ((if value = true then 1 else 0) <<< sub32 31 idx))
      < 2 ^ 32 :=
    Nat.lt_of_le_of_lt Nat.and_le_left (by norm_num; exact hw)
  have h2 : u32 ((if value = true then 1 else 0) <<< sub32 31 idx) < 2 ^ 32 := by
    norm_num
    exact Nat.mod_lt _ (by decide)
  have := Nat.or_lt_two_pow h1 h2
  norm_num at this
  exact this

theorem setBitmaskBit_word (p : PoolAllocator) (ptr i v : Nat) :
    load32 (setBitmaskBit p ptr i v).bytes (ptrOffset p.memory ptr + 4 * (i / 32)) =
      setBit (load32 p.bytes (ptrOffset p.memory ptr + 4 * (i / 32))) (i % 32)
        (decide (v ≠ 0)) := by
  unfold setBitmaskBit
  simp only []
  unfold load32 store32
  rw [loadLE_storeLE]
  have := setBit_lt (loadLE p.bytes (ptrOffset p.memory ptr + 4 * (i / 32)) 4) (i % 32)
    (decide (v ≠ 0)) (load32_lt _ _)
  have e : (256 : Nat) ^ 4 = 4294967296 := by norm_num
  rw [e]
  exact Nat.mod_eq_of_lt this

/-- C29.  For every 32 bit word `w`, every `idx` in 0..31 and every boolean `value`, the word
that `setBit(&w, idx, value)` leaves has every 1-bit of `w`; with `value` true it is
`w | (1 << (31 - idx))`, with `value` false it is `w`.  So the bitmask word that
`terrain_setBlock` updates for the voxel with within-chunk index `i` keeps every bit that was
set, whatever the value stored. -/
theorem setBit_never_clears (w idx : Nat) (value : Bool) (hw : w < 4294967296)
    (hidx : idx < 32) :
    (∀ i, w.testBit i = true → (setBit w idx value).testBit i = true) ∧
    (value = true → setBit w idx value = w ||| (1 <<< (31 - idx))) ∧
    (value = false → setBit w idx value = w) ∧
    (∀ (p : PoolAllocator) (ptr i v k : Nat),
      (load32 p.bytes (ptrOffset p.memory ptr + 4 * (i / 32))).testBit k = true →
      (load32 (setBitmaskBit p ptr i v).bytes
        (ptrOffset p.memory ptr + 4 * (i / 32))).testBit k = true) := by
  have key : ∀ (w' idx' : Nat) (b : Bool), w' < 4294967296 → idx' < 32 →
      ∀ i, w'.testBit i = true → (setBit w' idx' b).testBit i = true := by
    intro w' idx' b hw' hidx' i hi
    cases b with
    | false => rw [setBit_false w' idx' hw']; exact hi
    | true =>
      rw [setBit_true w' idx' hw' hidx', Nat.testBit_or, hi]
      rfl
  refine ⟨key w idx value hw hidx, ?_, ?_, ?_⟩
  · intro hv
    rw [hv]
    exact setBit_true w idx hw hidx
  · intro hv
    rw [hv]
    exact setBit_false w idx hw
  · intro p ptr i v k hk
    rw [setBitmaskBit_word]
    exact key _ _ _ (load32_lt _ _) (Nat.mod_lt _ (by decide)) k hk

/-- Witness of C29: the word `0x80000000` and `idx = 0`, with `value` false. -/
theorem setBit_never_clears_witness :
    (∀ i, (2147483648 : Nat).testBit i = true → (setBit 2147483648 0 false).testBit i = true) ∧
    (false = true → setBit 2147483648 0 false = 2147483648 ||| (1 <<< (31 - 0))) ∧
    (false = false → setBit 2147483648 0 false = 2147483648) :=
  have w := setBit_never_clears 2147483648 0 false (by decide) (by decide)
  ⟨w.1, w.2.1, w.2.2.1⟩

/-! ## Property C21: the two pools of a terrain stay aligned -/

theorem TerrainOK.entry_of_tag {t : Terrain} {live fl : List Nat} (ht : TerrainOK t live fl)
    {c : Nat} (hc : c < t.chunkCount) :
    (t.topLevelArray c >>> 30 = 0 → t.topLevelArray c = 0) ∧
    (t.topLevelArray c >>> 30 = 3 →
      ∃ v, 0 < v ∧ v < 256 ∧ t.topLevelArray c = 3221225472 + v) ∧
    (t.topLevelArray c >>> 30 = 2 → ∃ a, a ∈ live ∧ t.topLevelArray c = 2147483648 + a) ∧
    (t.topLevelArray c >>> 30 = 0 ∨ t.topLevelArray c >>> 30 = 3 ∨
      t.topLevelArray c >>> 30 = 2) := by
  rcases ht.entry c hc with h0 | ⟨v, hv0, hv, he⟩ | ⟨a, ha, he⟩
  · rw [h0]
    exact ⟨fun _ => rfl, fun h => absurd h (by decide), fun h => absurd h (by decide),
      Or.inl (by decide)⟩
  · have ht3 := tag_uniform v (by omega)
    rw [he, ht3]
    exact ⟨fun h => absurd h (by decide), fun _ => ⟨v, hv0, hv, rfl⟩,
      fun h => absurd h (by decide), Or.inr (Or.inl rfl)⟩
  · have := ht.handle_lt ha
    have ht2 := tag_expanded a (by omega)
    rw [he, ht2]
    exact ⟨fun h => absurd h (by decide), fun h => absurd h (by decide),
      fun _ => ⟨a, ha, rfl⟩, Or.inr (Or.inr rfl)⟩

theorem uniform_entry_or (c : Nat) (hc : c < 256) : 3221225472 ||| c = 3221225472 + c := by
  have h := entry_uniform c (by omega)
  have e : u32 (3 <<< 30) = 3221225472 := by decide
  rw [e, Nat.or_comm] at h
  exact h

theorem FitRun.run {D : Bool} {t : Terrain} {live : List Nat} (hr : FitRun D t live) :
    Run D t live := by
  induction hr with
  | init m w h hw hh hw32 hh32 hc hb => exact Run.init m w h hw hh hw32 hh32 hc hb
  | step t live f₁ f₂ x y z v _ h₁ h₂ hx hy hz hv _ ih =>
    exact Run.step t live f₁ f₂ x y z v ih h₁ h₂ hx hy hz hv

/-- On a terrain of at most `2^22` chunks every new handle is below `2^23`: every run is
one whose handles fit. -/
theorem Run.fit {D : Bool} {t : Terrain} {live : List Nat} (hr : Run D t live)
    (hc : t.width / 8 * (t.width / 8) * (t.height / 8) ≤ 4194304) : FitRun D t live := by
  induction hr with
  | init m w h hw hh hw32 hh32 hcb hb => exact FitRun.init m w h hw hh hw32 hh32 hcb hb
  | step t live f₁ f₂ x y z v hr h₁ h₂ hx hy hz hv ih =>
    obtain ⟨sw, sh, _⟩ := terrain_setBlock_shape D f₁ f₂ t x y z v
    rw [sw, sh] at hc
    refine FitRun.step t live f₁ f₂ x y z v (ih hc) h₁ h₂ hx hy hz hv ?_
    intro h2 _
    obtain ⟨fl, ht⟩ := hr.ok hc
    have hne : ∀ a, a ∈ live →
        t.topLevelArray (getChunkIdx x y z t.width t.height) ≠ 2147483648 + a := by
      intro a ha he
      have := ht.handle_lt ha
      exact h2 (by rw [he]; exact tag_expanded a (by omega))
    have hok := ht.setBlockExpand (ht.index_lt hx hy hz) hne f₁ f₂ h₁ h₂ 0 0 0 (by decide)
    have := hok.handle_lt (List.mem_cons_self _ _)
    omega

/-- Every run whose handles fit keeps the entries of the top level array in one of the
documented forms: a tag `11` entry has a payload in 1..255 and a tag `00` entry is 0. -/
theorem FitRun.entries {D : Bool} {t : Terrain} {live : List Nat} (hr : FitRun D t live) :
    ∀ i, i < t.chunkCount →
      (t.topLevelArray i >>> 30 = 3 →
        1 ≤ t.topLevelArray i % 1073741824 ∧ t.topLevelArray i % 1073741824 ≤ 255) ∧
      (t.topLevelArray i >>> 30 = 0 → t.topLevelArray i = 0) := by
  induction hr with
  | init m w h _ _ _ _ _ _ =>
    intro i hi
    rw [emptyTerrain_entry m w h i hi]
    exact ⟨fun h3 => absurd h3 (by decide), fun _ => rfl⟩
  | step t live f₁ f₂ x y z v _ _ _ hx hy hz hv hfit ih =>
    obtain ⟨_, _, sc⟩ := terrain_setBlock_shape D f₁ f₂ t x y z v
    have hi := getWithinChunkIdx_lt x y z
    have hb := boundsCheck_false D t x y z hx hy hz
    intro i hic
    rw [sc] at hic
    have key : ∀ e, ((e >>> 30 = 3 → 1 ≤ e % 1073741824 ∧ e % 1073741824 ≤ 255) ∧
        (e >>> 30 = 0 → e = 0)) →
        (terrain_setBlock D f₁ f₂ t x y z v).topLevelArray =
          Function.update t.topLevelArray (getChunkIdx x y z t.width t.height) e →
        ((terrain_setBlock D f₁ f₂ t x y z v).topLevelArray i >>> 30 = 3 →
          1 ≤ (terrain_setBlock D f₁ f₂ t x y z v).topLevelArray i % 1073741824 ∧
          (terrain_setBlock D f₁ f₂ t x y z v).topLevelArray i % 1073741824 ≤ 255) ∧
        ((terrain_setBlock D f₁ f₂ t x y z v).topLevelArray i >>> 30 = 0 →
          (terrain_setBlock D f₁ f₂ t x y z v).topLevelArray i = 0) := by
      intro e he hupd
      rw [hupd]
      by_cases hie : i = getChunkIdx x y z t.width t.height
      · rw [hie, Function.update_same]
        exact he
      · rw [Function.update_noteq hie]
        exact ih i hic
    by_cases hn : NoopCase t x y z v
    · have hn' := hn
      unfold NoopCase at hn'
      simp only [] at hn'
      have e1 : terrain_setBlock D f₁ f₂ t x y z v = t := by
        apply terrain_setBlock_noop
        rw [payload_eq_mod]
        exact hn'
      rw [e1]
      exact ih i hic
    · have hn0 : ¬ (t.topLevelArray (getChunkIdx x y z t.width t.height) >>> 30 = 0 ∧ v = 0) :=
        fun h0 => hn (Or.inl h0)
      have hn3 : ¬ (t.topLevelArray (getChunkIdx x y z t.width t.height) >>> 30 = 3 ∧
          v = u32 (t.topLevelArray (getChunkIdx x y z t.width t.height) <<< 2) >>> 2) := by
        intro h3
        rw [payload_eq_mod] at h3
        exact hn (Or.inr h3)
      by_cases h2 : t.topLevelArray (getChunkIdx x y z t.width t.height) >>> 30 = 2
      · have e1 := terrain_setBlock_expanded D f₁ f₂ t x y z v hb h2
        by_cases hu : nowUniform t
            (u32 (t.topLevelArray (getChunkIdx x y z t.width t.height) <<< 2) >>> 2)
            (getWithinChunkIdx x y z) v = true
        · have hcol := setBlockExpanded_entry t (getChunkIdx x y z t.width t.height) _ _ v hi
            hv hu
          rw [← e1] at hcol
          refine key _ ?_ hcol
          by_cases hv0 : v = 0
          · rw [if_neg (not_not.mpr hv0)]
            exact ⟨fun h3 => absurd h3 (by decide), fun _ => rfl⟩
          · rw [if_pos hv0]
            have ht3 := tag_uniform v (by omega)
            refine ⟨fun _ => ?_, fun h0 => ?_⟩
            · omega
            · rw [ht3] at h0
              exact absurd h0 (by decide)
        · have k1 : (terrain_setBlock D f₁ f₂ t x y z v).topLevelArray = t.topLevelArray := by
            rw [e1]; unfold setBlockExpanded; rw [if_neg hu]
          rw [k1]
          exact ih i hic
      · have hf := hfit h2 hn
        have e1 := terrain_setBlock_expand D f₁ f₂ t x y z v hb hn0 hn3 h2
        have hupd : (terrain_setBlock D f₁ f₂ t x y z v).topLevelArray =
            Function.update t.topLevelArray (getChunkIdx x y z t.width t.height)
              (2147483648 + (poolAllocatorAlloc f₁ t.chunkPool).2) := by
          rw [e1]
          unfold setBlockExpand
          simp only []
          rw [entry_expanded _ hf]
        refine key _ ?_ hupd
        have ht2 := tag_expanded _ hf
        rw [ht2]
        exact ⟨fun h3 => absurd h3 (by decide), fun h0 => absurd h0 (by decide)⟩

/-- Collapse and the forms of the entries beyond terrains of `2^22` chunks.  In any state,
when a `terrain_setBlock` with value `c` addresses an expanded chunk whose 511 other block
bytes all equal `c`: the entry becomes exactly 0 if `c == 0` and exactly `(0b11 << 30) | c`
otherwise, the pool index leaves the handles in use, its unit becomes the head of the free
list of both pools, and `size` of both pools is decremented (in `u32`).  In every state
reached from the initial terrain by `terrain_setBlock` calls with coordinates inside the
grid, on a terrain of any size, as long as every handle that an expansion gets from
`chunkPool` fits the 30 payload bits of an entry: every tag `11` entry has a payload in
1..255 and every tag `00` entry is exactly 0. -/
theorem collapse_when_handles_fit (D : Bool) (t : Terrain) (live : List Nat)
    (hr : FitRun D t live) :
    (∀ i, i < t.chunkCount →
      (t.topLevelArray i >>> 30 = 3 →
        1 ≤ t.topLevelArray i % 1073741824 ∧ t.topLevelArray i % 1073741824 ≤ 255) ∧
      (t.topLevelArray i >>> 30 = 0 → t.topLevelArray i = 0)) ∧
    ∀ (fresh₁ fresh₂ : Block) (x y z c : Nat), x < t.width → y < t.height → z < t.width →
      c < 256 → t.topLevelArray (getChunkIdx x y z t.width t.height) >>> 30 = 2 →
      (∀ j, j < 512 → j ≠ getWithinChunkIdx x y z →
        blockByte t (t.topLevelArray (getChunkIdx x y z t.width t.height) % 1073741824) j
          = c) →
      (terrain_setBlock D fresh₁ fresh₂ t x y z c).topLevelArray
          (getChunkIdx x y z t.width t.height) = (if c = 0 then 0 else 3221225472 ||| c) ∧
      liveAfter D fresh₁ t x y z c live =
        live.erase (t.topLevelArray (getChunkIdx x y z t.width t.height) % 1073741824) ∧
      (terrain_setBlock D fresh₁ fresh₂ t x y z c).chunkPool.nextFree =
        poolAllocatorGet t.chunkPool
          (t.topLevelArray (getChunkIdx x y z t.width t.height) % 1073741824) ∧
      (terrain_setBlock D fresh₁ fresh₂ t x y z c).chunkBitmaskPool.nextFree =
        poolAllocatorGet t.chunkBitmaskPool
          (t.topLevelArray (getChunkIdx x y z t.width t.height) % 1073741824) ∧
      (terrain_setBlock D fresh₁ fresh₂ t x y z c).chunkPool.size =
        sub32 t.chunkPool.size 1 ∧
      (terrain_setBlock D fresh₁ fresh₂ t x y z c).chunkBitmaskPool.size =
        sub32 t.chunkBitmaskPool.size 1 := by
  refine ⟨hr.entries, ?_⟩
  intro f₁ f₂ x y z c hx hy hz hcv htag hall
  have hi := getWithinChunkIdx_lt x y z
  have hb := boundsCheck_false D t x y z hx hy hz
  have hu : nowUniform t (t.topLevelArray (getChunkIdx x y z t.width t.height) % 1073741824)
      (getWithinChunkIdx x y z) c = true := by
    apply nowUniform_of_bytes
    intro j hj hne
    rw [hall j hj hne, u8_small c hcv]
  have hset := terrain_setBlock_expanded D f₁ f₂ t x y z c hb htag
  have hlive := liveAfter_expanded D f₁ t x y z c live hb htag
  rw [payload_eq_mod] at hset hlive
  rw [if_pos hu] at hlive
  have hcol := setBlockExpanded_entry t (getChunkIdx x y z t.width t.height) _ _ c hi hcv hu
  rw [hset]
  refine ⟨?_, hlive, ?_, ?_, ?_, ?_⟩
  · rw [hcol, Function.update_same]
    by_cases h0 : c = 0
    · rw [if_neg (not_not.mpr h0), if_pos h0]
    · rw [if_pos h0, if_neg h0, uniform_entry_or c hcv]
  all_goals
    unfold setBlockExpanded
    rw [if_pos hu]
    rfl

theorem setBlockExpanded_frame {t : Terrain} {live fl : List Nat} (ht : TerrainOK t live fl)
    {a b : Nat} (ha : a ∈ live) (hab : b ≠ a) (c i v j : Nat) (hi : i < 512)
    (hj : j < 512) :
    (setBlockExpanded t c a i v).chunkPool.bytes (b * 512 + j) =
      t.chunkPool.bytes (b * 512 + j) := by
  have halt := ht.handle_lt ha
  have hne : b * 512 + j ≠ a * 512 + i := unit_disjoint 512 b a j i hab hj hi
  have hout : b * 512 + j < a * 512 ∨ a * 512 + 8 ≤ b * 512 + j := by omega
  have hw := writtenPool_bytes ht ha i v
  unfold setBlockExpanded
  by_cases hu : nowUniform t a i v = true
  · rw [if_pos hu]
    simp only []
    have hus : (writtenPool t a i v).unitSize = 512 := ht.chunk_unit
    have hmem : (writtenPool t a i v).memory = t.chunkPool.memory := rfl
    rw [dealloc_eq (writtenPool t a i v) a (by rw [hmem]; exact ht.chunk_ok.mem_hi)
      (by rw [hus]; omega)]
    simp only []
    rw [hus, storeWord_outside _ _ _ _ hout, hw, storeByte_other _ _ _ _ hne]
  · rw [if_neg hu]
    simp only []
    rw [hw, storeByte_other _ _ _ _ hne]

theorem setBlockExpand_frame {t : Terrain} {live fl : List Nat} (ht : TerrainOK t live fl)
    {c : Nat} (hc : c < t.chunkCount)
    (hne : ∀ a, a ∈ live → t.topLevelArray c ≠ 2147483648 + a)
    (f₁ f₂ : Block) (h₁ : f₁.ok) (cv i v : Nat) (hi : i < 512) {b : Nat} (hb : b ∈ live)
    (j : Nat) (hj : j < 512) :
    (setBlockExpand f₁ f₂ t c cv i v).chunkPool.bytes (b * 512 + j) =
      t.chunkPool.bytes (b * 512 + j) := by
  have hlen : live.length < t.chunkCount := by
    rcases ht.live_lt hne with h | h
    · exact h
    · omega
  have hcl := ht.count_le
  have hroom₁ : 2 * live.length * t.chunkPool.unitSize < 4294967296 := by
    rw [ht.chunk_unit]; omega
  obtain ⟨_, hna, hok1, hus1, _, _, _, hbytes⟩ := ht.chunk_ok.alloc f₁ h₁ ht.chunk_owns hroom₁
  rw [ht.chunk_unit] at hus1 hbytes
  have hbb := hbytes b hb j hj
  unfold setBlockExpand
  simp only []
  generalize poolAllocatorAlloc f₁ t.chunkPool = r₁ at *
  have hn : r₁.2 ∈ r₁.2 :: live := List.mem_cons_self _ _
  have hnmax : r₁.2 < r₁.1.maxSize := hok1.lt_max (List.mem_append_left _ hn)
  have hoff := poolAllocatorGet_offset hok1 hnmax
  rw [hoff, hus1]
  have hbn : b ≠ r₁.2 := fun e => hna (e ▸ hb)
  have hout : b * 512 + j < r₁.2 * 512 ∨ r₁.2 * 512 + 512 ≤ b * 512 + j := by
    rcases Nat.lt_or_gt_of_ne hbn with h | h
    · left; omega
    · right; omega
  rw [expandedBytes_outside _ _ _ _ _ _ hi hout]
  exact hbb

theorem terrain_getBlock_empty (D : Bool) (t : Terrain) (x y z : Nat)
    (he : t.topLevelArray (getChunkIdx x y z t.width t.height) = 0) :
    terrain_getBlock D t x y z = 0 := by
  unfold terrain_getBlock
  split
  · rfl
  · simp only []
    rw [he, if_pos tag_zero]

/-- The three ways a `terrain_setBlock` at coordinates inside the grid can go. -/
theorem TerrainOK.setBlock_cases {t : Terrain} {live fl : List Nat} (ht : TerrainOK t live fl)
    (D : Bool) (f₁ f₂ : Block) {x y z : Nat} (v : Nat)
    (hx : x < t.width) (hy : y < t.height) (hz : z < t.width) :
    (NoopCase t x y z v ∧ terrain_setBlock D f₁ f₂ t x y z v = t ∧
      liveAfter D f₁ t x y z v live = live) ∨
    (∃ a, a ∈ live ∧
      t.topLevelArray (getChunkIdx x y z t.width t.height) = 2147483648 + a ∧
      terrain_setBlock D f₁ f₂ t x y z v =
        VoxelTerrain.setBlockExpanded t (getChunkIdx x y z t.width t.height) a (getWithinChunkIdx x y z) v ∧
      liveAfter D f₁ t x y z v live =
        if nowUniform t a (getWithinChunkIdx x y z) v then live.erase a else live) ∨
    (¬ NoopCase t x y z v ∧
      (∀ a, a ∈ live →
        t.topLevelArray (getChunkIdx x y z t.width t.height) ≠ 2147483648 + a) ∧
      terrain_setBlock D f₁ f₂ t x y z v =
        VoxelTerrain.setBlockExpand f₁ f₂ t (getChunkIdx x y z t.width t.height)
          (t.topLevelArray (getChunkIdx x y z t.width t.height) % 1073741824)
          (getWithinChunkIdx x y z) v ∧
      liveAfter D f₁ t x y z v live = (poolAllocatorAlloc f₁ t.chunkPool).2 :: live) := by
  have hb := boundsCheck_false D t x y z hx hy hz
  obtain ⟨_, _, h2, _⟩ := ht.entry_of_tag (ht.index_lt hx hy hz)
  by_cases hn : NoopCase t x y z v
  · left
    have hn' := hn
    unfold NoopCase at hn'
    simp only [← payload_eq_mod] at hn'
    exact ⟨hn, terrain_setBlock_noop D f₁ f₂ t x y z v hn', liveAfter_noop D f₁ t x y z v live hn'⟩
  · right
    have hn' := hn
    unfold NoopCase at hn'
    simp only [← payload_eq_mod] at hn'
    rw [not_or] at hn'
    by_cases htag : t.topLevelArray (getChunkIdx x y z t.width t.height) >>> 30 = 2
    · left
      obtain ⟨a, ha, he⟩ := h2 htag
      have halt := ht.handle_lt ha
      have hpay : u32 (t.topLevelArray (getChunkIdx x y z t.width t.height) <<< 2) >>> 2 = a := by
        rw [he]; exact payload_expanded a (by omega)
      have h1 := terrain_setBlock_expanded D f₁ f₂ t x y z v hb htag
      have h3 := liveAfter_expanded D f₁ t x y z v live hb htag
      rw [hpay] at h1 h3
      exact ⟨a, ha, he, h1, h3⟩
    · right
      have hne : ∀ a, a ∈ live →
          t.topLevelArray (getChunkIdx x y z t.width t.height) ≠ 2147483648 + a := by
        intro a ha he
        have := ht.handle_lt ha
        exact htag (by rw [he]; exact tag_expanded a (by omega))
      have h1 := terrain_setBlock_expand D f₁ f₂ t x y z v hb hn'.1 hn'.2 htag
      rw [payload_eq_mod] at h1
      exact ⟨hn, hne, h1, liveAfter_expand D f₁ t x y z v live hb hn'.1 hn'.2 htag⟩

/-- A `terrain_setBlock` leaves the top level entry and the block bytes of every other
chunk as they were, and an expanded other chunk keeps its handle in use. -/
theorem TerrainOK.other_chunk {t : Terrain} {live fl : List Nat} (ht : TerrainOK t live fl)
    (D : Bool) (f₁ f₂ : Block) (h₁ : f₁.ok) {x y z : Nat} (v : Nat)
    (hx : x < t.width) (hy : y < t.height) (hz : z < t.width)
    {c' : Nat} (hc' : c' < t.chunkCount) (hcc : c' ≠ getChunkIdx x y z t.width t.height) :
    (terrain_setBlock D f₁ f₂ t x y z v).topLevelArray c' = t.topLevelArray c' ∧
    ∀ b, b ∈ live → t.topLevelArray c' = 2147483648 + b →
      b ∈ liveAfter D f₁ t x y z v live ∧
      ∀ j, j < 512 →
        (terrain_setBlock D f₁ f₂ t x y z v).chunkPool.bytes (b * 512 + j) =
          t.chunkPool.bytes (b * 512 + j) := by
  have hi := getWithinChunkIdx_lt x y z
  have hc := ht.index_lt hx hy hz
  rcases ht.setBlock_cases D f₁ f₂ v hx hy hz with ⟨_, e1, e2⟩ | ⟨a, ha, he, e1, e2⟩ |
    ⟨_, hne, e1, e2⟩
  · rw [e1, e2]
    exact ⟨rfl, fun b hb _ => ⟨hb, fun _ _ => rfl⟩⟩
  · rw [e1, e2]
    have hba : ∀ b, b ∈ live → t.topLevelArray c' = 2147483648 + b → b ≠ a := by
      intro b hb heb hab
      rw [hab] at heb
      exact hcc (ht.inj c' _ a ha hc' hc heb he)
    constructor
    · by_cases hu : nowUniform t a (getWithinChunkIdx x y z) v = true
      · by_cases hv : v < 256
        · rw [setBlockExpanded_collapse ht ha _ _ v hi hv hu, Function.update_noteq hcc]
        · unfold VoxelTerrain.setBlockExpanded
          rw [if_pos hu]
          exact Function.update_noteq hcc _ _
      · rw [(setBlockExpanded_keep ht ha _ _ v hu).1]
    · intro b hb heb
      have hne := hba b hb heb
      refine ⟨?_, fun j hj => setBlockExpanded_frame ht ha hne _ _ v j hi hj⟩
      by_cases hu : nowUniform t a (getWithinChunkIdx x y z) v = true
      · rw [if_pos hu]
        exact (List.mem_erase_of_ne hne).mpr hb
      · rw [if_neg hu]
        exact hb
  · rw [e1, e2]
    refine ⟨(setBlockExpand_content ht hc hne f₁ f₂ h₁ _ _ v).2.1 c' hcc, ?_⟩
    intro b hb _
    exact ⟨List.mem_cons_of_mem _ hb,
      fun j hj => setBlockExpand_frame ht hc hne f₁ f₂ h₁ _ _ v hi hb j hj⟩

theorem TerrainOK.getBlock_frame {t : Terrain} {live fl : List Nat} (ht : TerrainOK t live fl)
    (D : Bool) (f₁ f₂ : Block) (h₁ : f₁.ok) (h₂ : f₂.ok) {x y z x' y' z' v : Nat}
    (hx : x < t.width) (hy : y < t.height) (hz : z < t.width) (hv : v < 256)
    (hx' : x' < t.width) (hy' : y' < t.height) (hz' : z' < t.width)
    (hcc : getChunkIdx x' y' z' t.width t.height ≠ getChunkIdx x y z t.width t.height) :
    terrain_getBlock D (terrain_setBlock D f₁ f₂ t x y z v) x' y' z' =
      terrain_getBlock D t x' y' z' := by
  obtain ⟨fl', ht'⟩ := ht.setBlock D f₁ f₂ h₁ h₂ x y z v hx hy hz hv
  obtain ⟨sw, sh, _⟩ := terrain_setBlock_shape D f₁ f₂ t x y z v
  have hc' := ht.index_lt hx' hy' hz'
  obtain ⟨harr, hlive⟩ := ht.other_chunk D f₁ f₂ h₁ v hx hy hz hc' hcc
  have hj := getWithinChunkIdx_lt x' y' z'
  rcases ht.entry _ hc' with h0 | ⟨w, _, hw, he⟩ | ⟨b, hb, he⟩
  · rw [terrain_getBlock_empty D t x' y' z' h0,
      terrain_getBlock_empty D _ x' y' z' (by rw [sw, sh, harr]; exact h0)]
  · rw [terrain_getBlock_uniform D t hx' hy' hz' hw he,
      terrain_getBlock_uniform D _ (by rw [sw]; exact hx') (by rw [sh]; exact hy')
        (by rw [sw]; exact hz') hw (by rw [sw, sh, harr]; exact he)]
  · obtain ⟨hb', hbytes⟩ := hlive b hb he
    rw [terrain_getBlock_expanded ht D hx' hy' hz' hb he,
      terrain_getBlock_expanded ht' D (by rw [sw]; exact hx') (by rw [sh]; exact hy')
        (by rw [sw]; exact hz') hb' (by rw [sw, sh, harr]; exact he)]
    unfold loadByte
    rw [hbytes _ hj]

/-! ## Properties C26 and C27: other chunks and the restricted round trip -/

/-- C26, as amended.  On a terrain of at most `2^22` chunks, for every state reached from the
all-empty terrain by `terrain_setBlock` calls with coordinates inside the grid, every
`(x, y, z)` inside the grid, every value and every coordinate `(x', y', z')` inside the grid
that lies in another 8 x 8 x 8 chunk: `terrain_getBlock(x', y', z')` returns the same value
after `terrain_setBlock(x, y, z, value)` as before it. -/
theorem cross_chunk_frame (D : Bool) (t : Terrain) (live : List Nat) (hr : Run D t live)
    (hc : t.width / 8 * (t.width / 8) * (t.height / 8) ≤ 4194304)
    (fresh₁ fresh₂ : Block) (h₁ : fresh₁.ok) (h₂ : fresh₂.ok) (x y z value x' y' z' : Nat)
    (hx : x < t.width) (hy : y < t.height) (hz : z < t.width) (hv : value < 256)
    (hx' : x' < t.width) (hy' : y' < t.height) (hz' : z' < t.width)
    (hdiff : ¬ (x' >>> 3 = x >>> 3 ∧ y' >>> 3 = y >>> 3 ∧ z' >>> 3 = z >>> 3)) :
    terrain_getBlock D (terrain_setBlock D fresh₁ fresh₂ t x y z value) x' y' z' =
      terrain_getBlock D t x' y' z' := by
  obtain ⟨fl, ht⟩ := hr.ok hc
  have hw := ht.width_mod
  have hh := ht.height_mod
  apply ht.getBlock_frame D fresh₁ fresh₂ h₁ h₂ hx hy hz hv hx' hy' hz'
  intro e
  apply hdiff
  have := (getChunkIdx_inj x' y' z' x y z t.width t.height (by omega) (by omega) (by omega)
    hx' hy' hz' hx hy hz).mp e
  simp only [Nat.shiftRight_eq_div_pow]
  exact this

set_option maxRecDepth 8000 in
/-- Witness of C26 (amended): on the 64 x 64 terrain after `terrain_setBlock(0, 0, 0, 5)`, the
call `terrain_setBlock(8, 0, 0, 7)` and the voxel `(1, 0, 0)` of the chunk at the origin. -/
theorem cross_chunk_frame_witness :
    terrain_getBlock false (terrain_setBlock false (sampleBlock 4294967296)
      (sampleBlock 8589934592) (terrain_setBlock false (sampleBlock 4294967296)
        (sampleBlock 8589934592) (emptyTerrain sampleBlocks 64 64) 0 0 0 5) 8 0 0 7) 1 0 0 =
    terrain_getBlock false (terrain_setBlock false (sampleBlock 4294967296)
      (sampleBlock 8589934592) (emptyTerrain sampleBlocks 64 64) 0 0 0 5) 1 0 0 :=
  cross_chunk_frame false _ _ sample_run (by decide) (sampleBlock 4294967296)
    (sampleBlock 8589934592) ⟨by decide, by decide⟩ ⟨by decide, by decide⟩ 8 0 0 7 1 0 0
    (by decide) (by decide) (by decide) (by decide) (by decide) (by decide) (by decide)
    (by decide)

set_option maxRecDepth 8000 in
/-- C26, counterexample.  On the terrain of 16384 x 16384 x 16384 voxels the chunk count
`2^33` wraps to 0 in `u32` and so does the chunk index of `(8193, 0, 0)`: it is 0, the index
of the chunk of `(1, 0, 0)`, although the two voxels lie in different chunks
(`8193 >> 3 = 1024`, `1 >> 3 = 0`).  In the all-empty terrain `terrain_getBlock(1, 0, 0)`
returns 0; after `terrain_setBlock(8193, 0, 0, 5)` it returns 5. -/
theorem cross_chunk_frame_fails_on_wrap :
    Run false (emptyTerrain sampleBlocks 16384 16384) [] ∧
    8193 < (emptyTerrain sampleBlocks 16384 16384).width ∧
    0 < (emptyTerrain sampleBlocks 16384 16384).height ∧
    1 < (emptyTerrain sampleBlocks 16384 16384).width ∧
    ¬ (1 >>> 3 = 8193 >>> 3 ∧ 0 >>> 3 = 0 >>> 3 ∧ 0 >>> 3 = 0 >>> 3) ∧
    getChunkIdx 8193 0 0 16384 16384 = 0 ∧
    getChunkIdx 1 0 0 16384 16384 = 0 ∧
    terrain_getBlock false (emptyTerrain sampleBlocks 16384 16384) 1 0 0 = 0 ∧
    terrain_getBlock false (terrain_setBlock false (sampleBlock 4294967296)
      (sampleBlock 8589934592) (emptyTerrain sampleBlocks 16384 16384) 8193 0 0 5) 1 0 0 = 5 := by
  refine ⟨?_, ?_, ?_, ?_, ?_, ?_, ?_, ?_, ?_⟩
  · exact Run.init sampleBlocks 16384 16384 (by decide) (by decide) (by decide) (by decide)
      ⟨by decide, by decide⟩ ⟨by decide, by decide⟩
  all_goals decide

/-- The restricted round trip beyond terrains of `2^22` chunks.  For every state of the
terrain (reached from the all-empty terrain or not), every `(x, y, z)` inside the grid and
every value `v`: if the addressed chunk is expanded before the call (with or without a
resulting collapse), or the call is one of the two no-op cases, or `(x & 7) != 0` and the
handle that `poolAllocatorAlloc` issues for the new chunk fits the 30 payload bits of a top
level entry, then `terrain_getBlock(x, y, z)` after `terrain_setBlock(x, y, z, v)` returns
`v`. -/
theorem round_trip_when_handle_fits (D : Bool) (t : Terrain) (fresh₁ fresh₂ : Block)
    (x y z v : Nat) (hx : x < t.width) (hy : y < t.height) (hz : z < t.width) (hv : v < 256)
    (h : t.topLevelArray (getChunkIdx x y z t.width t.height) >>> 30 = 2 ∨
      NoopCase t x y z v ∨
      (x &&& 7 ≠ 0 ∧ (poolAllocatorAlloc fresh₁ t.chunkPool).2 < 1073741824)) :
    terrain_getBlock D (terrain_setBlock D fresh₁ fresh₂ t x y z v) x y z = v := by
  obtain ⟨sw, sh, _⟩ := terrain_setBlock_shape D fresh₁ fresh₂ t x y z v
  have hi := getWithinChunkIdx_lt x y z
  have hb := boundsCheck_false D t x y z hx hy hz
  have hb' := boundsCheck_false D (terrain_setBlock D fresh₁ fresh₂ t x y z v) x y z
    (by rw [sw]; exact hx) (by rw [sh]; exact hy) (by rw [sw]; exact hz)
  by_cases hn : NoopCase t x y z v
  · have hn' := hn
    unfold NoopCase at hn'
    simp only [] at hn'
    have e1 : terrain_setBlock D fresh₁ fresh₂ t x y z v = t := by
      apply terrain_setBlock_noop
      rw [payload_eq_mod]
      exact hn'
    rw [e1]
    rcases hn' with ⟨ht0, hv0⟩ | ⟨ht3, hv3⟩
    · rw [terrain_getBlock_tag0 D t x y z ht0, hv0]
    · rw [terrain_getBlock_tag3 D t x y z hb ht3]
      omega
  · have hn0 : ¬ (t.topLevelArray (getChunkIdx x y z t.width t.height) >>> 30 = 0 ∧ v = 0) :=
      fun h0 => hn (Or.inl h0)
    have hn3 : ¬ (t.topLevelArray (getChunkIdx x y z t.width t.height) >>> 30 = 3 ∧
        v = u32 (t.topLevelArray (getChunkIdx x y z t.width t.height) <<< 2) >>> 2) := by
      intro h3
      rw [payload_eq_mod] at h3
      exact hn (Or.inr h3)
    by_cases h2 : t.topLevelArray (getChunkIdx x y z t.width t.height) >>> 30 = 2
    · have e1 := terrain_setBlock_expanded D fresh₁ fresh₂ t x y z v hb h2
      by_cases hu : nowUniform t
          (u32 (t.topLevelArray (getChunkIdx x y z t.width t.height) <<< 2) >>> 2)
          (getWithinChunkIdx x y z) v = true
      · have hcol := setBlockExpanded_entry t (getChunkIdx x y z t.width t.height) _ _ v hi hv hu
        rw [← e1] at hcol
        by_cases hv0 : v = 0
        · rw [if_neg (not_not.mpr hv0)] at hcol
          rw [terrain_getBlock_empty D _ x y z (by rw [sw, sh, hcol, Function.update_same]), hv0]
        · rw [if_pos hv0] at hcol
          exact terrain_getBlock_uniform D _ (by rw [sw]; exact hx) (by rw [sh]; exact hy)
            (by rw [sw]; exact hz) hv (by rw [sw, sh, hcol, Function.update_same])
      · have k1 : (terrain_setBlock D fresh₁ fresh₂ t x y z v).topLevelArray =
            t.topLevelArray := by
          rw [e1]; unfold setBlockExpanded; rw [if_neg hu]
        have h2' : (terrain_setBlock D fresh₁ fresh₂ t x y z v).topLevelArray
            (getChunkIdx x y z (terrain_setBlock D fresh₁ fresh₂ t x y z v).width
              (terrain_setBlock D fresh₁ fresh₂ t x y z v).height) >>> 30 = 2 := by
          rw [sw, sh, k1]; exact h2
        rw [terrain_getBlock_tag2 D _ x y z hb' h2', sw, sh, k1, e1]
        unfold setBlockExpanded blockByte
        rw [if_neg hu]
        unfold writtenPool poolAllocatorGet
        simp only []
        rw [loadByte_storeByte_same, u8_small v hv]
    · obtain ⟨hx7, hfit⟩ : x &&& 7 ≠ 0 ∧ (poolAllocatorAlloc fresh₁ t.chunkPool).2 < 1073741824 := by
        rcases h with h | h | h
        · exact absurd h h2
        · exact absurd h hn
        · exact h
      have e7 : x &&& 7 = x % 8 := Nat.and_pow_two_sub_one_eq_mod x 3
      rw [e7] at hx7
      have hge : ¬ getWithinChunkIdx x y z < 64 := by
        rw [getWithinChunkIdx_eq]
        omega
      have e1 := terrain_setBlock_expand D fresh₁ fresh₂ t x y z v hb hn0 hn3 h2
      have k1 : (terrain_setBlock D fresh₁ fresh₂ t x y z v).topLevelArray
          (getChunkIdx x y z t.width t.height) =
          2147483648 + (poolAllocatorAlloc fresh₁ t.chunkPool).2 := by
        rw [e1]
        unfold setBlockExpand
        simp only []
        rw [Function.update_same, entry_expanded _ hfit]
      have h2' : (terrain_setBlock D fresh₁ fresh₂ t x y z v).topLevelArray
          (getChunkIdx x y z (terrain_setBlock D fresh₁ fresh₂ t x y z v).width
            (terrain_setBlock D fresh₁ fresh₂ t x y z v).height) >>> 30 = 2 := by
        rw [sw, sh, k1]; exact tag_expanded _ hfit
      rw [terrain_getBlock_tag2 D _ x y z hb' h2', sw, sh, k1, payload_expanded _ hfit, e1]
      unfold setBlockExpand blockByte
      simp only []
      have := expandedBytes_inside (poolAllocatorAlloc fresh₁ t.chunkPool).1.bytes
        (ptrOffset (poolAllocatorAlloc fresh₁ t.chunkPool).1.memory
          (poolAllocatorGet (poolAllocatorAlloc fresh₁ t.chunkPool).1
            (poolAllocatorAlloc fresh₁ t.chunkPool).2))
        (u32 (t.topLevelArray (getChunkIdx x y z t.width t.height) <<< 2) >>> 2)
        (getWithinChunkIdx x y z) v (getWithinChunkIdx x y z) hi
      rw [if_neg hge, if_pos rfl, u8_small v hv] at this
      exact this

theorem PoolHistory.issued_carved {p : PoolAllocator} {live issued : List Nat}
    (hr : PoolHistory p live issued) :
    ∃ fl, PoolOK p live fl ∧ ∀ h, h ∈ issued → h < p.maxSize - p.unused := by
  induction hr with
  | create fresh memory c us hf hm hc h8 hcap =>
    exact ⟨[], poolAllocatorCreate_consistent fresh memory c us hf hm hc h8 hcap,
      fun h hh => absurd hh (List.not_mem_nil h)⟩
  | alloc p live issued fresh _ hf hs hroom ih =>
    obtain ⟨fl, hok, hiss⟩ := ih
    obtain ⟨_, _, hok'⟩ := hok.alloc_success fresh hf hs hroom
    refine ⟨fl.tail, hok', ?_⟩
    have l1 := hok.length_add
    have l2 := hok'.length_add
    have hmono : p.maxSize - p.unused ≤
        (poolAllocatorAlloc fresh p).1.maxSize - (poolAllocatorAlloc fresh p).1.unused := by
      rw [← l1, ← l2]
      simp only [List.length_append, List.length_cons, List.length_tail]
      omega
    intro h hh
    rcases List.mem_cons.mp hh with e | e
    · rw [e]
      exact (hok'.carved _).mp (List.mem_append_left _ (List.mem_cons_self _ _))
    · exact Nat.lt_of_lt_of_le (hiss h e) hmono
  | dealloc p live issued h _ hh ih =>
    obtain ⟨fl, hok, hiss⟩ := ih
    have hok' := hok.dealloc hh
    refine ⟨h :: fl, hok', ?_⟩
    have l1 := hok.length_add
    have l2 := hok'.length_add
    have hlen : (live.erase h).length + 1 = live.length := by
      rw [List.length_erase_of_mem hh]
      have : 0 < live.length := List.length_pos_of_mem hh
      omega
    have hsame : (poolAllocatorDealloc p h).maxSize - (poolAllocatorDealloc p h).unused =
        p.maxSize - p.unused := by
      rw [← l1, ← l2]
      simp only [List.length_append, List.length_cons]
      omega
    intro a ha
    rw [hsame]
    exact hiss a ha

theorem PoolOK.grow_only_when_full {p : PoolAllocator} {live fl : List Nat}
    (h : PoolOK p live fl) (fresh : Block)
    (hg : (poolAllocatorAlloc fresh p).1.maxSize ≠ p.maxSize) :
    p.size = p.maxSize ∧ fl = [] ∧ p.nextFree = 0 ∧ p.unused = 0 := by
  have hus := h.unit_ge
  have hcap := h.cap
  have hmh := h.mem_hi
  have hmp := h.mem_pos
  have hlen := h.length_add
  have hll := h.length_lt
  cases fl with
  | cons a rest =>
    obtain ⟨hc1, _⟩ := h.chain
    have ha : a < p.maxSize := h.lt_max (by simp)
    have hoff := unit_end_le p.unitSize _ _ ha
    rw [alloc_eq_pop p fresh a live.length hc1 hmp hmh (by omega) (by omega) h.size_eq hll] at hg
    exact absurd rfl hg
  | nil =>
    have hnf : p.nextFree = 0 := h.chain
    by_cases hu : p.unused > 0
    · rw [alloc_eq_carve p fresh live.length hnf hmh hmp (by omega) hu h.unused_le hcap
        h.size_eq hll] at hg
      exact absurd rfl hg
    · have hu0 : p.unused = 0 := by omega
      refine ⟨?_, rfl, hnf, hu0⟩
      rw [h.size_eq]
      simp only [List.length_nil, Nat.add_zero] at hlen
      omega

/-- C28, as amended.  For every pool created with a capacity of at least 1 and a unit size of
at least 8 bytes and driven by `poolAllocatorAlloc` and by `poolAllocatorDealloc` of handles
in use, with `maxSize * unitSize < 2^32` throughout: `size` is the number of handles in use,
`size + unused + (length of the free list) == maxSize`, the free list holds no handle in use
and no duplicate, the handles in use and the free ones are exactly the indices below
`maxSize - unused`, every handle ever returned is below `maxSize - unused`, and a
`poolAllocatorAlloc` changes `maxSize` only when `size == maxSize` and the free list is
empty. -/
theorem pool_accounting (p : PoolAllocator) (live issued : List Nat)
    (hr : PoolHistory p live issued) :
    ∃ fl, Chain p.bytes p.memory p.unitSize fl p.nextFree ∧
      p.size = live.length ∧
      p.size + p.unused + fl.length = p.maxSize ∧
      (∀ h, h ∈ fl → h ∉ live) ∧ fl.Nodup ∧
      (∀ h, (h ∈ live ∨ h ∈ fl) ↔ h < p.maxSize - p.unused) ∧
      (∀ h, h ∈ issued → h < p.maxSize - p.unused) ∧
      (∀ fresh : Block, (poolAllocatorAlloc fresh p).1.maxSize ≠ p.maxSize →
        p.size = p.maxSize ∧ fl = []) := by
  obtain ⟨fl, hok, hiss⟩ := hr.issued_carved
  have hnd := List.nodup_append.mp hok.nodup
  refine ⟨fl, hok.chain, hok.size_eq, ?_, ?_, hnd.2.1, ?_, hiss, ?_⟩
  · have l1 := hok.length_add
    have l2 := hok.unused_le
    rw [hok.size_eq]
    omega
  · intro h hf hl
    exact hnd.2.2 hl hf
  · intro h
    rw [← List.mem_append]
    exact hok.carved h
  · intro fresh hg
    obtain ⟨g1, g2, _, _⟩ := hok.grow_only_when_full fresh hg
    exact ⟨g1, g2⟩

theorem samplePool_history : PoolHistory samplePool [0] [0] :=
  PoolHistory.alloc (poolAllocatorCreate (sampleBlock 1048576) 65536 512 (sampleBlock 0)) [] []
    (sampleBlock 4294967296)
    (PoolHistory.create _ _ _ _ ⟨by decide, by decide⟩ (Or.inl rfl) (by decide) (by decide)
      (by decide))
    ⟨by decide, by decide⟩ (by decide) (by decide)

/-- Witness of C28 (amended): the pool of 65536 units of 512 bytes after its first
allocation, which returned the handle 0. -/
theorem pool_accounting_witness :
    PoolHistory samplePool [0] [0] ∧
    ∃ fl : List Nat, samplePool.size = [0].length ∧
      samplePool.size + samplePool.unused + fl.length = samplePool.maxSize :=
  ⟨samplePool_history,
    match pool_accounting samplePool [0] [0] samplePool_history with
    | ⟨fl, h⟩ => ⟨fl, h.2.1, h.2.2.1⟩⟩

/-- C28, counterexample.  The pool created with capacity 4 and a unit size of 4 bytes (so
`maxSize * unitSize < 2^32`), after two allocations (handles 0 and 1) and the deallocation of
1 and of 0: `size` is 0, `unused` is 2 and `maxSize` is 4, the free list starts at unit 0,
whose link points to unit 1, and the link of unit 1, overwritten by the upper half of the
8 byte link of unit 0, is the address 1 and not `NULL`: the free list has more than the two
entries that `size + unused + length == maxSize` asks for. -/
theorem pool_accounting_breaks_small_units :
    (allocRepeat (sampleBlock 4294967296)
      (poolAllocatorCreate (sampleBlock 4294967296) 4 4 (sampleBlock 0)) 2).size = 2 ∧
    (poolAllocatorDealloc (poolAllocatorDealloc (allocRepeat (sampleBlock 4294967296)
      (poolAllocatorCreate (sampleBlock 4294967296) 4 4 (sampleBlock 0)) 2) 1) 0).size = 0 ∧
    (poolAllocatorDealloc (poolAllocatorDealloc (allocRepeat (sampleBlock 4294967296)
      (poolAllocatorCreate (sampleBlock 4294967296) 4 4 (sampleBlock 0)) 2) 1) 0).unused = 2 ∧
    (poolAllocatorDealloc (poolAllocatorDealloc (allocRepeat (sampleBlock 4294967296)
      (poolAllocatorCreate (sampleBlock 4294967296) 4 4 (sampleBlock 0)) 2) 1) 0).maxSize = 4 ∧
    (poolAllocatorDealloc (poolAllocatorDealloc (allocRepeat (sampleBlock 4294967296)
      (poolAllocatorCreate (sampleBlock 4294967296) 4 4 (sampleBlock 0)) 2) 1) 0).nextFree
      = 4294967296 + 0 * 4 ∧
    loadWord (poolAllocatorDealloc (poolAllocatorDealloc (allocRepeat (sampleBlock 4294967296)
      (poolAllocatorCreate (sampleBlock 4294967296) 4 4 (sampleBlock 0)) 2) 1) 0).bytes (0 * 4)
      = 4294967296 + 1 * 4 ∧
    loadWord (poolAllocatorDealloc (poolAllocatorDealloc (allocRepeat (sampleBlock 4294967296)
      (poolAllocatorCreate (sampleBlock 4294967296) 4 4 (sampleBlock 0)) 2) 1) 0).bytes (1 * 4)
      = 1 := by
  refine ⟨?_, ?_, ?_, ?_, ?_, ?_, ?_⟩ <;> decide

end VoxelTerrain
